import Mathlib

/-! Dense square matrix multiplication: three engines and their layout transforms.

A shallow embedding of `Test5/Individual Test/test5.c`.

* A `TYPE**` operand is an array of independently allocated rows (`JaggedMatrix`);
  a `TYPE*` flat buffer is an `Array`.
* The element type `TYPE` is kept abstract: the engines only need `+`, `*` and `0`,
  and they are stated once for every such type.  The closed forms with a sum over `k`
  are stated over a semiring (exact arithmetic).
* `int dimension` is an `Int`; a counting loop `for (i = 0; i < dimension; i++)` runs
  `dimension.toNat` times, so it does not run at all for `dimension ≤ 0`.
* Arithmetic on `int` (`dimension * dimension`, `i * dimension + j`, `n_thread * 5`) wraps
  to 32 bits (`intMul`, `intAdd`), as it does on two's-complement targets; C itself leaves
  the overflow undefined.  An allocation whose element count came out negative fails; the
  failed allocation is a buffer without elements, a store outside a buffer stores nothing
  and a load outside a buffer reads `0`.  Every statement about a dimension whose square
  fits an `int` (`dimension ≤ 46340`) is independent of these choices.
* `malloc` returns storage with indeterminate contents; those contents are the
  `junk` argument of every function that allocates, and every result is stated for
  all `junk`.
* `gettimeofday` and `rand` are inputs: the two clock readings are arguments of the
  engines, the generator's outputs are a stream indexed by the number of earlier calls.
* The latency is computed as the source does: the two differences in `long` (64 bits,
  `longSub`), everything after that in single precision, where every conversion and every
  operation rounds to binary32, round to nearest, ties to even (`roundF32`).  The values
  are kept as rationals; overflow to infinity (beyond `2^128`) is not represented.
* The loop under `schedule(dynamic, chunk)` is run through the dispatcher of the OpenMP
  runtime (`dynamicFor`): a worker asks for the next chunk of `chunk` iterations until no
  iteration is left.  The runtime is not part of the repository; the dispatcher follows
  the OpenMP definition of the dynamic schedule, as `libgomp` implements it.  OpenMP asks
  for a positive `chunk`; handed `chunk = 0`, the dispatcher of `libgomp` answers every
  request with an empty chunk and never reports the loop as done.
* The work-sharing loops of the two parallel engines are embedded twice: run by one
  worker in index order inside the engines, and as an interleaving semantics over worker
  threads (`runSchedule`) in which every load and store of `result` is a separate step.
-/

namespace MatMul

variable {α : Type}

/-! ## Memory -/

/-- A `TYPE**` matrix: an array of rows, each row an array of elements. -/
abbrev JaggedMatrix (α : Type) := Array (Array α)

/-- The rvalue `matrix[i][j]`. -/
def readCell [Zero α] (matrix : JaggedMatrix α) (i j : Nat) : α :=
  (matrix.getD i #[]).getD j 0

/-- The store `matrix[i][j] = v`. -/
def writeCell (matrix : JaggedMatrix α) (i j : Nat) (v : α) : JaggedMatrix α :=
  matrix.setD i ((matrix.getD i #[]).setD j v)

/-- The loop `for (i = 0; i < bound; i++) body`, threading the program state. -/
def forLoop {σ : Type} (bound : Int) (body : Nat → σ → σ) (s : σ) : σ :=
  (List.range bound.toNat).foldl (fun s i => body i s) s

/-- The call `malloc(count * sizeof(TYPE))`: `count` slots holding whatever `junk` was
in memory before.  A negative `count` becomes a request the allocator cannot serve: no
slot at all. -/
def malloc (junk : Nat → α) (count : Int) : Array α :=
  ((List.range count.toNat).map junk).toArray

/-- A matrix has `n` rows and every row has `n` elements. -/
def IsSquare (matrix : JaggedMatrix α) (n : Nat) : Prop :=
  matrix.size = n ∧ ∀ i, i < n → (matrix.getD i #[]).size = n

instance (matrix : JaggedMatrix α) (n : Nat) : Decidable (IsSquare matrix n) := by
  unfold IsSquare
  infer_instance

/-- A mathematical integer wrapped to a 32-bit two's-complement `int`. -/
def wrapInt (x : Int) : Int :=
  (x + 2147483648) % 4294967296 - 2147483648

/-- The product `a * b` of two `int`s. -/
def intMul (a b : Int) : Int :=
  wrapInt (a * b)

/-- The sum `a + b` of two `int`s. -/
def intAdd (a b : Int) : Int :=
  wrapInt (a + b)

/-- The rvalue `buffer[idx]` of a flat buffer. -/
def loadFlat [Zero α] (buffer : Array α) (idx : Int) : α :=
  if 0 ≤ idx then buffer.getD idx.toNat 0 else 0

/-- The store `buffer[idx] = v` to a flat buffer. -/
def storeFlat (buffer : Array α) (idx : Int) (v : α) : Array α :=
  if 0 ≤ idx then buffer.setD idx.toNat v else buffer

/-! ## Timing -/

/-- Rounding to the nearest integer, ties to the even one. -/
def roundHalfEven (x : ℚ) : Int :=
  if x - ⌊x⌋ < 1 / 2 then ⌊x⌋
  else if 1 / 2 < x - ⌊x⌋ then ⌊x⌋ + 1
  else if ⌊x⌋ % 2 = 0 then ⌊x⌋ else ⌊x⌋ + 1

/-- The exponent of the unit in the last place of binary32 at `x`: 24 significant bits,
and `2^-149` in the subnormal range. -/
def ulpExponent (x : ℚ) : Int :=
  max (Int.log 2 |x| - 23) (-149)

/-- The unit in the last place of binary32 at `x`. -/
def ulp32 (x : ℚ) : ℚ :=
  (2 : ℚ) ^ ulpExponent x

/-- The binary32 (`float`) number nearest to `x`, ties to even. -/
def roundF32 (x : ℚ) : ℚ :=
  (roundHalfEven (x / ulp32 x) : ℚ) * ulp32 x

/-- A `struct timeval` as filled in by `gettimeofday`. -/
structure Timeval where
  tv_sec : Int
  tv_usec : Int

/-- A mathematical integer wrapped to a 64-bit two's-complement `long`. -/
def wrapLong (x : Int) : Int :=
  (x + 9223372036854775808) % 18446744073709551616 - 9223372036854775808

/-- The difference `a - b` of two `long`s. -/
def longSub (a b : Int) : Int :=
  wrapLong (a - b)

/-- The expression
`(t1.tv_sec-t0.tv_sec) * 1.0f + (t1.tv_usec - t0.tv_usec) / 1000000.0f`
as C evaluates it: each `long` difference is converted to `float`, and the product, the
quotient and the sum are `float` operations.  The value is then widened to `double`,
which changes nothing. -/
def elapsedSeconds (t0 t1 : Timeval) : ℚ :=
  roundF32 (roundF32 (roundF32 (longSub t1.tv_sec t0.tv_sec : ℚ) * roundF32 1)
    + roundF32 (roundF32 (longSub t1.tv_usec t0.tv_usec : ℚ) / roundF32 1000000))

/-! ## Matrix factory -/

/-- The function `randomMatrix`.  `rand c` is the value returned by the call of `rand()`
that has `c` earlier calls before it (counted from the reseed). -/
def randomMatrix [IntCast α] (junk : Nat → Nat → α) (rand : Nat → Int) (dimension : Int) :
    JaggedMatrix α :=
  let matrix : JaggedMatrix α := Array.mkArray dimension.toNat #[]
  let matrix := forLoop dimension (fun i matrix => matrix.setD i (malloc (junk i) dimension)) matrix
  let filled := forLoop dimension (fun i st =>
    forLoop dimension (fun j (st : JaggedMatrix α × Nat) =>
      (writeCell st.1 i j ((Int.tmod (rand st.2) 1000 + 1 : Int) : α), st.2 + 1)) st) (matrix, 0)
  filled.1

/-- The function `zeroMatrix`. -/
def zeroMatrix [Zero α] (junk : Nat → Nat → α) (dimension : Int) : JaggedMatrix α :=
  let matrix : JaggedMatrix α := Array.mkArray dimension.toNat #[]
  let matrix := forLoop dimension (fun i matrix => matrix.setD i (malloc (junk i) dimension)) matrix
  forLoop dimension (fun i matrix =>
    forLoop dimension (fun j matrix => writeCell matrix i j 0) matrix) matrix

/-! ## Layout transformer -/

/-- The function `rowMajor`. -/
def rowMajor [Zero α] (junk : Nat → α) (matrix : JaggedMatrix α) (dimension : Int) : Array α :=
  let flatMatrix := malloc junk (intMul dimension dimension)
  forLoop dimension (fun i flatMatrix =>
    forLoop dimension (fun j flatMatrix =>
      storeFlat flatMatrix (intAdd (intMul i dimension) j) (readCell matrix i j))
      flatMatrix) flatMatrix

/-- The function `columnMajor`. -/
def columnMajor [Zero α] (junk : Nat → α) (matrix : JaggedMatrix α) (dimension : Int) : Array α :=
  let flatMatrix := malloc junk (intMul dimension dimension)
  forLoop dimension (fun i flatMatrix =>
    forLoop dimension (fun j flatMatrix =>
      storeFlat flatMatrix (intAdd (intMul j dimension) i) (readCell matrix i j))
      flatMatrix) flatMatrix

/-- The function `copyOf`; its second argument is a number of elements. -/
def copyOf [Zero α] (junk : Nat → α) (matrix : Array α) (dimension : Int) : Array α :=
  let copy := malloc junk dimension
  forLoop dimension (fun i copy => copy.setD i (matrix.getD i 0)) copy

/-- The loops of `rowMajor` with every store also recorded: the buffer together with
the list of the indices stored to, in program order. -/
def rowMajorTrace [Zero α] (junk : Nat → α) (matrix : JaggedMatrix α) (dimension : Int) :
    Array α × List Int :=
  let flatMatrix := malloc junk (intMul dimension dimension)
  forLoop dimension (fun i st =>
    forLoop dimension (fun j (st : Array α × List Int) =>
      (storeFlat st.1 (intAdd (intMul i dimension) j) (readCell matrix i j),
        st.2 ++ [intAdd (intMul i dimension) j])) st) (flatMatrix, [])

/-- The loops of `columnMajor` with every store also recorded. -/
def columnMajorTrace [Zero α] (junk : Nat → α) (matrix : JaggedMatrix α) (dimension : Int) :
    Array α × List Int :=
  let flatMatrix := malloc junk (intMul dimension dimension)
  forLoop dimension (fun i st =>
    forLoop dimension (fun j (st : Array α × List Int) =>
      (storeFlat st.1 (intAdd (intMul j dimension) i) (readCell matrix i j),
        st.2 ++ [intAdd (intMul j dimension) i])) st) (flatMatrix, [])

/-! ## Multiplication engines -/

/-- The function `sequentialMultiply`: the updated `result` and the returned latency.
`t0` and `t1` are the two readings of `gettimeofday`. -/
def sequentialMultiply [Add α] [Mul α] [Zero α] (matrixA matrixB result : JaggedMatrix α)
    (dimension : Int) (t0 t1 : Timeval) : JaggedMatrix α × ℚ :=
  let result := forLoop dimension (fun i result =>
    forLoop dimension (fun j result =>
      forLoop dimension (fun k result =>
        writeCell result i j (readCell result i j + readCell matrixA i k * readCell matrixB k j))
        result) result) result
  let elapsed := elapsedSeconds t0 t1
  (result, elapsed)

/-- The function `parallelMultiply`, its work-sharing loop run in index order. -/
def parallelMultiply [Add α] [Mul α] [Zero α] (matrixA matrixB result : JaggedMatrix α)
    (dimension : Int) (t0 t1 : Timeval) : JaggedMatrix α × ℚ :=
  let result := forLoop dimension (fun i result =>
    forLoop dimension (fun j result =>
      forLoop dimension (fun k result =>
        writeCell result i j (readCell result i j + readCell matrixA i k * readCell matrixB k j))
        result) result) result
  let elapsed := elapsedSeconds t0 t1
  (result, elapsed)

/-- The chunk size `dimension / (n_thread * 5)` handed to `schedule(dynamic, chunk)`;
`/` on `int` truncates. -/
def chunkSize (dimension n_thread : Int) : Int :=
  Int.tdiv dimension (intMul n_thread 5)

/-- The iterations `lo, lo+1, ..., hi-1` of one chunk, in order. -/
def chunkLoop {σ : Type} (lo hi : Int) (body : Nat → σ → σ) (s : σ) : σ :=
  (List.range (hi - lo).toNat).foldl (fun s k => body (lo.toNat + k) s) s

/-- The loop `for (i = 0; i < bound; i++) body` under `schedule(dynamic, chunk)`, run by
one worker through the dispatcher of the OpenMP runtime: while the dispatcher's counter
`next` is below `bound`, the worker is handed the iterations from `next` up to
`next + chunk` (cut off at `bound`) and the counter moves on by `chunk`; the worker
leaves the loop on the first request that finds the counter at or beyond `bound`.
`fuel` is the number of requests looked at; the flag tells whether the loop was left.
With `chunk = 0` every request is answered with an empty chunk and the counter stays. -/
def dynamicFor {σ : Type} (fuel : Nat) (chunk bound : Int) (body : Nat → σ → σ)
    (next : Int) (s : σ) : σ × Bool :=
  match fuel with
  | 0 => (s, false)
  | fuel + 1 =>
    if bound ≤ next then (s, true)
    else dynamicFor fuel chunk bound body (next + chunk)
      (chunkLoop next (min (next + chunk) bound) body s)

/-- The function `optimizedParallelMultiply` run by one worker.  `n_thread` is the value
of `omp_get_num_threads()`.  The result is `none` when the work-sharing loop has not been
left after `fuel` requests to the dispatcher. -/
def optimizedParallelMultiply [Add α] [Mul α] [Zero α] (fuel : Nat) (junk : Nat → Nat → α)
    (n_thread : Int) (matrixA matrixB result : JaggedMatrix α) (dimension : Int)
    (t0 t1 : Timeval) : Option (JaggedMatrix α × ℚ) :=
  let matrixFlatA := rowMajor (junk 0) matrixA dimension
  let matrixFlatB := columnMajor (junk 1) matrixB dimension
  let size := intMul dimension dimension
  let tempA := copyOf (junk 2) matrixFlatA size
  let tempB := copyOf (junk 3) matrixFlatB size
  let chunk := chunkSize dimension n_thread
  let run := dynamicFor fuel chunk dimension (fun i result =>
    forLoop dimension (fun j result =>
      let tot := forLoop dimension (fun k tot =>
        tot + loadFlat tempA (intAdd (intMul dimension i) k)
          * loadFlat tempB (intAdd (intMul dimension j) k)) 0
      writeCell result i j tot) result) 0 result
  let elapsed := elapsedSeconds t0 t1
  if run.2 then some (run.1, elapsed) else none

/-- The work-sharing loop of `optimizedParallelMultiply` with only the visits recorded:
the rows whose iteration has been run after `fuel` requests, in order, and whether the
loop was left. -/
def optimizedRowVisits (fuel : Nat) (dimension n_thread : Int) : List Nat × Bool :=
  dynamicFor fuel (chunkSize dimension n_thread) dimension (fun i visited => visited ++ [i]) 0 []

/-! ## Reference notions used by the statements -/

/-- The dot product of row `i` of `matrixA` with column `j` of `matrixB`, accumulated
onto `init` from `k = 0` upwards, one addition at a time. -/
def dotFrom [Add α] [Mul α] [Zero α] (init : α) (matrixA matrixB : JaggedMatrix α) (i j : Nat)
    (count : Nat) : α :=
  (List.range count).foldl (fun acc k => acc + readCell matrixA i k * readCell matrixB k j) init

/-- The first `n` rows and columns of a jagged matrix as a mathematical matrix. -/
def toMatrix [Zero α] (matrix : JaggedMatrix α) (n : Nat) : Matrix (Fin n) (Fin n) α :=
  Matrix.of (fun i j => readCell matrix i.val j.val)

/-- The transpose of the leading `n × n` block of a jagged matrix. -/
def transpose [Zero α] (matrix : JaggedMatrix α) (n : Nat) : JaggedMatrix α :=
  ((List.range n).map (fun i => ((List.range n).map (fun j => readCell matrix j i)).toArray)).toArray

/-- Reading a flat buffer back as a matrix by `U[i][j] = buffer[i*n + j]`. -/
def unflattenRowMajor [Zero α] (buffer : Array α) (n : Nat) : JaggedMatrix α :=
  ((List.range n).map
    (fun i => ((List.range n).map (fun j => buffer.getD (i * n + j) 0)).toArray)).toArray

/-- Reading a flat buffer back as a matrix by `U[i][j] = buffer[j*n + i]`. -/
def unflattenColumnMajor [Zero α] (buffer : Array α) (n : Nat) : JaggedMatrix α :=
  ((List.range n).map
    (fun i => ((List.range n).map (fun j => buffer.getD (j * n + i) 0)).toArray)).toArray

/-! ## Outcomes of calls -/

/-- The error kinds named by the specification. -/
inductive MatMulError where
  | InvalidDimension
  | AllocationError
  deriving DecidableEq, Repr

/-- What a caller of `randomMatrix` gets back.  The function has no error exit: it
returns its matrix on every path. -/
def randomMatrixCall [IntCast α] (junk : Nat → Nat → α) (rand : Nat → Int) (dimension : Int) :
    Except MatMulError (JaggedMatrix α) :=
  Except.ok (randomMatrix junk rand dimension)

/-- What a caller of `zeroMatrix` gets back; no error exit either. -/
def zeroMatrixCall [Zero α] (junk : Nat → Nat → α) (dimension : Int) :
    Except MatMulError (JaggedMatrix α) :=
  Except.ok (zeroMatrix junk dimension)

/-- What a caller of `sequentialMultiply` gets back; no error exit. -/
def sequentialMultiplyCall [Add α] [Mul α] [Zero α] (matrixA matrixB result : JaggedMatrix α)
    (dimension : Int) (t0 t1 : Timeval) : Except MatMulError (JaggedMatrix α × ℚ) :=
  Except.ok (sequentialMultiply matrixA matrixB result dimension t0 t1)

/-- What a caller of `parallelMultiply` gets back; no error exit. -/
def parallelMultiplyCall [Add α] [Mul α] [Zero α] (matrixA matrixB result : JaggedMatrix α)
    (dimension : Int) (t0 t1 : Timeval) : Except MatMulError (JaggedMatrix α × ℚ) :=
  Except.ok (parallelMultiply matrixA matrixB result dimension t0 t1)

/-- What a caller of `optimizedParallelMultiply` gets back once the call has returned
(`none` while it has not); no error exit. -/
def optimizedParallelMultiplyCall [Add α] [Mul α] [Zero α] (fuel : Nat) (junk : Nat → Nat → α)
    (n_thread : Int) (matrixA matrixB result : JaggedMatrix α) (dimension : Int)
    (t0 t1 : Timeval) : Option (Except MatMulError (JaggedMatrix α × ℚ)) :=
  (optimizedParallelMultiply fuel junk n_thread matrixA matrixB result dimension t0 t1).map
    Except.ok

/-! ## Work-sharing loops as interleavings of workers -/

/-- One step of a worker inside a work-sharing loop: a load of `result[i][j]` into the
worker's register, a store to `result[i][j]` of a value computed from the register, or a
request to the dispatcher that is answered with an empty chunk. -/
inductive Op (α : Type) where
  | load (i j : Nat) : Op α
  | store (i j : Nat) (f : α → α) : Op α
  | request : Op α

/-- The row of `result` an access touches. -/
def Op.row : Op α → Nat
  | Op.load i _ => i
  | Op.store i _ _ => i
  | Op.request => 0

/-- The column of `result` an access touches. -/
def Op.col : Op α → Nat
  | Op.load _ j => j
  | Op.store _ j _ => j
  | Op.request => 0

/-- Whether the step is an access to `result`. -/
def Op.isAccess : Op α → Bool
  | Op.load _ _ => true
  | Op.store _ _ _ => true
  | Op.request => false

/-- A worker thread: the steps it still has to make, in program order, and its register. -/
structure Worker (α : Type) where
  todo : List (Op α)
  reg : α

/-- A store to `result[row][col]` made by `worker`. -/
structure StoreEvent where
  worker : Nat
  row : Nat
  col : Nat
  deriving DecidableEq, Repr

/-- The state of a parallel region: every worker, the shared `result`, and the stores made
so far. -/
structure Config (α : Type) where
  workers : Nat → Worker α
  shared : JaggedMatrix α
  log : List StoreEvent

/-- Worker `w` makes its next step; a worker that has finished does nothing, and a worker
whose request is answered with an empty chunk has to ask again. -/
def step [Zero α] (w : Nat) (c : Config α) : Config α :=
  match (c.workers w).todo with
  | [] => c
  | Op.load i j :: rest =>
    { workers := fun x => if x = w then { todo := rest, reg := readCell c.shared i j }
        else c.workers x,
      shared := c.shared,
      log := c.log }
  | Op.store i j f :: rest =>
    { workers := fun x => if x = w then { todo := rest, reg := (c.workers w).reg }
        else c.workers x,
      shared := writeCell c.shared i j (f (c.workers w).reg),
      log := c.log ++ [{ worker := w, row := i, col := j }] }
  | Op.request :: _ => c

/-- An interleaving: `schedule` lists, in order, which worker makes the next step. -/
def runSchedule [Zero α] (schedule : List Nat) (c : Config α) : Config α :=
  schedule.foldl (fun c w => step w c) c

/-- One access made by a worker that runs alone. -/
def execOp [Zero α] (op : Op α) (s : JaggedMatrix α × α) : JaggedMatrix α × α :=
  match op with
  | Op.load i j => (s.1, readCell s.1 i j)
  | Op.store i j f => (writeCell s.1 i j (f s.2), s.2)
  | Op.request => s

/-- A list of accesses made by a worker that runs alone. -/
def execOps [Zero α] (ops : List (Op α)) (s : JaggedMatrix α × α) : JaggedMatrix α × α :=
  ops.foldl (fun s op => execOp op s) s

/-- The accesses to `result` of iteration `i` of the work-sharing loop of
`parallelMultiply`: every `result[i][j] += matrixA[i][k] * matrixB[k][j]` is a load
followed by a store. -/
def parallelRowOps [Add α] [Mul α] [Zero α] (matrixA matrixB : JaggedMatrix α)
    (dimension : Int) (i : Nat) : List (Op α) :=
  forLoop dimension (fun j ops =>
    forLoop dimension (fun k ops =>
      ops ++ [Op.load i j,
        Op.store i j (fun r => r + readCell matrixA i k * readCell matrixB k j)]) ops) []

/-- The accesses to `result` of iteration `i` of the work-sharing loop of
`optimizedParallelMultiply`: `tot` is accumulated in a register from the worker's private
copies and stored once per cell. -/
def optimizedRowOps [Add α] [Mul α] [Zero α] (tempA tempB : Array α) (dimension : Int)
    (i : Nat) : List (Op α) :=
  forLoop dimension (fun j ops =>
    let tot := forLoop dimension (fun k tot =>
      tot + loadFlat tempA (intAdd (intMul dimension i) k)
        * loadFlat tempB (intAdd (intMul dimension j) k)) 0
    ops ++ [Op.store i j (fun _ => tot)]) []

/-- The start of a work-sharing loop over rows `0 .. dimension-1`: worker `w` is handed the
iterations `i` with `owner i = w`, in increasing order; `rowOps w i` is what iteration `i`
does when worker `w` runs it. -/
def startConfig (rowOps : Nat → Nat → List (Op α)) (reg0 : Nat → α) (owner : Nat → Nat)
    (dimension : Int) (result : JaggedMatrix α) : Config α :=
  { workers := fun w =>
      { todo := forLoop dimension (fun i ops =>
          if owner i = w then ops ++ rowOps w i else ops) [],
        reg := reg0 w },
    shared := result,
    log := [] }

/-- The parallel region of `parallelMultiply` at its start; under `schedule(static)` every
row is handed to a worker before the loop starts. -/
def parallelStart [Add α] [Mul α] [Zero α] (matrixA matrixB result : JaggedMatrix α)
    (dimension : Int) (owner : Nat → Nat) (reg0 : Nat → α) : Config α :=
  startConfig (fun _ i => parallelRowOps matrixA matrixB dimension i) reg0 owner dimension result

/-- The parallel region of `optimizedParallelMultiply` at its start: worker `w` works on its
own copies `tempA`, `tempB` of the two flat buffers, allocated over `wjunk w`.  With a
chunk size of at least one the dispatcher hands every row to some worker, `owner` says to
which.  With a loop that has rows and a chunk size that is not positive, the dispatcher
hands out nothing: every worker keeps asking. -/
def optimizedStart [Add α] [Mul α] [Zero α] (junk : Nat → Nat → α) (wjunk : Nat → Nat → Nat → α)
    (n_thread : Int) (matrixA matrixB result : JaggedMatrix α) (dimension : Int)
    (owner : Nat → Nat) (reg0 : Nat → α) : Config α :=
  let matrixFlatA := rowMajor (junk 0) matrixA dimension
  let matrixFlatB := columnMajor (junk 1) matrixB dimension
  let size := intMul dimension dimension
  let chunk := chunkSize dimension n_thread
  if 0 < dimension ∧ chunk ≤ 0 then
    { workers := fun w => { todo := [Op.request], reg := reg0 w },
      shared := result,
      log := [] }
  else
    startConfig (fun w i => optimizedRowOps (copyOf (wjunk w 2) matrixFlatA size)
      (copyOf (wjunk w 3) matrixFlatB size) dimension i) reg0 owner dimension result

/-- Every worker that a row belongs to has made all its steps. -/
def Finished (owner : Nat → Nat) (n : Nat) (c : Config α) : Prop :=
  ∀ i, i < n → (c.workers (owner i)).todo.length = 0

instance (owner : Nat → Nat) (n : Nat) (c : Config α) : Decidable (Finished owner n c) := by
  unfold Finished
  infer_instance

/-- The invariant of an interleaved run: `result` stays square, every store so far went to a
row owned by the storing worker, and every worker sees in its own rows and in its register
exactly what it would see had it run alone the accesses `done` it has already made.
`program w` is everything worker `w` has to do. -/
def ScheduleInv [Zero α] (n : Nat) (owner : Nat → Nat) (program : Nat → List (Op α))
    (reg0 : Nat → α) (result : JaggedMatrix α) (c : Config α) : Prop :=
  IsSquare c.shared n ∧
  (∀ e, e ∈ c.log → e.row < n ∧ e.col < n ∧ owner e.row = e.worker) ∧
  ∀ w, ∃ done, program w = done ++ (c.workers w).todo ∧
    (c.workers w).reg = (execOps done (result, reg0 w)).2 ∧
    ∀ i j, i < n → j < n → owner i = w →
      readCell c.shared i j = readCell (execOps done (result, reg0 w)).1 i j

/-- A schedule that lets the owner of each row `i < n` make `steps i` steps. -/
def fairSchedule (owner : Nat → Nat) (steps : Nat → Nat) (n : Nat) : List Nat :=
  forLoop (n : Int) (fun i schedule => schedule ++ List.replicate (steps i) (owner i)) []

/-! ## Concrete operands -/

/-- The operand `[[1,2],[3,4]]`. -/
def exampleA : JaggedMatrix Int := #[#[1, 2], #[3, 4]]

/-- The operand `[[5,6],[7,8]]`. -/
def exampleB : JaggedMatrix Int := #[#[5, 6], #[7, 8]]

/-- An output matrix that already holds values. -/
def exampleR : JaggedMatrix Int := #[#[10, 20], #[30, 40]]

/-- Leftover memory contents, one value per allocation and slot. -/
def exampleJunk : Nat → Nat → Int := fun a p => 100 * a + p + 7

/-- A clock reading just before a second boundary. -/
def exampleT0 : Timeval := { tv_sec := 100, tv_usec := 999999 }

/-- A clock reading just after that second boundary. -/
def exampleT1 : Timeval := { tv_sec := 101, tv_usec := 5 }

/-- A generator whose outputs are `999, 1999, 2999, ...`. -/
def exampleRand : Nat → Int := fun c => 1000 * c + 999

/-- A `5 × 5` operand, the smallest dimension with a positive chunk size. -/
def exampleA5 : JaggedMatrix Int :=
  #[#[1, 2, 0, 1, 3], #[0, 1, 1, 2, 0], #[2, 0, 1, 0, 1], #[1, 1, 0, 3, 2], #[0, 2, 1, 1, 1]]

/-- A second `5 × 5` operand. -/
def exampleB5 : JaggedMatrix Int :=
  #[#[2, 0, 1, 1, 0], #[1, 3, 0, 0, 2], #[0, 1, 2, 1, 1], #[1, 0, 0, 2, 1], #[3, 1, 1, 0, 0]]

/-- A `5 × 5` output matrix that already holds values. -/
def exampleR5 : JaggedMatrix Int :=
  #[#[9, 9, 9, 9, 9], #[8, 8, 8, 8, 8], #[7, 7, 7, 7, 7], #[6, 6, 6, 6, 6], #[5, 5, 5, 5, 5]]

/-- The `46341 × 46341` matrix of ones: the smallest dimension whose square does not fit
an `int`. -/
def bigOnes : JaggedMatrix Int := Array.mkArray 46341 (Array.mkArray 46341 1)

/-- Rows are handed out alternately to two workers. -/
def exampleOwner : Nat → Nat := fun i => i % 2

/-- What the workers' registers hold when the parallel region starts. -/
def exampleReg : Nat → Int := fun w => 1000 + w

/-- Leftover memory contents of the workers' private allocations. -/
def exampleWorkerJunk : Nat → Nat → Nat → Int := fun w a p => 10000 * w + 100 * a + p

/-- An interleaving of two workers, freely mixed. -/
def exampleSchedule : List Nat := [0, 1, 1, 0, 0, 0, 1, 1, 1, 0, 1, 0, 0, 1, 0, 1]


/-- An interleaving in which two workers take turns, 150 steps each. -/
def exampleTurns : List Nat := (List.range 300).map (fun t => t % 2)

/-- An interleaving in which worker 0 makes all its steps before worker 1 starts. -/
def exampleOneByOne : List Nat := List.replicate 150 0 ++ List.replicate 150 1

/-- The other alternate assignment of rows to two workers. -/
def exampleOwnerSwapped : Nat → Nat := fun i => (i + 1) % 2

/-! ## Basic facts about the memory operations and loops -/

theorem getD_setD (a : Array α) (i j : Nat) (v d : α) :
    (a.setD i v).getD j d = if i = j ∧ i < a.size then v else a.getD j d := by
  unfold Array.setD
  by_cases h : i < a.size
  · simp only [h, dite_true, and_true]
    simp only [Array.getD, Array.size_set]
    by_cases hj : j < a.size
    · simp [hj, Array.getElem_set]
    · have : i ≠ j := by omega
      simp [hj, this]
  · simp [h]

theorem readCell_writeCell [Zero α] (m : JaggedMatrix α) (i j p q : Nat) (v : α) :
    readCell (writeCell m i j v) p q
      = if (i = p ∧ j = q) ∧ i < m.size ∧ j < (m.getD i #[]).size then v else readCell m p q := by
  unfold readCell writeCell
  rw [getD_setD]
  by_cases hi : i = p ∧ i < m.size
  · rw [if_pos hi, getD_setD]
    obtain ⟨rfl, hlt⟩ := hi
    by_cases hj : j = q ∧ j < (m.getD i #[]).size
    · rw [if_pos hj, if_pos ⟨⟨rfl, hj.1⟩, hlt, hj.2⟩]
    · rw [if_neg hj, if_neg (fun h => hj ⟨h.1.2, h.2.2⟩)]
  · rw [if_neg hi, if_neg (fun h => hi ⟨h.1.1, h.2.1⟩)]

theorem isSquare_writeCell (m : JaggedMatrix α) (n i j : Nat) (v : α) (h : IsSquare m n) :
    IsSquare (writeCell m i j v) n := by
  obtain ⟨hs, hr⟩ := h
  refine ⟨by simp [writeCell, hs], fun p hp => ?_⟩
  unfold writeCell
  rw [getD_setD]
  by_cases hi : i = p ∧ i < m.size
  · rw [if_pos hi]
    obtain ⟨rfl, -⟩ := hi
    simpa using hr i hp
  · rw [if_neg hi]
    exact hr p hp

theorem readCell_writeCell_of_isSquare [Zero α] (m : JaggedMatrix α) (n i j p q : Nat) (v : α)
    (h : IsSquare m n) (hi : i < n) (hj : j < n) :
    readCell (writeCell m i j v) p q = if p = i ∧ q = j then v else readCell m p q := by
  rw [readCell_writeCell]
  have h1 : i < m.size := by rw [h.1]; exact hi
  have h2 : j < (m.getD i #[]).size := by rw [h.2 i hi]; exact hj
  by_cases hc : p = i ∧ q = j
  · rw [if_pos hc, if_pos ⟨⟨hc.1.symm, hc.2.symm⟩, h1, h2⟩]
  · rw [if_neg hc, if_neg (fun hh => hc ⟨hh.1.1.symm, hh.1.2.symm⟩)]

theorem forLoop_succ {σ : Type} (n : Nat) (body : Nat → σ → σ) (s : σ) :
    forLoop ((n + 1 : Nat) : Int) body s = body n (forLoop (n : Int) body s) := by
  simp [forLoop, List.range_succ, List.foldl_append]

theorem forLoop_zero {σ : Type} (body : Nat → σ → σ) (s : σ) :
    forLoop ((0 : Nat) : Int) body s = s := by
  simp [forLoop]

theorem forLoop_of_nonpos {σ : Type} (bound : Int) (h : bound ≤ 0) (body : Nat → σ → σ) (s : σ) :
    forLoop bound body s = s := by
  simp [forLoop, Int.toNat_eq_zero.mpr h]

theorem forLoop_induct {σ : Type} (P : Nat → σ → Prop) (n : Nat) (body : Nat → σ → σ) (s : σ)
    (h0 : P 0 s) (hstep : ∀ i s, i < n → P i s → P (i + 1) (body i s)) :
    P n (forLoop (n : Int) body s) := by
  induction n with
  | zero => simpa [forLoop] using h0
  | succ m ih =>
    rw [forLoop_succ]
    exact hstep m _ (Nat.lt_succ_self m) (ih (fun i s hi => hstep i s (Nat.lt_succ_of_lt hi)))

theorem dotFrom_zero [Add α] [Mul α] [Zero α] (init : α) (A B : JaggedMatrix α) (i j : Nat) :
    dotFrom init A B i j 0 = init := by
  simp [dotFrom]

theorem dotFrom_succ [Add α] [Mul α] [Zero α] (init : α) (A B : JaggedMatrix α) (i j K : Nat) :
    dotFrom init A B i j (K + 1) = dotFrom init A B i j K + readCell A i K * readCell B K j := by
  simp [dotFrom, List.range_succ, List.foldl_append]

theorem dotFrom_eq_sum [Semiring α] (init : α) (A B : JaggedMatrix α) (i j K : Nat) :
    dotFrom init A B i j K = init + ∑ k in Finset.range K, readCell A i k * readCell B k j := by
  induction K with
  | zero => simp [dotFrom_zero]
  | succ K ih => rw [dotFrom_succ, ih, Finset.sum_range_succ, add_assoc]

/-! ## The triple loop of `sequentialMultiply` and `parallelMultiply` -/

theorem kLoop_spec [Add α] [Mul α] [Zero α] (A B R : JaggedMatrix α) (n i j : Nat)
    (hR : IsSquare R n) (hi : i < n) (hj : j < n) (K : Nat) :
    IsSquare (forLoop (K : Int) (fun k result =>
        writeCell result i j (readCell result i j + readCell A i k * readCell B k j)) R) n ∧
    ∀ p q, readCell (forLoop (K : Int) (fun k result =>
        writeCell result i j (readCell result i j + readCell A i k * readCell B k j)) R) p q
      = if p = i ∧ q = j then dotFrom (readCell R i j) A B i j K else readCell R p q := by
  refine forLoop_induct (fun K r => IsSquare r n ∧ ∀ p q, readCell r p q
      = if p = i ∧ q = j then dotFrom (readCell R i j) A B i j K else readCell R p q) K _ R ?_ ?_
  · refine ⟨hR, fun p q => ?_⟩
    by_cases h : p = i ∧ q = j
    · rw [if_pos h, dotFrom_zero, h.1, h.2]
    · rw [if_neg h]
  · intro k s _ hs
    obtain ⟨hsq, hrd⟩ := hs
    refine ⟨isSquare_writeCell _ _ _ _ _ hsq, fun p q => ?_⟩
    rw [readCell_writeCell_of_isSquare _ n _ _ _ _ _ hsq hi hj]
    by_cases h : p = i ∧ q = j
    · rw [if_pos h, if_pos h, dotFrom_succ, hrd i j, if_pos ⟨rfl, rfl⟩]
    · rw [if_neg h, if_neg h, hrd p q, if_neg h]

theorem jLoop_spec [Add α] [Mul α] [Zero α] (A B R : JaggedMatrix α) (n i : Nat)
    (hR : IsSquare R n) (hi : i < n) (J : Nat) (hJ : J ≤ n) :
    IsSquare (forLoop (J : Int) (fun j result => forLoop (n : Int) (fun k result =>
        writeCell result i j (readCell result i j + readCell A i k * readCell B k j)) result) R) n ∧
    ∀ p q, readCell (forLoop (J : Int) (fun j result => forLoop (n : Int) (fun k result =>
        writeCell result i j (readCell result i j + readCell A i k * readCell B k j)) result) R) p q
      = if p = i ∧ q < J then dotFrom (readCell R p q) A B p q n else readCell R p q := by
  induction J with
  | zero =>
    refine ⟨by simpa [forLoop] using hR, fun p q => ?_⟩
    simp [forLoop]
  | succ J ih =>
    obtain ⟨hsq, hrd⟩ := ih (Nat.le_of_succ_le hJ)
    rw [forLoop_succ]
    obtain ⟨hsq2, hrd2⟩ := kLoop_spec A B _ n i J hsq hi (Nat.lt_of_succ_le hJ) n
    refine ⟨hsq2, fun p q => ?_⟩
    rw [hrd2 p q]
    by_cases h : p = i ∧ q = J
    · obtain ⟨rfl, rfl⟩ := h
      rw [if_pos ⟨rfl, rfl⟩, if_pos ⟨rfl, Nat.lt_succ_self _⟩, hrd p q,
        if_neg (fun hh => Nat.lt_irrefl _ hh.2)]
    · rw [if_neg h, hrd p q]
      by_cases h2 : p = i ∧ q < J
      · rw [if_pos h2, if_pos ⟨h2.1, Nat.lt_succ_of_lt h2.2⟩]
      · rw [if_neg h2, if_neg]
        rintro ⟨h3, h4⟩
        rcases Nat.lt_succ_iff_lt_or_eq.mp h4 with h5 | h5
        · exact h2 ⟨h3, h5⟩
        · exact h ⟨h3, h5⟩

theorem iLoop_spec [Add α] [Mul α] [Zero α] (A B R : JaggedMatrix α) (n : Nat)
    (hR : IsSquare R n) (I : Nat) (hI : I ≤ n) :
    IsSquare (forLoop (I : Int) (fun i result => forLoop (n : Int) (fun j result =>
      forLoop (n : Int) (fun k result =>
        writeCell result i j (readCell result i j + readCell A i k * readCell B k j))
        result) result) R) n ∧
    ∀ p q, readCell (forLoop (I : Int) (fun i result => forLoop (n : Int) (fun j result =>
      forLoop (n : Int) (fun k result =>
        writeCell result i j (readCell result i j + readCell A i k * readCell B k j))
        result) result) R) p q
      = if p < I ∧ q < n then dotFrom (readCell R p q) A B p q n else readCell R p q := by
  induction I with
  | zero =>
    refine ⟨by simpa [forLoop] using hR, fun p q => ?_⟩
    simp [forLoop]
  | succ I ih =>
    obtain ⟨hsq, hrd⟩ := ih (Nat.le_of_succ_le hI)
    rw [forLoop_succ]
    obtain ⟨hsq2, hrd2⟩ := jLoop_spec A B _ n I hsq (Nat.lt_of_succ_le hI) n (Nat.le_refl n)
    refine ⟨hsq2, fun p q => ?_⟩
    rw [hrd2 p q]
    by_cases h : p = I ∧ q < n
    · obtain ⟨rfl, hq⟩ := h
      rw [if_pos ⟨rfl, hq⟩, if_pos ⟨Nat.lt_succ_self _, hq⟩, hrd p q,
        if_neg (fun hh => Nat.lt_irrefl _ hh.1)]
    · rw [if_neg h, hrd p q]
      by_cases h2 : p < I ∧ q < n
      · rw [if_pos h2, if_pos ⟨Nat.lt_succ_of_lt h2.1, h2.2⟩]
      · rw [if_neg h2, if_neg]
        rintro ⟨h3, h4⟩
        rcases Nat.lt_succ_iff_lt_or_eq.mp h3 with h5 | h5
        · exact h2 ⟨h5, h4⟩
        · exact h ⟨h5, h4⟩


/-! ## Allocation and the factory loops -/

theorem size_malloc (junk : Nat → α) (count : Int) : (malloc junk count).size = count.toNat := by
  simp [malloc]

theorem forLoop_fst {σ τ : Type} (n : Nat) (body2 : Nat → σ × τ → σ × τ) (body1 : Nat → σ → σ)
    (h : ∀ i st, (body2 i st).1 = body1 i st.1) (s : σ × τ) :
    (forLoop (n : Int) body2 s).1 = forLoop (n : Int) body1 s.1 := by
  induction n with
  | zero => simp [forLoop]
  | succ m ih => rw [forLoop_succ, forLoop_succ, h, ih]

theorem allocRows_spec (junk : Nat → Nat → α) (n : Nat) :
    IsSquare (forLoop (n : Int) (fun i matrix => matrix.setD i (malloc (junk i) (n : Int)))
      (Array.mkArray n #[])) n := by
  have key : ∀ I : Nat, I ≤ n →
      (forLoop (I : Int) (fun i matrix => matrix.setD i (malloc (junk i) (n : Int)))
        (Array.mkArray n (#[] : Array α))).size = n ∧
      ∀ p, p < I → ((forLoop (I : Int) (fun i matrix => matrix.setD i (malloc (junk i) (n : Int)))
        (Array.mkArray n (#[] : Array α))).getD p #[]).size = n := by
    intro I
    induction I with
    | zero =>
      intro _
      exact ⟨by simp [forLoop], fun p hp => absurd hp (Nat.not_lt_zero p)⟩
    | succ I ih =>
      intro hI
      obtain ⟨hs, hr⟩ := ih (Nat.le_of_succ_le hI)
      rw [forLoop_succ]
      refine ⟨by simp [hs], fun p hp => ?_⟩
      rw [getD_setD, hs]
      by_cases hc : I = p ∧ I < n
      · rw [if_pos hc, size_malloc, Int.toNat_ofNat]
      · rw [if_neg hc]
        refine hr p ?_
        rcases Nat.lt_succ_iff_lt_or_eq.mp hp with h5 | h5
        · exact h5
        · exact absurd ⟨h5.symm, Nat.lt_of_succ_le hI⟩ hc
  exact ⟨(key n (Nat.le_refl n)).1, (key n (Nat.le_refl n)).2⟩

theorem fillRow_spec [Zero α] (g : Nat → α) (R : JaggedMatrix α) (n i : Nat)
    (hR : IsSquare R n) (hi : i < n) (J : Nat) (hJ : J ≤ n) :
    IsSquare (forLoop (J : Int) (fun j result => writeCell result i j (g j)) R) n ∧
    ∀ p q, readCell (forLoop (J : Int) (fun j result => writeCell result i j (g j)) R) p q
      = if p = i ∧ q < J then g q else readCell R p q := by
  induction J with
  | zero =>
    refine ⟨by simpa [forLoop] using hR, fun p q => ?_⟩
    simp [forLoop]
  | succ J ih =>
    obtain ⟨hsq, hrd⟩ := ih (Nat.le_of_succ_le hJ)
    rw [forLoop_succ]
    refine ⟨isSquare_writeCell _ _ _ _ _ hsq, fun p q => ?_⟩
    rw [readCell_writeCell_of_isSquare _ n _ _ _ _ _ hsq hi (Nat.lt_of_succ_le hJ)]
    by_cases h : p = i ∧ q = J
    · obtain ⟨rfl, rfl⟩ := h
      rw [if_pos ⟨rfl, rfl⟩, if_pos ⟨rfl, Nat.lt_succ_self _⟩]
    · rw [if_neg h, hrd p q]
      by_cases h2 : p = i ∧ q < J
      · rw [if_pos h2, if_pos ⟨h2.1, Nat.lt_succ_of_lt h2.2⟩]
      · rw [if_neg h2, if_neg]
        rintro ⟨h3, h4⟩
        rcases Nat.lt_succ_iff_lt_or_eq.mp h4 with h5 | h5
        · exact h2 ⟨h3, h5⟩
        · exact h ⟨h3, h5⟩

theorem fillLoop_spec [Zero α] (g : Nat → Nat → α) (R : JaggedMatrix α) (n : Nat)
    (hR : IsSquare R n) (I : Nat) (hI : I ≤ n) :
    IsSquare (forLoop (I : Int) (fun i result =>
      forLoop (n : Int) (fun j result => writeCell result i j (g i j)) result) R) n ∧
    ∀ p q, readCell (forLoop (I : Int) (fun i result =>
      forLoop (n : Int) (fun j result => writeCell result i j (g i j)) result) R) p q
      = if p < I ∧ q < n then g p q else readCell R p q := by
  induction I with
  | zero =>
    refine ⟨by simpa [forLoop] using hR, fun p q => ?_⟩
    simp [forLoop]
  | succ I ih =>
    obtain ⟨hsq, hrd⟩ := ih (Nat.le_of_succ_le hI)
    rw [forLoop_succ]
    obtain ⟨hsq2, hrd2⟩ := fillRow_spec (g I) _ n I hsq (Nat.lt_of_succ_le hI) n (Nat.le_refl n)
    refine ⟨hsq2, fun p q => ?_⟩
    rw [hrd2 p q]
    by_cases h : p = I ∧ q < n
    · obtain ⟨rfl, hq⟩ := h
      rw [if_pos ⟨rfl, hq⟩, if_pos ⟨Nat.lt_succ_self _, hq⟩]
    · rw [if_neg h, hrd p q]
      by_cases h2 : p < I ∧ q < n
      · rw [if_pos h2, if_pos ⟨Nat.lt_succ_of_lt h2.1, h2.2⟩]
      · rw [if_neg h2, if_neg]
        rintro ⟨h3, h4⟩
        rcases Nat.lt_succ_iff_lt_or_eq.mp h3 with h5 | h5
        · exact h2 ⟨h5, h4⟩
        · exact h ⟨h5, h4⟩

theorem zeroMatrix_spec [Zero α] (junk : Nat → Nat → α) (n : Nat) :
    IsSquare (zeroMatrix junk (n : Int)) n ∧ ∀ p q, p < n → q < n → readCell (zeroMatrix junk (n : Int)) p q = 0 := by
  have h := fillLoop_spec (fun _ _ => (0 : α)) _ n (allocRows_spec junk n) n (Nat.le_refl n)
  refine ⟨by simpa [zeroMatrix] using h.1, fun p q hp hq => ?_⟩
  have h2 := h.2 p q
  rw [if_pos ⟨hp, hq⟩] at h2
  simpa [zeroMatrix] using h2

theorem jaggedMatrix_ext [Zero α] (m1 m2 : JaggedMatrix α) (n : Nat) (h1 : IsSquare m1 n)
    (h2 : IsSquare m2 n) (h : ∀ p q, p < n → q < n → readCell m1 p q = readCell m2 p q) :
    m1 = m2 := by
  apply Array.ext
  · rw [h1.1, h2.1]
  · intro i hi1 hi2
    have hin : i < n := by rw [← h1.1]; exact hi1
    have e1 : m1.getD i #[] = m1[i] := by simp [Array.getD, hi1]
    have e2 : m2.getD i #[] = m2[i] := by simp [Array.getD, hi2]
    have s1 := h1.2 i hin
    have s2 := h2.2 i hin
    rw [e1] at s1
    rw [e2] at s2
    apply Array.ext
    · rw [s1, s2]
    · intro j hj1 hj2
      have hjn : j < n := by rw [← s1]; exact hj1
      have := h i j hin hjn
      unfold readCell at this
      rw [e1, e2] at this
      simpa [Array.getD, hj1, hj2] using this


/-! ## Flat buffers -/

theorem idx_eq_iff (n a b p : Nat) (hb : b < n) : a * n + b = p ↔ p / n = a ∧ p % n = b := by
  have hn : 0 < n := Nat.lt_of_le_of_lt (Nat.zero_le b) hb
  constructor
  · rintro rfl
    constructor
    · rw [Nat.add_comm, Nat.add_mul_div_right _ _ hn, Nat.div_eq_of_lt hb, Nat.zero_add]
    · rw [Nat.add_comm, Nat.add_mul_mod_self_right, Nat.mod_eq_of_lt hb]
  · rintro ⟨rfl, rfl⟩
    rw [Nat.mul_comm]
    exact Nat.div_add_mod p n

theorem idx_lt (n a b : Nat) (ha : a < n) (hb : b < n) : a * n + b < n * n := by
  calc a * n + b < a * n + n := Nat.add_lt_add_left hb _
    _ = (a + 1) * n := by ring
    _ ≤ n * n := Nat.mul_le_mul_right n ha

theorem div_lt_of_lt_sq (n p : Nat) (hp : p < n * n) : p / n < n :=
  Nat.div_lt_of_lt_mul hp

theorem mod_lt_of_lt_sq (n p : Nat) (hp : p < n * n) : p % n < n := by
  rcases Nat.eq_zero_or_pos n with h | h
  · subst h; simp at hp
  · exact Nat.mod_lt _ h

/-! ### `int` arithmetic inside its range -/

theorem wrapInt_of_range (x : Int) (h0 : 0 ≤ x) (h1 : x < 2147483648) : wrapInt x = x := by
  unfold wrapInt
  omega

theorem sq_le_of_le (n : Nat) (hb : n ≤ 46340) : n * n ≤ 2147395600 :=
  Nat.mul_le_mul hb hb

theorem intMul_natCast (a b : Nat) (h : a * b < 2147483648) :
    intMul (a : Int) (b : Int) = ((a * b : Nat) : Int) := by
  unfold intMul
  rw [wrapInt_of_range _ (by positivity) (by exact_mod_cast h)]
  push_cast
  rfl

theorem intAdd_intMul (a b c : Nat) (h : a * b + c < 2147483648) :
    intAdd (intMul (a : Int) (b : Int)) (c : Int) = ((a * b + c : Nat) : Int) := by
  rw [intMul_natCast a b (by omega)]
  unfold intAdd
  rw [wrapInt_of_range _ (by positivity) (by exact_mod_cast h)]
  push_cast
  rfl

/-- For `n ≤ 46340` the index `i * n + j` of a cell does not leave the range of `int`. -/
theorem cellIndex_eq (n i j : Nat) (hb : n ≤ 46340) (hi : i < n) (hj : j < n) :
    intAdd (intMul (i : Int) (n : Int)) (j : Int) = ((i * n + j : Nat) : Int) := by
  have := idx_lt n i j hi hj
  have := sq_le_of_le n hb
  exact intAdd_intMul i n j (by omega)

/-- The same index written `n * i + j`, as `optimizedParallelMultiply` does. -/
theorem cellIndex_eq_comm (n i j : Nat) (hb : n ≤ 46340) (hi : i < n) (hj : j < n) :
    intAdd (intMul (n : Int) (i : Int)) (j : Int) = ((i * n + j : Nat) : Int) := by
  have := idx_lt n i j hi hj
  have := sq_le_of_le n hb
  rw [intAdd_intMul n i j (by rw [Nat.mul_comm]; omega), Nat.mul_comm]

theorem intMul_self (n : Nat) (hb : n ≤ 46340) :
    intMul (n : Int) (n : Int) = ((n * n : Nat) : Int) := by
  have := sq_le_of_le n hb
  exact intMul_natCast n n (by omega)

theorem storeFlat_natCast (buffer : Array α) (p : Nat) (v : α) :
    storeFlat buffer (p : Int) v = buffer.setD p v := by
  unfold storeFlat
  rw [if_pos (by positivity), Int.toNat_ofNat]

theorem loadFlat_natCast [Zero α] (buffer : Array α) (p : Nat) :
    loadFlat buffer (p : Int) = buffer.getD p 0 := by
  unfold loadFlat
  rw [if_pos (by positivity), Int.toNat_ofNat]

theorem size_storeFlat (buffer : Array α) (idx : Int) (v : α) :
    (storeFlat buffer idx v).size = buffer.size := by
  unfold storeFlat
  split_ifs <;> simp

/-- A loop of stores to pairwise distinct slots: slot `idx j` receives `val j`. -/
theorem storeLoop_spec (F : Nat → Array α → Array α) (idx : Nat → Nat) (val : Nat → α)
    (ok : Nat → Prop) [DecidablePred ok] (key : Nat → Nat) (s : Array α) (J : Nat)
    (hF : ∀ j, j < J → ∀ flat, F j flat = flat.setD (idx j) (val j))
    (hidx : ∀ j, j < J → ∀ p, idx j = p ↔ ok p ∧ key p = j)
    (hlt : ∀ j, j < J → idx j < s.size) :
    (forLoop (J : Int) F s).size = s.size ∧
    ∀ p d, (forLoop (J : Int) F s).getD p d
      = if ok p ∧ key p < J then val (key p) else s.getD p d := by
  induction J with
  | zero =>
    refine ⟨by simp [forLoop], fun p d => ?_⟩
    simp [forLoop]
  | succ J ih =>
    obtain ⟨hs, hg⟩ := ih (fun j hj => hF j (Nat.lt_succ_of_lt hj))
      (fun j hj => hidx j (Nat.lt_succ_of_lt hj)) (fun j hj => hlt j (Nat.lt_succ_of_lt hj))
    rw [forLoop_succ, hF J (Nat.lt_succ_self J)]
    refine ⟨by simp [hs], fun p d => ?_⟩
    rw [getD_setD, hs, hg p d]
    have hJ := hidx J (Nat.lt_succ_self J) p
    by_cases h : idx J = p
    · rw [if_pos ⟨h, hlt J (Nat.lt_succ_self J)⟩]
      obtain ⟨h1, h2⟩ := hJ.mp h
      rw [if_pos ⟨h1, by rw [h2]; exact Nat.lt_succ_self J⟩, h2]
    · rw [if_neg (fun hh => h hh.1)]
      by_cases h2 : ok p ∧ key p < J
      · rw [if_pos h2, if_pos ⟨h2.1, Nat.lt_succ_of_lt h2.2⟩]
      · rw [if_neg h2, if_neg]
        rintro ⟨h3, h4⟩
        rcases Nat.lt_succ_iff_lt_or_eq.mp h4 with h5 | h5
        · exact h2 ⟨h3, h5⟩
        · exact h (hJ.mpr ⟨h3, h5⟩)

/-- The store log of such a loop gains exactly one entry per slot stored to. -/
theorem storeLog_spec (ok : Int → Prop) [DecidablePred ok] (idx : Nat → Int) (key : Int → Nat)
    (F : Nat → Array α → Array α)
    (s : Array α × List Int) (J : Nat) (hidx : ∀ j, j < J → ∀ p, idx j = p ↔ ok p ∧ key p = j) :
    ∀ p, (forLoop (J : Int) (fun j (st : Array α × List Int) =>
        (F j st.1, st.2 ++ [idx j])) s).2.count p
      = s.2.count p + if ok p ∧ key p < J then 1 else 0 := by
  induction J with
  | zero =>
    intro p
    simp [forLoop]
  | succ J ih =>
    intro p
    have hg := ih (fun j hj => hidx j (Nat.lt_succ_of_lt hj)) p
    rw [forLoop_succ]
    simp only [List.count_append, hg, List.count_singleton]
    have hJ := hidx J (Nat.lt_succ_self J) p
    by_cases h : idx J = p
    · obtain ⟨h1, h2⟩ := hJ.mp h
      have h3 : ¬ (ok p ∧ key p < J) := fun hh => by omega
      have h4 : ok p ∧ key p < J + 1 := ⟨h1, by omega⟩
      simp [h, h3, h4, h2]
    · by_cases h2 : ok p ∧ key p < J
      · have h4 : ok p ∧ key p < J + 1 := ⟨h2.1, by omega⟩
        simp [h, h2, h4]
      · have h4 : ¬ (ok p ∧ key p < J + 1) := by
          rintro ⟨h3, h4⟩
          rcases Nat.lt_succ_iff_lt_or_eq.mp h4 with h5 | h5
          · exact h2 ⟨h3, h5⟩
          · exact h (hJ.mpr ⟨h3, h5⟩)
        simp [h, h2, h4]


theorem rowMajor_loop_spec [Zero α] (junk : Nat → α) (M : JaggedMatrix α) (n : Nat)
    (hb : n ≤ 46340) (I : Nat) (hI : I ≤ n) :
    (forLoop (I : Int) (fun i flatMatrix =>
      forLoop (n : Int) (fun j flatMatrix =>
        storeFlat flatMatrix (intAdd (intMul (i : Int) (n : Int)) (j : Int)) (readCell M i j))
        flatMatrix)
      (malloc junk (intMul (n : Int) (n : Int)))).size = n * n ∧
    ∀ p d, (forLoop (I : Int) (fun i flatMatrix =>
      forLoop (n : Int) (fun j flatMatrix =>
        storeFlat flatMatrix (intAdd (intMul (i : Int) (n : Int)) (j : Int)) (readCell M i j))
        flatMatrix)
      (malloc junk (intMul (n : Int) (n : Int)))).getD p d
      = if p / n < I then readCell M (p / n) (p % n)
        else (malloc junk (intMul (n : Int) (n : Int))).getD p d := by
  induction I with
  | zero =>
    refine ⟨by rw [forLoop_zero, size_malloc, intMul_self n hb, Int.toNat_ofNat], fun p d => ?_⟩
    rw [forLoop_zero]
    simp
  | succ I ih =>
    obtain ⟨hs, hg⟩ := ih (Nat.le_of_succ_le hI)
    have hIn : I < n := Nat.lt_of_succ_le hI
    rw [forLoop_succ]
    obtain ⟨hs2, hg2⟩ := storeLoop_spec
      (fun j flatMatrix =>
        storeFlat flatMatrix (intAdd (intMul (I : Int) (n : Int)) (j : Int)) (readCell M I j))
      (fun j => I * n + j) (fun j => readCell M I j) (fun p => p / n = I) (fun p => p % n) _ n
      (fun j hj flat => by
        beta_reduce
        rw [cellIndex_eq n I j hb hIn hj, storeFlat_natCast])
      (fun j hj p => idx_eq_iff n I j p hj)
      (fun j hj => by beta_reduce; rw [hs]; exact idx_lt n I j hIn hj)
    refine ⟨by rw [hs2, hs], fun p d => ?_⟩
    rw [hg2 p d, hg p d]
    have hmod : p % n < n := Nat.mod_lt _ (Nat.lt_of_le_of_lt (Nat.zero_le I) hIn)
    by_cases h : p / n = I
    · rw [if_pos ⟨h, hmod⟩, if_pos (by omega), h]
    · rw [if_neg (fun hh => h hh.1)]
      by_cases h2 : p / n < I
      · rw [if_pos h2, if_pos (by omega)]
      · rw [if_neg h2, if_neg (by omega)]

theorem rowMajor_spec [Zero α] (junk : Nat → α) (M : JaggedMatrix α) (n : Nat)
    (hb : n ≤ 46340) :
    (rowMajor junk M (n : Int)).size = n * n ∧
    ∀ p d, p < n * n → (rowMajor junk M (n : Int)).getD p d = readCell M (p / n) (p % n) := by
  obtain ⟨hs, hg⟩ := rowMajor_loop_spec junk M n hb n (Nat.le_refl n)
  refine ⟨hs, fun p d hp => ?_⟩
  have := hg p d
  rw [if_pos (div_lt_of_lt_sq n p hp)] at this
  exact this

theorem columnMajor_loop_spec [Zero α] (junk : Nat → α) (M : JaggedMatrix α) (n : Nat)
    (hb : n ≤ 46340) (I : Nat) (hI : I ≤ n) :
    (forLoop (I : Int) (fun i flatMatrix =>
      forLoop (n : Int) (fun j flatMatrix =>
        storeFlat flatMatrix (intAdd (intMul (j : Int) (n : Int)) (i : Int)) (readCell M i j))
        flatMatrix)
      (malloc junk (intMul (n : Int) (n : Int)))).size = n * n ∧
    ∀ p d, p < n * n → (forLoop (I : Int) (fun i flatMatrix =>
      forLoop (n : Int) (fun j flatMatrix =>
        storeFlat flatMatrix (intAdd (intMul (j : Int) (n : Int)) (i : Int)) (readCell M i j))
        flatMatrix)
      (malloc junk (intMul (n : Int) (n : Int)))).getD p d
      = if p % n < I then readCell M (p % n) (p / n)
        else (malloc junk (intMul (n : Int) (n : Int))).getD p d := by
  induction I with
  | zero =>
    refine ⟨by rw [forLoop_zero, size_malloc, intMul_self n hb, Int.toNat_ofNat],
      fun p d _ => ?_⟩
    rw [forLoop_zero]
    simp
  | succ I ih =>
    obtain ⟨hs, hg⟩ := ih (Nat.le_of_succ_le hI)
    have hIn : I < n := Nat.lt_of_succ_le hI
    rw [forLoop_succ]
    obtain ⟨hs2, hg2⟩ := storeLoop_spec
      (fun j flatMatrix =>
        storeFlat flatMatrix (intAdd (intMul (j : Int) (n : Int)) (I : Int)) (readCell M I j))
      (fun j => j * n + I) (fun j => readCell M I j) (fun p => p % n = I) (fun p => p / n) _ n
      (fun j hj flat => by
        beta_reduce
        rw [cellIndex_eq n j I hb hj hIn, storeFlat_natCast])
      (fun j _ p => (idx_eq_iff n j I p hIn).trans And.comm)
      (fun j hj => by beta_reduce; rw [hs]; exact idx_lt n j I hj hIn)
    refine ⟨by rw [hs2, hs], fun p d hp => ?_⟩
    rw [hg2 p d, hg p d hp]
    have hdiv : p / n < n := div_lt_of_lt_sq n p hp
    by_cases h : p % n = I
    · rw [if_pos ⟨h, hdiv⟩, if_pos (by omega), h]
    · rw [if_neg (fun hh => h hh.1)]
      by_cases h2 : p % n < I
      · rw [if_pos h2, if_pos (by omega)]
      · rw [if_neg h2, if_neg (by omega)]

theorem columnMajor_spec [Zero α] (junk : Nat → α) (M : JaggedMatrix α) (n : Nat)
    (hb : n ≤ 46340) :
    (columnMajor junk M (n : Int)).size = n * n ∧
    ∀ p d, p < n * n → (columnMajor junk M (n : Int)).getD p d = readCell M (p % n) (p / n) := by
  obtain ⟨hs, hg⟩ := columnMajor_loop_spec junk M n hb n (Nat.le_refl n)
  refine ⟨hs, fun p d hp => ?_⟩
  have := hg p d hp
  rw [if_pos (mod_lt_of_lt_sq n p hp)] at this
  exact this

theorem copyOf_spec [Zero α] (junk : Nat → α) (buffer : Array α) (c : Nat) :
    (copyOf junk buffer (c : Int)).size = c ∧
    ∀ p d, p < c → (copyOf junk buffer (c : Int)).getD p d = buffer.getD p 0 := by
  obtain ⟨hs, hg⟩ := storeLoop_spec (fun i copy => copy.setD i (buffer.getD i 0))
    (fun i => i) (fun i => buffer.getD i 0) (fun _ => True)
    (fun p => p) (malloc junk (c : Int)) c
    (fun _ _ _ => rfl)
    (fun j _ p => by simp [eq_comm])
    (fun j hj => by rw [size_malloc, Int.toNat_ofNat]; exact hj)
  refine ⟨by rw [copyOf, hs, size_malloc, Int.toNat_ofNat], fun p d hp => ?_⟩
  rw [copyOf, hg p d, if_pos ⟨trivial, hp⟩]

/-! ### Sizes, whatever the dimension -/

theorem size_forLoop_of_size {σ : Type} (size : σ → Nat) (K : Nat) (body : Nat → σ → σ)
    (s : σ) (h : ∀ i s, size (body i s) = size s) : size (forLoop (K : Int) body s) = size s := by
  induction K with
  | zero => simp [forLoop]
  | succ K ih => rw [forLoop_succ, h, ih]

theorem forLoop_natCast_toNat {σ : Type} (bound : Int) (body : Nat → σ → σ) (s : σ) :
    forLoop bound body s = forLoop ((bound.toNat : Nat) : Int) body s := by
  unfold forLoop
  rw [Int.toNat_ofNat]

theorem size_rowMajor [Zero α] (junk : Nat → α) (M : JaggedMatrix α) (dimension : Int) :
    (rowMajor junk M dimension).size = (intMul dimension dimension).toNat := by
  unfold rowMajor
  rw [forLoop_natCast_toNat, size_forLoop_of_size Array.size, size_malloc]
  intro i s
  rw [forLoop_natCast_toNat, size_forLoop_of_size Array.size]
  intro j s
  exact size_storeFlat _ _ _

theorem size_columnMajor [Zero α] (junk : Nat → α) (M : JaggedMatrix α) (dimension : Int) :
    (columnMajor junk M dimension).size = (intMul dimension dimension).toNat := by
  unfold columnMajor
  rw [forLoop_natCast_toNat, size_forLoop_of_size Array.size, size_malloc]
  intro i s
  rw [forLoop_natCast_toNat, size_forLoop_of_size Array.size]
  intro j s
  exact size_storeFlat _ _ _

theorem size_copyOf [Zero α] (junk : Nat → α) (buffer : Array α) (count : Int) :
    (copyOf junk buffer count).size = count.toNat := by
  unfold copyOf
  rw [forLoop_natCast_toNat, size_forLoop_of_size Array.size, size_malloc]
  intro i s
  simp

theorem getD_of_size_eq_zero (a : Array α) (h : a.size = 0) (p : Nat) (d : α) :
    a.getD p d = d := by
  simp [Array.getD, h]

theorem loadFlat_of_size_eq_zero [Zero α] (a : Array α) (h : a.size = 0) (idx : Int) :
    loadFlat a idx = 0 := by
  unfold loadFlat
  split_ifs
  · exact getD_of_size_eq_zero a h _ _
  · rfl

/-! ### Store logs -/

theorem rowMajorTrace_fst [Zero α] (junk : Nat → α) (M : JaggedMatrix α) (n : Nat) :
    (rowMajorTrace junk M (n : Int)).1 = rowMajor junk M (n : Int) := by
  have h := forLoop_fst n
    (fun i st => forLoop (n : Int) (fun j (st : Array α × List Int) =>
      (storeFlat st.1 (intAdd (intMul (i : Int) (n : Int)) (j : Int)) (readCell M i j),
        st.2 ++ [intAdd (intMul (i : Int) (n : Int)) (j : Int)])) st)
    (fun i flatMatrix => forLoop (n : Int) (fun j flatMatrix =>
      storeFlat flatMatrix (intAdd (intMul (i : Int) (n : Int)) (j : Int)) (readCell M i j))
      flatMatrix)
    (fun i st => forLoop_fst n
      (fun j (st : Array α × List Int) =>
        (storeFlat st.1 (intAdd (intMul (i : Int) (n : Int)) (j : Int)) (readCell M i j),
          st.2 ++ [intAdd (intMul (i : Int) (n : Int)) (j : Int)]))
      (fun j flatMatrix =>
        storeFlat flatMatrix (intAdd (intMul (i : Int) (n : Int)) (j : Int)) (readCell M i j))
      (fun _ _ => by dsimp only) st)
    (malloc junk (intMul (n : Int) (n : Int)), [])
  exact h

theorem columnMajorTrace_fst [Zero α] (junk : Nat → α) (M : JaggedMatrix α) (n : Nat) :
    (columnMajorTrace junk M (n : Int)).1 = columnMajor junk M (n : Int) := by
  have h := forLoop_fst n
    (fun i st => forLoop (n : Int) (fun j (st : Array α × List Int) =>
      (storeFlat st.1 (intAdd (intMul (j : Int) (n : Int)) (i : Int)) (readCell M i j),
        st.2 ++ [intAdd (intMul (j : Int) (n : Int)) (i : Int)])) st)
    (fun i flatMatrix => forLoop (n : Int) (fun j flatMatrix =>
      storeFlat flatMatrix (intAdd (intMul (j : Int) (n : Int)) (i : Int)) (readCell M i j))
      flatMatrix)
    (fun i st => forLoop_fst n
      (fun j (st : Array α × List Int) =>
        (storeFlat st.1 (intAdd (intMul (j : Int) (n : Int)) (i : Int)) (readCell M i j),
          st.2 ++ [intAdd (intMul (j : Int) (n : Int)) (i : Int)]))
      (fun j flatMatrix =>
        storeFlat flatMatrix (intAdd (intMul (j : Int) (n : Int)) (i : Int)) (readCell M i j))
      (fun _ _ => by dsimp only) st)
    (malloc junk (intMul (n : Int) (n : Int)), [])
  exact h

theorem natCast_idx_iff (n a b : Nat) (p : Int) (hb : b < n) :
    ((a * n + b : Nat) : Int) = p ↔ (0 ≤ p ∧ p.toNat / n = a) ∧ p.toNat % n = b := by
  constructor
  · rintro rfl
    have := (idx_eq_iff n a b (a * n + b) hb).mp rfl
    rw [Int.toNat_ofNat]
    exact ⟨⟨by positivity, this.1⟩, this.2⟩
  · rintro ⟨⟨h0, h1⟩, h2⟩
    have := (idx_eq_iff n a b p.toNat hb).mpr ⟨h1, h2⟩
    rw [this, Int.toNat_of_nonneg h0]

theorem rowMajorTrace_count [Zero α] (junk : Nat → α) (M : JaggedMatrix α) (n : Nat)
    (hb : n ≤ 46340) (p : Int) :
    (rowMajorTrace junk M (n : Int)).2.count p = if 0 ≤ p ∧ p < n * n then 1 else 0 := by
  have key : ∀ I : Nat, I ≤ n → (forLoop (I : Int) (fun i st =>
      forLoop (n : Int) (fun j (st : Array α × List Int) =>
        (storeFlat st.1 (intAdd (intMul (i : Int) (n : Int)) (j : Int)) (readCell M i j),
          st.2 ++ [intAdd (intMul (i : Int) (n : Int)) (j : Int)])) st)
      (malloc junk (intMul (n : Int) (n : Int)), [])).2.count p
        = if 0 ≤ p ∧ p.toNat / n < I then 1 else 0 := by
    intro I
    induction I with
    | zero => intro _; simp [forLoop]
    | succ I ih =>
      intro hI
      have hIn : I < n := Nat.lt_of_succ_le hI
      rw [forLoop_succ]
      have h := storeLog_spec (fun p : Int => 0 ≤ p ∧ p.toNat / n = I)
        (fun j => intAdd (intMul (I : Int) (n : Int)) (j : Int)) (fun p => p.toNat % n)
        (fun j (a : Array α) =>
          storeFlat a (intAdd (intMul (I : Int) (n : Int)) (j : Int)) (readCell M I j))
        (forLoop (I : Int) (fun i st =>
          forLoop (n : Int) (fun j (st : Array α × List Int) =>
            (storeFlat st.1 (intAdd (intMul (i : Int) (n : Int)) (j : Int)) (readCell M i j),
              st.2 ++ [intAdd (intMul (i : Int) (n : Int)) (j : Int)])) st)
          (malloc junk (intMul (n : Int) (n : Int)), [])) n
        (fun j hj p => by
          beta_reduce
          rw [cellIndex_eq n I j hb hIn hj]
          exact natCast_idx_iff n I j p hj) p
      rw [h, ih (Nat.le_of_succ_le hI)]
      have hmod : p.toNat % n < n := Nat.mod_lt _ (Nat.lt_of_le_of_lt (Nat.zero_le I) hIn)
      split_ifs <;> omega
  have := key n (Nat.le_refl n)
  unfold rowMajorTrace
  rw [this]
  rcases Nat.eq_zero_or_pos n with h | h
  · subst h
    rw [if_neg (fun hh => Nat.not_lt_zero _ hh.2), if_neg]
    rintro ⟨h1, h2⟩
    simp at h2
    omega
  · have h1 : p.toNat / n < n ↔ p.toNat < n * n := Nat.div_lt_iff_lt_mul h
    have h2 : (0 ≤ p ∧ p.toNat / n < n) ↔ (0 ≤ p ∧ p < (n : Int) * (n : Int)) := by
      rw [h1]
      constructor
      · rintro ⟨h0, h3⟩
        refine ⟨h0, ?_⟩
        have : ((p.toNat : Nat) : Int) < ((n * n : Nat) : Int) := by exact_mod_cast h3
        rw [Int.toNat_of_nonneg h0] at this
        push_cast at this
        exact this
      · rintro ⟨h0, h3⟩
        refine ⟨h0, ?_⟩
        have : ((p.toNat : Nat) : Int) < ((n * n : Nat) : Int) := by
          rw [Int.toNat_of_nonneg h0]
          push_cast
          exact h3
        exact_mod_cast this
    simp only [h2]

theorem columnMajorTrace_count [Zero α] (junk : Nat → α) (M : JaggedMatrix α) (n : Nat)
    (hb : n ≤ 46340) (p : Int) :
    (columnMajorTrace junk M (n : Int)).2.count p = if 0 ≤ p ∧ p < n * n then 1 else 0 := by
  have key : ∀ I : Nat, I ≤ n → (forLoop (I : Int) (fun i st =>
      forLoop (n : Int) (fun j (st : Array α × List Int) =>
        (storeFlat st.1 (intAdd (intMul (j : Int) (n : Int)) (i : Int)) (readCell M i j),
          st.2 ++ [intAdd (intMul (j : Int) (n : Int)) (i : Int)])) st)
      (malloc junk (intMul (n : Int) (n : Int)), [])).2.count p
        = if (0 ≤ p ∧ p.toNat % n < I) ∧ p.toNat / n < n then 1 else 0 := by
    intro I
    induction I with
    | zero => intro _; simp [forLoop]
    | succ I ih =>
      intro hI
      have hIn : I < n := Nat.lt_of_succ_le hI
      rw [forLoop_succ]
      have h := storeLog_spec (fun p : Int => 0 ≤ p ∧ p.toNat % n = I)
        (fun j => intAdd (intMul (j : Int) (n : Int)) (I : Int)) (fun p => p.toNat / n)
        (fun j (a : Array α) =>
          storeFlat a (intAdd (intMul (j : Int) (n : Int)) (I : Int)) (readCell M I j))
        (forLoop (I : Int) (fun i st =>
          forLoop (n : Int) (fun j (st : Array α × List Int) =>
            (storeFlat st.1 (intAdd (intMul (j : Int) (n : Int)) (i : Int)) (readCell M i j),
              st.2 ++ [intAdd (intMul (j : Int) (n : Int)) (i : Int)])) st)
          (malloc junk (intMul (n : Int) (n : Int)), [])) n
        (fun j hj p => by
          beta_reduce
          rw [cellIndex_eq n j I hb hj hIn, natCast_idx_iff n j I p hIn]
          constructor
          · rintro ⟨⟨h0, h1⟩, h2⟩
            exact ⟨⟨h0, h2⟩, h1⟩
          · rintro ⟨⟨h0, h2⟩, h1⟩
            exact ⟨⟨h0, h1⟩, h2⟩) p
      rw [h, ih (Nat.le_of_succ_le hI)]
      split_ifs <;> omega
  have := key n (Nat.le_refl n)
  unfold columnMajorTrace
  rw [this]
  rcases Nat.eq_zero_or_pos n with h | h
  · subst h
    rw [if_neg (fun hh => Nat.not_lt_zero _ hh.2), if_neg]
    rintro ⟨h1, h2⟩
    simp at h2
    omega
  · have h1 : p.toNat / n < n ↔ p.toNat < n * n := Nat.div_lt_iff_lt_mul h
    have hm : p.toNat % n < n := Nat.mod_lt _ h
    have h2 : ((0 ≤ p ∧ p.toNat % n < n) ∧ p.toNat / n < n)
        ↔ (0 ≤ p ∧ p < (n : Int) * (n : Int)) := by
      rw [h1]
      constructor
      · rintro ⟨⟨h0, -⟩, h3⟩
        refine ⟨h0, ?_⟩
        have : ((p.toNat : Nat) : Int) < ((n * n : Nat) : Int) := by exact_mod_cast h3
        rw [Int.toNat_of_nonneg h0] at this
        push_cast at this
        exact this
      · rintro ⟨h0, h3⟩
        refine ⟨⟨h0, hm⟩, ?_⟩
        have : ((p.toNat : Nat) : Int) < ((n * n : Nat) : Int) := by
          rw [Int.toNat_of_nonneg h0]
          push_cast
          exact h3
        exact_mod_cast this
    simp only [h2]


/-! ## The dispatcher of the dynamic schedule -/

theorem chunkLoop_natCast {σ : Type} (m h : Nat) (hmh : m ≤ h) (body : Nat → σ → σ) (s0 : σ) :
    chunkLoop (m : Int) (h : Int) body (forLoop (m : Int) body s0) = forLoop (h : Int) body s0 := by
  obtain ⟨c, rfl⟩ := Nat.exists_eq_add_of_le hmh
  unfold chunkLoop forLoop
  have h1 : ((((m + c : Nat) : Int)) - (m : Int)).toNat = c := by
    push_cast
    simp
  rw [h1, Int.toNat_ofNat, Int.toNat_ofNat, List.range_add, List.foldl_append, List.foldl_map]

/-- With a chunk size of at least one the dispatcher hands out every iteration once, in
order, and the loop is left after at most `n + 1` requests. -/
theorem dynamicFor_spec {σ : Type} (c n : Nat) (hc : 1 ≤ c) (body : Nat → σ → σ) (s0 : σ)
    (fuel m : Nat) (hfuel : n - m < fuel) :
    dynamicFor fuel (c : Int) (n : Int) body (m : Int) (forLoop ((min m n : Nat) : Int) body s0)
      = (forLoop (n : Int) body s0, true) := by
  induction fuel generalizing m with
  | zero => exact absurd hfuel (Nat.not_lt_zero _)
  | succ fuel ih =>
    unfold dynamicFor
    by_cases h : (n : Int) ≤ (m : Int)
    · have hnm : n ≤ m := by exact_mod_cast h
      rw [if_pos h, Nat.min_eq_right hnm]
    · have hmn : m < n := by
        have : ¬ n ≤ m := fun hh => h (by exact_mod_cast hh)
        omega
      rw [if_neg h, Nat.min_eq_left (Nat.le_of_lt hmn)]
      have e1 : ((m : Int) + (c : Int)) = ((m + c : Nat) : Int) := by push_cast; rfl
      have e2 : min ((m + c : Nat) : Int) (n : Int) = ((min (m + c) n : Nat) : Int) := by
        rw [Nat.cast_min]
      rw [e1, e2, chunkLoop_natCast m (min (m + c) n) (by omega) body s0]
      exact ih (m + c) (by omega)

/-- With chunk size zero and a loop that has iterations, every request is answered with an
empty chunk: no iteration is ever run and the loop is never left. -/
theorem dynamicFor_chunk_zero {σ : Type} (bound : Int) (hb : 0 < bound) (body : Nat → σ → σ)
    (s : σ) (fuel : Nat) : dynamicFor fuel 0 bound body 0 s = (s, false) := by
  induction fuel with
  | zero => rfl
  | succ fuel ih =>
    unfold dynamicFor
    rw [if_neg (by omega)]
    have h1 : min ((0 : Int) + 0) bound = 0 := by omega
    have h2 : chunkLoop 0 (min ((0 : Int) + 0) bound) body s = s := by
      rw [h1]
      simp [chunkLoop]
    rw [h2]
    simpa using ih

/-- A loop without iterations is left at the first request. -/
theorem dynamicFor_of_nonpos {σ : Type} (chunk bound : Int) (hb : bound ≤ 0)
    (body : Nat → σ → σ) (s : σ) (fuel : Nat) :
    dynamicFor (fuel + 1) chunk bound body 0 s = (s, true) := by
  unfold dynamicFor
  rw [if_pos hb]

/-- For `1 ≤ dimension < n_thread * 5` the chunk size handed to `schedule(dynamic, chunk)`
is `0`. -/
theorem chunkSize_eq_zero (dimension n_thread : Int) (hd : 1 ≤ dimension) (hw : 1 ≤ n_thread)
    (hlt : dimension < n_thread * 5) (hr : n_thread * 5 < 2147483648) :
    chunkSize dimension n_thread = 0 := by
  unfold chunkSize intMul
  rw [wrapInt_of_range _ (by omega) hr]
  exact Int.tdiv_eq_zero_of_lt (by omega) hlt

/-- For `n_thread * 5 ≤ dimension` the chunk size is at least `1`. -/
theorem chunkSize_pos (dimension n_thread : Int) (hw : 1 ≤ n_thread)
    (hge : n_thread * 5 ≤ dimension) (hr : dimension < 2147483648) :
    1 ≤ chunkSize dimension n_thread := by
  unfold chunkSize intMul
  rw [wrapInt_of_range _ (by omega) (by omega)]
  have hpos : (0 : Int) < n_thread * 5 := by omega
  rw [Int.tdiv_eq_ediv (by omega) (by omega)]
  exact (Int.le_ediv_iff_mul_le hpos).mpr (by omega)

/-! ## The optimized engine -/

theorem tempA_read [Zero α] (junk0 junk2 : Nat → α) (A : JaggedMatrix α) (n i k : Nat)
    (hb : n ≤ 46340) (hi : i < n) (hk : k < n) :
    loadFlat (copyOf junk2 (rowMajor junk0 A (n : Int)) (intMul (n : Int) (n : Int)))
      (intAdd (intMul (n : Int) (i : Int)) (k : Int)) = readCell A i k := by
  have hp : i * n + k < n * n := idx_lt n i k hi hk
  rw [cellIndex_eq_comm n i k hb hi hk, loadFlat_natCast, intMul_self n hb,
    (copyOf_spec junk2 _ (n * n)).2 _ 0 hp, (rowMajor_spec junk0 A n hb).2 _ 0 hp]
  obtain ⟨h1, h2⟩ := (idx_eq_iff n i k (i * n + k) hk).mp rfl
  rw [h1, h2]

theorem tempB_read [Zero α] (junk1 junk3 : Nat → α) (B : JaggedMatrix α) (n j k : Nat)
    (hb : n ≤ 46340) (hj : j < n) (hk : k < n) :
    loadFlat (copyOf junk3 (columnMajor junk1 B (n : Int)) (intMul (n : Int) (n : Int)))
      (intAdd (intMul (n : Int) (j : Int)) (k : Int)) = readCell B k j := by
  have hp : j * n + k < n * n := idx_lt n j k hj hk
  rw [cellIndex_eq_comm n j k hb hj hk, loadFlat_natCast, intMul_self n hb,
    (copyOf_spec junk3 _ (n * n)).2 _ 0 hp, (columnMajor_spec junk1 B n hb).2 _ 0 hp]
  obtain ⟨h1, h2⟩ := (idx_eq_iff n j k (j * n + k) hk).mp rfl
  rw [h1, h2]

theorem totLoop_spec [Add α] [Mul α] [Zero α] (ja jb jca jcb : Nat → α) (A B : JaggedMatrix α)
    (n i j : Nat) (hb : n ≤ 46340) (hi : i < n) (hj : j < n) (K : Nat) (hK : K ≤ n) :
    forLoop (K : Int) (fun k tot =>
      tot + loadFlat (copyOf jca (rowMajor ja A (n : Int)) (intMul (n : Int) (n : Int)))
          (intAdd (intMul (n : Int) (i : Int)) (k : Int))
        * loadFlat (copyOf jcb (columnMajor jb B (n : Int)) (intMul (n : Int) (n : Int)))
          (intAdd (intMul (n : Int) (j : Int)) (k : Int))) 0
      = dotFrom 0 A B i j K := by
  induction K with
  | zero => simp [forLoop, dotFrom]
  | succ K ih =>
    have hKn : K < n := Nat.lt_of_succ_le hK
    rw [forLoop_succ, ih (Nat.le_of_succ_le hK), dotFrom_succ,
      tempA_read _ _ A n i K hb hi hKn, tempB_read _ _ B n j K hb hj hKn]

/-- The rows of `optimizedParallelMultiply` taken in index order. -/
theorem optimizedRows_spec [Add α] [Mul α] [Zero α] (junk : Nat → Nat → α)
    (A B R : JaggedMatrix α) (n : Nat) (hb : n ≤ 46340) (hR : IsSquare R n) :
    IsSquare (forLoop (n : Int) (fun i result =>
      forLoop (n : Int) (fun j result =>
        writeCell result i j (forLoop (n : Int) (fun k tot =>
          tot + loadFlat (copyOf (junk 2) (rowMajor (junk 0) A (n : Int))
              (intMul (n : Int) (n : Int))) (intAdd (intMul (n : Int) (i : Int)) (k : Int))
            * loadFlat (copyOf (junk 3) (columnMajor (junk 1) B (n : Int))
              (intMul (n : Int) (n : Int))) (intAdd (intMul (n : Int) (j : Int)) (k : Int))) 0))
        result) R) n ∧
    ∀ p q, p < n → q < n → readCell (forLoop (n : Int) (fun i result =>
      forLoop (n : Int) (fun j result =>
        writeCell result i j (forLoop (n : Int) (fun k tot =>
          tot + loadFlat (copyOf (junk 2) (rowMajor (junk 0) A (n : Int))
              (intMul (n : Int) (n : Int))) (intAdd (intMul (n : Int) (i : Int)) (k : Int))
            * loadFlat (copyOf (junk 3) (columnMajor (junk 1) B (n : Int))
              (intMul (n : Int) (n : Int))) (intAdd (intMul (n : Int) (j : Int)) (k : Int))) 0))
        result) R) p q = dotFrom 0 A B p q n := by
  have h := fillLoop_spec (fun i j => forLoop (n : Int) (fun k tot =>
      tot + loadFlat (copyOf (junk 2) (rowMajor (junk 0) A (n : Int))
          (intMul (n : Int) (n : Int))) (intAdd (intMul (n : Int) (i : Int)) (k : Int))
        * loadFlat (copyOf (junk 3) (columnMajor (junk 1) B (n : Int))
          (intMul (n : Int) (n : Int))) (intAdd (intMul (n : Int) (j : Int)) (k : Int))) 0)
    R n hR n (Nat.le_refl n)
  refine ⟨h.1, fun p q hp hq => ?_⟩
  have h2 := h.2 p q
  beta_reduce at h2
  rw [if_pos ⟨hp, hq⟩,
    totLoop_spec (junk 0) (junk 1) (junk 2) (junk 3) A B n p q hb hp hq n (Nat.le_refl n)] at h2
  exact h2

/-- With a positive chunk size, or with no row at all, `optimizedParallelMultiply` returns
what its rows taken in index order leave, given more than `n` requests to the dispatcher. -/
theorem optimized_run [Add α] [Mul α] [Zero α] (junk : Nat → Nat → α) (n_thread : Int)
    (A B R : JaggedMatrix α) (n : Nat) (hc : 1 ≤ chunkSize (n : Int) n_thread ∨ n = 0)
    (t0 t1 : Timeval) (fuel : Nat) (hfuel : n < fuel) :
    optimizedParallelMultiply fuel junk n_thread A B R (n : Int) t0 t1
      = some (forLoop (n : Int) (fun i result =>
          forLoop (n : Int) (fun j result =>
            writeCell result i j (forLoop (n : Int) (fun k tot =>
              tot + loadFlat (copyOf (junk 2) (rowMajor (junk 0) A (n : Int))
                  (intMul (n : Int) (n : Int))) (intAdd (intMul (n : Int) (i : Int)) (k : Int))
                * loadFlat (copyOf (junk 3) (columnMajor (junk 1) B (n : Int))
                  (intMul (n : Int) (n : Int))) (intAdd (intMul (n : Int) (j : Int)) (k : Int)))
              0)) result) R, elapsedSeconds t0 t1) := by
  rcases hc with hc | h0
  · obtain ⟨c, hcc⟩ :=
      Int.eq_ofNat_of_zero_le (show (0 : Int) ≤ chunkSize (n : Int) n_thread by omega)
    have hc1 : 1 ≤ c := by
      rw [hcc] at hc
      exact_mod_cast hc
    have hrun := dynamicFor_spec c n hc1 (fun i result =>
      forLoop (n : Int) (fun j result =>
        writeCell result i j (forLoop (n : Int) (fun k tot =>
          tot + loadFlat (copyOf (junk 2) (rowMajor (junk 0) A (n : Int))
              (intMul (n : Int) (n : Int))) (intAdd (intMul (n : Int) (i : Int)) (k : Int))
            * loadFlat (copyOf (junk 3) (columnMajor (junk 1) B (n : Int))
              (intMul (n : Int) (n : Int))) (intAdd (intMul (n : Int) (j : Int)) (k : Int))) 0))
        result) R fuel 0 (by omega)
    rw [Nat.zero_min, forLoop_zero] at hrun
    unfold optimizedParallelMultiply
    simp only [hcc]
    rw [show ((0 : Nat) : Int) = 0 from rfl] at hrun
    rw [hrun]
    rfl
  · subst h0
    obtain ⟨f, rfl⟩ : ∃ f, fuel = f + 1 := ⟨fuel - 1, by omega⟩
    unfold optimizedParallelMultiply
    simp only [dynamicFor_of_nonpos _ ((0 : Nat) : Int) (le_refl _), forLoop_zero]
    rfl

/-- What `optimizedParallelMultiply` returns when the dimension fits an `int` square. -/
theorem optimized_spec_chunk [Add α] [Mul α] [Zero α] (junk : Nat → Nat → α) (n_thread : Int)
    (A B R : JaggedMatrix α) (n : Nat) (hb : n ≤ 46340)
    (hc : 1 ≤ chunkSize (n : Int) n_thread ∨ n = 0) (hR : IsSquare R n) (t0 t1 : Timeval)
    (fuel : Nat) (hfuel : n < fuel) :
    ∃ res, optimizedParallelMultiply fuel junk n_thread A B R (n : Int) t0 t1
        = some (res, elapsedSeconds t0 t1) ∧
      IsSquare res n ∧ ∀ p q, p < n → q < n → readCell res p q = dotFrom 0 A B p q n := by
  obtain ⟨hsq, hcells⟩ := optimizedRows_spec junk A B R n hb hR
  exact ⟨_, optimized_run junk n_thread A B R n hc t0 t1 fuel hfuel, hsq, hcells⟩

/-- The same for a worker count `n_thread ≥ 1` with `n_thread * 5 ≤ n`. -/
theorem optimized_spec [Add α] [Mul α] [Zero α] (junk : Nat → Nat → α) (n_thread : Int)
    (A B R : JaggedMatrix α) (n : Nat) (hb : n ≤ 46340) (hw : 1 ≤ n_thread)
    (hchunk : n_thread * 5 ≤ (n : Int)) (hR : IsSquare R n) (t0 t1 : Timeval) (fuel : Nat)
    (hfuel : n < fuel) :
    ∃ res, optimizedParallelMultiply fuel junk n_thread A B R (n : Int) t0 t1
        = some (res, elapsedSeconds t0 t1) ∧
      IsSquare res n ∧ ∀ p q, p < n → q < n → readCell res p q = dotFrom 0 A B p q n :=
  optimized_spec_chunk junk n_thread A B R n hb
    (Or.inl (chunkSize_pos (n : Int) n_thread hw hchunk (by omega))) hR t0 t1 fuel hfuel


/-! ## The sequential and the parallel engine -/

theorem sequential_spec [Add α] [Mul α] [Zero α] (A B R : JaggedMatrix α) (n : Nat)
    (hR : IsSquare R n) (t0 t1 : Timeval) :
    IsSquare (sequentialMultiply A B R (n : Int) t0 t1).1 n ∧
    ∀ p q, p < n → q < n →
      readCell (sequentialMultiply A B R (n : Int) t0 t1).1 p q
        = dotFrom (readCell R p q) A B p q n := by
  have h := iLoop_spec A B R n hR n (Nat.le_refl n)
  refine ⟨h.1, fun p q hp hq => ?_⟩
  have h2 := h.2 p q
  rw [if_pos ⟨hp, hq⟩] at h2
  exact h2

theorem parallel_eq_sequential [Add α] [Mul α] [Zero α] (A B R : JaggedMatrix α)
    (dimension : Int) (t0 t1 : Timeval) :
    parallelMultiply A B R dimension t0 t1 = sequentialMultiply A B R dimension t0 t1 := rfl


/-! ## Reading buffers back -/

theorem array_ext_getD (a b : Array α) (d : α) (hs : a.size = b.size)
    (h : ∀ p, p < a.size → a.getD p d = b.getD p d) : a = b := by
  apply Array.ext _ _ hs
  intro i h1 h2
  have := h i h1
  simpa [Array.getD, h1, h2] using this

theorem size_table (n : Nat) (f : Nat → α) : ((List.range n).map f).toArray.size = n := by
  simp

theorem getD_table (n : Nat) (f : Nat → α) (i : Nat) (hi : i < n) (d : α) :
    ((List.range n).map f).toArray.getD i d = f i := by
  simp [Array.getD, hi]

theorem isSquare_table (n : Nat) (f : Nat → Nat → α) :
    IsSquare ((List.range n).map (fun i => ((List.range n).map (f i)).toArray)).toArray n := by
  refine ⟨size_table n _, fun i hi => ?_⟩
  rw [getD_table n _ i hi, size_table]

theorem readCell_table [Zero α] (n : Nat) (f : Nat → Nat → α) (i j : Nat) (hi : i < n)
    (hj : j < n) :
    readCell ((List.range n).map (fun i => ((List.range n).map (f i)).toArray)).toArray i j
      = f i j := by
  unfold readCell
  rw [getD_table n _ i hi, getD_table n _ j hj]


theorem getElem?_of_getD (a : Array α) (p : Nat) (d v : α) (hp : p < a.size)
    (h : a.getD p d = v) : a[p]? = some v := by
  subst h
  simp [Array.getD, hp, Array.getElem?_eq_getElem]


/-! ## Single precision -/

theorem floor_le_roundHalfEven (x : ℚ) : ⌊x⌋ ≤ roundHalfEven x := by
  unfold roundHalfEven
  split_ifs <;> omega

theorem le_roundHalfEven (z : Int) (x : ℚ) (h : (z : ℚ) ≤ x) : z ≤ roundHalfEven x :=
  le_trans (Int.le_floor.mpr h) (floor_le_roundHalfEven x)

theorem roundHalfEven_intCast (z : Int) : roundHalfEven (z : ℚ) = z := by
  unfold roundHalfEven
  simp

theorem ulp32_pos (x : ℚ) : 0 < ulp32 x := by
  unfold ulp32
  positivity

theorem roundF32_nonneg (x : ℚ) (h : 0 ≤ x) : 0 ≤ roundF32 x := by
  unfold roundF32
  have h1 : (0 : ℚ) ≤ x / ulp32 x := div_nonneg h (le_of_lt (ulp32_pos x))
  have h2 : (0 : Int) ≤ roundHalfEven (x / ulp32 x) := le_roundHalfEven 0 _ (by simpa using h1)
  exact mul_nonneg (by exact_mod_cast h2) (le_of_lt (ulp32_pos x))

/-- Where the unit in the last place is at most one, it is one over a power of two. -/
theorem ulp32_eq_inv (x : ℚ) (h : ulpExponent x ≤ 0) :
    ulp32 x = ((2 : ℚ) ^ (-ulpExponent x).toNat)⁻¹ := by
  unfold ulp32
  have hk : ulpExponent x = -(((-ulpExponent x).toNat : Nat) : Int) := by
    rw [Int.toNat_of_nonneg (by omega)]
    omega
  conv_lhs => rw [hk]
  rw [zpow_neg, zpow_natCast]

theorem log_le_zero_of_le_one (r : ℚ) (h : r ≤ 1) : Int.log 2 r ≤ 0 := by
  by_cases hr : 0 < r
  · have h2 : r < ((2 : Nat) : ℚ) ^ (1 : Int) := by
      have : (1 : ℚ) < 2 := by norm_num
      simpa using lt_of_le_of_lt h this
    have := (Int.lt_zpow_iff_log_lt (b := 2) (by norm_num) hr).mp h2
    omega
  · rw [Int.log_of_right_le_zero 2 (le_of_not_gt hr)]

theorem neg_one_le_roundF32 (x : ℚ) (h : -1 ≤ x) : -1 ≤ roundF32 x := by
  by_cases h0 : 0 ≤ x
  · exact le_trans (by norm_num) (roundF32_nonneg x h0)
  · have hx1 : |x| ≤ 1 := by
      rw [abs_le]
      exact ⟨h, le_trans (le_of_lt (lt_of_not_ge h0)) (by norm_num)⟩
    have hk : ulpExponent x ≤ 0 := by
      unfold ulpExponent
      have := log_le_zero_of_le_one |x| hx1
      omega
    unfold roundF32
    rw [ulp32_eq_inv x hk]
    set m := (-ulpExponent x).toNat with hm
    have hp : (0 : ℚ) < (2 : ℚ) ^ m := by positivity
    have h1 : ((-(2 ^ m : Int) : Int) : ℚ) ≤ x / ((2 : ℚ) ^ m)⁻¹ := by
      rw [div_inv_eq_mul]
      push_cast
      nlinarith
    have h2 := le_roundHalfEven _ _ h1
    have h3 : ((-(2 ^ m : Int) : Int) : ℚ) ≤ (roundHalfEven (x / ((2 : ℚ) ^ m)⁻¹) : ℚ) := by
      exact_mod_cast h2
    push_cast at h3
    have h4 : (-(2 : ℚ) ^ m) * ((2 : ℚ) ^ m)⁻¹
        ≤ (roundHalfEven (x / ((2 : ℚ) ^ m)⁻¹) : ℚ) * ((2 : ℚ) ^ m)⁻¹ :=
      mul_le_mul_of_nonneg_right h3 (le_of_lt (inv_pos.mpr hp))
    have h5 : (-(2 : ℚ) ^ m) * ((2 : ℚ) ^ m)⁻¹ = -1 := by
      field_simp
    linarith

theorem pow23_mul_zpow (e : Int) :
    ((2 ^ 23 : Int) : ℚ) * (2 : ℚ) ^ (e - 23) = (2 : ℚ) ^ e := by
  rw [zpow_sub₀ (by norm_num : (2 : ℚ) ≠ 0)]
  push_cast
  have h : (2 : ℚ) ^ (23 : Int) = 2 ^ 23 := by norm_num
  rw [h]
  field_simp
  norm_num
  ring

theorem one_le_roundF32 (x : ℚ) (h : 1 ≤ x) : 1 ≤ roundF32 x := by
  have hpos : (0 : ℚ) < x := lt_of_lt_of_le one_pos h
  have habs : |x| = x := abs_of_pos hpos
  have he : 0 ≤ Int.log 2 x :=
    (Int.zpow_le_iff_le_log (b := 2) (by norm_num) (x := 0) hpos).mp (by simpa using h)
  have hk : ulpExponent x = Int.log 2 x - 23 := by
    unfold ulpExponent
    rw [habs]
    omega
  have hle : ((2 : Nat) : ℚ) ^ Int.log 2 x ≤ x := Int.zpow_log_le_self (by norm_num) hpos
  unfold roundF32 ulp32
  rw [hk]
  have hu : (0 : ℚ) < (2 : ℚ) ^ (Int.log 2 x - 23) := by positivity
  have h1 : ((2 ^ 23 : Int) : ℚ) ≤ x / (2 : ℚ) ^ (Int.log 2 x - 23) := by
    rw [le_div_iff₀ hu, pow23_mul_zpow]
    simpa using hle
  have h3 : ((2 ^ 23 : Int) : ℚ) ≤ (roundHalfEven (x / (2 : ℚ) ^ (Int.log 2 x - 23)) : ℚ) := by
    exact_mod_cast le_roundHalfEven _ _ h1
  have h4 := mul_le_mul_of_nonneg_right h3 (le_of_lt hu)
  rw [pow23_mul_zpow] at h4
  exact le_trans (one_le_zpow₀ (show (1 : ℚ) ≤ 2 by norm_num) he) h4

/-- Integers below `2^24` in absolute value are binary32 numbers. -/
theorem roundF32_intCast (d : Int) (h : |d| < 2 ^ 24) : roundF32 (d : ℚ) = d := by
  have hk : ulpExponent (d : ℚ) ≤ 0 := by
    unfold ulpExponent
    by_cases h0 : d = 0
    · subst h0
      simp [Int.log_of_right_le_zero]
    · have hpos : (0 : ℚ) < |(d : ℚ)| := abs_pos.mpr (by exact_mod_cast h0)
      have hlt : |(d : ℚ)| < ((2 : Nat) : ℚ) ^ (24 : Int) := by
        have : ((|d| : Int) : ℚ) < ((2 ^ 24 : Int) : ℚ) := by exact_mod_cast h
        have h24 : ((2 : Nat) : ℚ) ^ (24 : Int) = ((2 ^ 24 : Int) : ℚ) := by norm_num
        rw [h24]
        simpa using this
      have := (Int.lt_zpow_iff_log_lt (b := 2) (by norm_num) hpos).mp hlt
      omega
  unfold roundF32
  rw [ulp32_eq_inv _ hk, div_inv_eq_mul]
  have hc : (d : ℚ) * (2 : ℚ) ^ (-ulpExponent (d : ℚ)).toNat
      = ((d * 2 ^ (-ulpExponent (d : ℚ)).toNat : Int) : ℚ) := by push_cast; ring
  rw [hc, roundHalfEven_intCast]
  push_cast
  field_simp

theorem roundF32_one : roundF32 1 = 1 := by
  have := roundF32_intCast 1 (by decide)
  simpa using this

theorem roundF32_million : roundF32 1000000 = 1000000 := by
  have := roundF32_intCast 1000000 (by decide)
  simpa using this

theorem ulpExponent_eq (x : ℚ) (e : Int) (h1 : (2 : ℚ) ^ e ≤ |x|) (h2 : |x| < (2 : ℚ) ^ (e + 1))
    (he : -126 ≤ e) : ulpExponent x = e - 23 := by
  have hpos : (0 : ℚ) < |x| := lt_of_lt_of_le (by positivity) h1
  have ha : e ≤ Int.log 2 |x| :=
    (Int.zpow_le_iff_le_log (b := 2) (by norm_num) hpos).mp (by simpa using h1)
  have hb : Int.log 2 |x| < e + 1 :=
    (Int.lt_zpow_iff_log_lt (b := 2) (by norm_num) hpos).mp (by simpa using h2)
  unfold ulpExponent
  omega

theorem roundHalfEven_eq (x : ℚ) (z : Int) (h1 : (z : ℚ) - 1 / 2 < x) (h2 : x < z + 1 / 2) :
    roundHalfEven x = z := by
  have hf : ⌊x⌋ = z ∨ ⌊x⌋ = z - 1 := by
    have a : z - 1 ≤ ⌊x⌋ := Int.le_floor.mpr (by push_cast; linarith)
    have b : ⌊x⌋ < z + 1 := Int.floor_lt.mpr (by push_cast; linarith)
    omega
  have hfl := Int.floor_le x
  have hfu := Int.lt_floor_add_one x
  unfold roundHalfEven
  rcases hf with h | h
  · rw [h] at hfl hfu ⊢
    rw [if_pos (by linarith)]
  · rw [h] at hfl hfu ⊢
    push_cast at hfl hfu ⊢
    rw [if_neg (by linarith), if_pos (by linarith)]
    omega

theorem roundF32_eq (x : ℚ) (e z : Int) (h1 : (2 : ℚ) ^ e ≤ |x|) (h2 : |x| < (2 : ℚ) ^ (e + 1))
    (he : -126 ≤ e) (hz1 : (z : ℚ) - 1 / 2 < x / (2 : ℚ) ^ (e - 23))
    (hz2 : x / (2 : ℚ) ^ (e - 23) < z + 1 / 2) : roundF32 x = z * (2 : ℚ) ^ (e - 23) := by
  unfold roundF32 ulp32
  rw [ulpExponent_eq x e h1 h2 he, roundHalfEven_eq _ z hz1 hz2]

/-- On the readings `(100, 999999)` and `(101, 5)` the engines return `101/16777216`. -/
theorem elapsedSeconds_example : elapsedSeconds exampleT0 exampleT1 = 101 / 16777216 := by
  have hs : roundF32 (longSub exampleT1.tv_sec exampleT0.tv_sec : ℚ) = 1 := by
    have hd : longSub exampleT1.tv_sec exampleT0.tv_sec = 1 := by decide
    have := roundF32_intCast 1 (by decide)
    rw [hd]
    simpa using this
  have hu : roundF32 (longSub exampleT1.tv_usec exampleT0.tv_usec : ℚ) = -999994 := by
    have hd : longSub exampleT1.tv_usec exampleT0.tv_usec = -999994 := by decide
    have := roundF32_intCast (-999994) (by decide)
    rw [hd]
    simpa using this
  have hq : roundF32 (-999994 / 1000000) = -16777115 / 16777216 := by
    rw [roundF32_eq (-999994 / 1000000) (-1) (-16777115) (by norm_num [abs_of_neg])
      (by norm_num [abs_of_neg]) (by norm_num) (by norm_num) (by norm_num)]
    norm_num
  have hf : roundF32 (101 / 16777216) = 101 / 16777216 := by
    rw [roundF32_eq (101 / 16777216) (-18) 13238272 (by norm_num [abs_of_pos])
      (by norm_num [abs_of_pos]) (by norm_num) (by norm_num) (by norm_num)]
    norm_num
  unfold elapsedSeconds
  rw [hs, hu, roundF32_one, roundF32_million, mul_one, roundF32_one, hq]
  have : (1 : ℚ) + -16777115 / 16777216 = 101 / 16777216 := by norm_num
  rw [this, hf]

theorem wrapLong_of_range (x : Int) (h0 : -9223372036854775808 ≤ x)
    (h1 : x < 9223372036854775808) : wrapLong x = x := by
  unfold wrapLong
  omega

/-- Inside the range of `long` the two differences of the latency are the true ones. -/
theorem longSub_readings (t0 t1 : Timeval)
    (h0 : 0 ≤ t0.tv_usec ∧ t0.tv_usec < 1000000) (h1 : 0 ≤ t1.tv_usec ∧ t1.tv_usec < 1000000)
    (hs0 : 0 ≤ t0.tv_sec) (hs1 : t1.tv_sec < 9223372036854775808)
    (hle : t0.tv_sec < t1.tv_sec ∨ (t0.tv_sec = t1.tv_sec ∧ t0.tv_usec ≤ t1.tv_usec)) :
    longSub t1.tv_sec t0.tv_sec = t1.tv_sec - t0.tv_sec ∧
    longSub t1.tv_usec t0.tv_usec = t1.tv_usec - t0.tv_usec :=
  ⟨wrapLong_of_range _ (by omega) (by omega), wrapLong_of_range _ (by omega) (by omega)⟩

theorem elapsedSeconds_nonneg (t0 t1 : Timeval)
    (h0 : 0 ≤ t0.tv_usec ∧ t0.tv_usec < 1000000) (h1 : 0 ≤ t1.tv_usec ∧ t1.tv_usec < 1000000)
    (hs0 : 0 ≤ t0.tv_sec) (hs1 : t1.tv_sec < 9223372036854775808)
    (hle : t0.tv_sec < t1.tv_sec ∨ (t0.tv_sec = t1.tv_sec ∧ t0.tv_usec ≤ t1.tv_usec)) :
    0 ≤ elapsedSeconds t0 t1 := by
  unfold elapsedSeconds
  obtain ⟨hsec, husec⟩ := longSub_readings t0 t1 h0 h1 hs0 hs1 hle
  rw [hsec, husec]
  apply roundF32_nonneg
  rw [roundF32_one, roundF32_million, mul_one]
  have hd : roundF32 ((t1.tv_usec - t0.tv_usec : Int) : ℚ) = ((t1.tv_usec - t0.tv_usec : Int) : ℚ) :=
    roundF32_intCast _ (by rw [abs_lt]; constructor <;> omega)
  rw [hd]
  rcases hle with hlt | ⟨heq, hule⟩
  · have hs : (1 : ℚ) ≤ ((t1.tv_sec - t0.tv_sec : Int) : ℚ) := by
      have : (1 : Int) ≤ t1.tv_sec - t0.tv_sec := by omega
      exact_mod_cast this
    have ha := one_le_roundF32 _ (one_le_roundF32 _ hs)
    have hq : (-1 : ℚ) ≤ ((t1.tv_usec - t0.tv_usec : Int) : ℚ) / 1000000 := by
      rw [le_div_iff₀ (by norm_num)]
      have : (-1000000 : Int) ≤ t1.tv_usec - t0.tv_usec := by omega
      have h := (Int.cast_le (R := ℚ)).mpr this
      push_cast at h ⊢
      linarith
    have hb := neg_one_le_roundF32 _ hq
    linarith
  · have hs : roundF32 ((t1.tv_sec - t0.tv_sec : Int) : ℚ) = 0 := by
      have : t1.tv_sec - t0.tv_sec = 0 := by omega
      rw [this]
      have := roundF32_intCast 0 (by decide)
      simpa using this
    rw [hs]
    have h00 : roundF32 0 = 0 := by
      have := roundF32_intCast 0 (by decide)
      simpa using this
    rw [h00, zero_add]
    apply roundF32_nonneg
    apply div_nonneg
    · have : (0 : Int) ≤ t1.tv_usec - t0.tv_usec := by omega
      exact_mod_cast this
    · norm_num


/-! ## Interleaved runs of the work-sharing loops -/

theorem forLoop_append_acc {β : Type} (K : Nat) (g : Nat → List β) (ops0 : List β) :
    forLoop (K : Int) (fun k ops => ops ++ g k) ops0
      = ops0 ++ forLoop (K : Int) (fun k ops => ops ++ g k) [] := by
  induction K with
  | zero => simp [forLoop]
  | succ K ih => rw [forLoop_succ, forLoop_succ, ih, List.append_assoc]

theorem mem_forLoop_append {β : Type} (K : Nat) (g : Nat → List β) (x : β) :
    x ∈ forLoop (K : Int) (fun k ops => ops ++ g k) [] ↔ ∃ k, k < K ∧ x ∈ g k := by
  induction K with
  | zero => simp [forLoop]
  | succ K ih =>
    rw [forLoop_succ, List.mem_append, ih]
    constructor
    · rintro (⟨k, hk, hx⟩ | hx)
      · exact ⟨k, Nat.lt_succ_of_lt hk, hx⟩
      · exact ⟨K, Nat.lt_succ_self K, hx⟩
    · rintro ⟨k, hk, hx⟩
      rcases Nat.lt_succ_iff_lt_or_eq.mp hk with h | h
      · exact Or.inl ⟨k, h, hx⟩
      · subst h; exact Or.inr hx

theorem execOps_append [Zero α] (ops1 ops2 : List (Op α)) (s : JaggedMatrix α × α) :
    execOps (ops1 ++ ops2) s = execOps ops2 (execOps ops1 s) := by
  simp [execOps, List.foldl_append]

theorem execOps_nil [Zero α] (s : JaggedMatrix α × α) : execOps [] s = s := rfl

theorem execOps_forLoop_append [Zero α] (K : Nat) (g : Nat → List (Op α))
    (s : JaggedMatrix α × α) :
    execOps (forLoop (K : Int) (fun k ops => ops ++ g k) []) s
      = forLoop (K : Int) (fun k s => execOps (g k) s) s := by
  induction K with
  | zero => simp [forLoop, execOps]
  | succ K ih => rw [forLoop_succ, forLoop_succ, execOps_append, ih]

theorem isSquare_execOp [Zero α] (n : Nat) (op : Op α) (s : JaggedMatrix α × α)
    (h : IsSquare s.1 n) : IsSquare (execOp op s).1 n := by
  cases op with
  | load i j => exact h
  | store i j f => exact isSquare_writeCell _ _ _ _ _ h
  | request => exact h

theorem isSquare_execOps [Zero α] (n : Nat) (ops : List (Op α)) (s : JaggedMatrix α × α)
    (h : IsSquare s.1 n) : IsSquare (execOps ops s).1 n := by
  induction ops generalizing s with
  | nil => exact h
  | cons op rest ih => exact ih _ (isSquare_execOp n op s h)

theorem parallelRowOps_eq [Add α] [Mul α] [Zero α] (A B : JaggedMatrix α) (n i : Nat) :
    parallelRowOps A B (n : Int) i
      = forLoop (n : Int) (fun j ops => ops ++ forLoop (n : Int) (fun k ops =>
          ops ++ [Op.load i j,
            Op.store i j (fun r => r + readCell A i k * readCell B k j)]) []) [] := by
  unfold parallelRowOps
  congr 1
  funext j ops
  exact forLoop_append_acc n _ ops

theorem parallelRowOps_target [Add α] [Mul α] [Zero α] (A B : JaggedMatrix α) (n i : Nat)
    (op : Op α) (h : op ∈ parallelRowOps A B (n : Int) i) : op.row = i ∧ op.col < n := by
  rw [parallelRowOps_eq, mem_forLoop_append] at h
  obtain ⟨j, hj, h⟩ := h
  rw [mem_forLoop_append] at h
  obtain ⟨k, -, h⟩ := h
  simp only [List.mem_cons, List.mem_singleton, List.not_mem_nil, or_false] at h
  rcases h with rfl | rfl
  · exact ⟨rfl, hj⟩
  · exact ⟨rfl, hj⟩

theorem optimizedRowOps_target [Add α] [Mul α] [Zero α] (tempA tempB : Array α) (n i : Nat)
    (op : Op α) (h : op ∈ optimizedRowOps tempA tempB (n : Int) i) :
    op.row = i ∧ op.col < n := by
  unfold optimizedRowOps at h
  rw [mem_forLoop_append] at h
  obtain ⟨j, hj, h⟩ := h
  simp only [List.mem_singleton] at h
  subst h
  exact ⟨rfl, hj⟩

theorem parallelRowOps_exec [Add α] [Mul α] [Zero α] (A B : JaggedMatrix α) (n i : Nat)
    (s : JaggedMatrix α × α) :
    (execOps (parallelRowOps A B (n : Int) i) s).1
      = forLoop (n : Int) (fun j result => forLoop (n : Int) (fun k result =>
          writeCell result i j (readCell result i j + readCell A i k * readCell B k j))
          result) s.1 := by
  rw [parallelRowOps_eq, execOps_forLoop_append]
  refine forLoop_fst n _ _ (fun j st => ?_) s
  rw [execOps_forLoop_append]
  exact forLoop_fst n _ _ (fun k st => by dsimp only [execOps, List.foldl, execOp]) st

theorem optimizedRowOps_exec [Add α] [Mul α] [Zero α] (tempA tempB : Array α) (n i : Nat)
    (s : JaggedMatrix α × α) :
    (execOps (optimizedRowOps tempA tempB (n : Int) i) s).1
      = forLoop (n : Int) (fun j result => writeCell result i j
          (forLoop (n : Int) (fun k tot =>
            tot + loadFlat tempA (intAdd (intMul (n : Int) (i : Int)) (k : Int))
              * loadFlat tempB (intAdd (intMul (n : Int) (j : Int)) (k : Int))) 0)) s.1 := by
  unfold optimizedRowOps
  rw [execOps_forLoop_append]
  exact forLoop_fst n _ _ (fun j st => by dsimp only [execOps, List.foldl, execOp]) s

theorem step_nil [Zero α] (w : Nat) (c : Config α) (h : (c.workers w).todo = []) :
    step w c = c := by
  unfold step
  rw [h]

theorem step_load [Zero α] (w : Nat) (c : Config α) (i j : Nat) (rest : List (Op α))
    (h : (c.workers w).todo = Op.load i j :: rest) :
    step w c = { workers := fun x => if x = w then { todo := rest, reg := readCell c.shared i j }
                   else c.workers x,
                 shared := c.shared,
                 log := c.log } := by
  unfold step
  rw [h]

theorem step_store [Zero α] (w : Nat) (c : Config α) (i j : Nat) (f : α → α)
    (rest : List (Op α)) (h : (c.workers w).todo = Op.store i j f :: rest) :
    step w c = { workers := fun x => if x = w then { todo := rest, reg := (c.workers w).reg }
                   else c.workers x,
                 shared := writeCell c.shared i j (f (c.workers w).reg),
                 log := c.log ++ [{ worker := w, row := i, col := j }] } := by
  unfold step
  rw [h]

theorem step_request [Zero α] (w : Nat) (c : Config α) (rest : List (Op α))
    (h : (c.workers w).todo = Op.request :: rest) : step w c = c := by
  unfold step
  rw [h]

theorem step_inv [Zero α] (n : Nat) (owner : Nat → Nat) (program : Nat → List (Op α))
    (reg0 : Nat → α) (R : JaggedMatrix α) (hR : IsSquare R n)
    (hP : ∀ w op, op ∈ program w → op.row < n ∧ op.col < n ∧ owner op.row = w)
    (w0 : Nat) (c : Config α) (inv : ScheduleInv n owner program reg0 R c) :
    ScheduleInv n owner program reg0 R (step w0 c) := by
  obtain ⟨hsq, hlog, hw⟩ := inv
  cases hto : (c.workers w0).todo with
  | nil =>
    rw [step_nil w0 c hto]
    exact ⟨hsq, hlog, hw⟩
  | cons op rest =>
    obtain ⟨done, hprog, hreg, hcell⟩ := hw w0
    rw [hto] at hprog
    have hop : op ∈ program w0 := by
      rw [hprog]
      exact List.mem_append_right _ (List.mem_cons_self _ _)
    cases op with
    | load i j =>
      obtain ⟨hi, hj, hown⟩ : i < n ∧ j < n ∧ owner i = w0 := hP w0 _ hop
      rw [step_load w0 c i j rest hto]
      refine ⟨hsq, hlog, fun w => ?_⟩
      by_cases hww : w = w0
      · subst hww
        refine ⟨done ++ [Op.load i j], ?_, ?_, ?_⟩
        · simp only [if_pos rfl]
          rw [hprog, List.append_assoc]
          rfl
        · simp only [if_pos rfl]
          rw [execOps_append]
          exact hcell i j hi hj hown
        · intro p q hp hq hpo
          rw [execOps_append]
          exact hcell p q hp hq hpo
      · obtain ⟨done2, h1, h2, h3⟩ := hw w
        refine ⟨done2, ?_, ?_, ?_⟩
        · simp only [if_neg hww]
          exact h1
        · simp only [if_neg hww]
          exact h2
        · exact h3
    | store i j f =>
      obtain ⟨hi, hj, hown⟩ : i < n ∧ j < n ∧ owner i = w0 := hP w0 _ hop
      rw [step_store w0 c i j f rest hto]
      refine ⟨isSquare_writeCell _ _ _ _ _ hsq, ?_, fun w => ?_⟩
      · intro e he
        rcases List.mem_append.mp he with h | h
        · exact hlog e h
        · rw [List.mem_singleton] at h
          subst h
          exact ⟨hi, hj, hown⟩
      · by_cases hww : w = w0
        · subst hww
          refine ⟨done ++ [Op.store i j f], ?_, ?_, ?_⟩
          · simp only [if_pos rfl]
            rw [hprog, List.append_assoc]
            rfl
          · simp only [if_pos rfl]
            rw [execOps_append]
            exact hreg
          · intro p q hp hq hpo
            rw [execOps_append]
            have hsq2 : IsSquare (execOps done (R, reg0 w)).1 n :=
              isSquare_execOps n done _ hR
            show readCell (writeCell c.shared i j (f (c.workers w).reg)) p q
              = readCell (writeCell (execOps done (R, reg0 w)).1 i j
                  (f (execOps done (R, reg0 w)).2)) p q
            rw [readCell_writeCell_of_isSquare _ n _ _ _ _ _ hsq hi hj,
              readCell_writeCell_of_isSquare _ n _ _ _ _ _ hsq2 hi hj, hreg, hcell p q hp hq hpo]
        · obtain ⟨done2, h1, h2, h3⟩ := hw w
          refine ⟨done2, ?_, ?_, ?_⟩
          · simp only [if_neg hww]
            exact h1
          · simp only [if_neg hww]
            exact h2
          · intro p q hp hq hpo
            have hne : ¬ (p = i ∧ q = j) := by
              rintro ⟨rfl, -⟩
              exact hww (hpo.symm.trans hown)
            show readCell (writeCell c.shared i j (f (c.workers w0).reg)) p q = _
            rw [readCell_writeCell_of_isSquare _ n _ _ _ _ _ hsq hi hj, if_neg hne]
            exact h3 p q hp hq hpo
    | request =>
      rw [step_request w0 c rest hto]
      exact ⟨hsq, hlog, hw⟩


theorem runSchedule_inv [Zero α] (n : Nat) (owner : Nat → Nat) (program : Nat → List (Op α))
    (reg0 : Nat → α) (R : JaggedMatrix α) (hR : IsSquare R n)
    (hP : ∀ w op, op ∈ program w → op.row < n ∧ op.col < n ∧ owner op.row = w)
    (schedule : List Nat) (c : Config α) (inv : ScheduleInv n owner program reg0 R c) :
    ScheduleInv n owner program reg0 R (runSchedule schedule c) := by
  induction schedule generalizing c with
  | nil => exact inv
  | cons w rest ih => exact ih (step w c) (step_inv n owner program reg0 R hR hP w c inv)

theorem startConfig_todo (rowOps : Nat → Nat → List (Op α)) (reg0 : Nat → α)
    (owner : Nat → Nat) (n : Nat) (R : JaggedMatrix α) (w : Nat) :
    ((startConfig rowOps reg0 owner (n : Int) R).workers w).todo
      = forLoop (n : Int) (fun i ops => ops ++ (if owner i = w then rowOps w i else [])) [] := by
  unfold startConfig
  show forLoop (n : Int) (fun i ops => if owner i = w then ops ++ rowOps w i else ops) [] = _
  congr 1
  funext i ops
  by_cases h : owner i = w
  · rw [if_pos h, if_pos h]
  · rw [if_neg h, if_neg h, List.append_nil]

theorem startConfig_owned (rowOps : Nat → Nat → List (Op α)) (reg0 : Nat → α)
    (owner : Nat → Nat) (n : Nat) (R : JaggedMatrix α)
    (hrow : ∀ w i op, op ∈ rowOps w i → op.row = i ∧ op.col < n) (w : Nat) (op : Op α)
    (h : op ∈ ((startConfig rowOps reg0 owner (n : Int) R).workers w).todo) :
    op.row < n ∧ op.col < n ∧ owner op.row = w := by
  rw [startConfig_todo, mem_forLoop_append] at h
  obtain ⟨i, hi, h⟩ := h
  by_cases ho : owner i = w
  · rw [if_pos ho] at h
    obtain ⟨h1, h2⟩ := hrow w i op h
    rw [h1]
    exact ⟨hi, h2, ho⟩
  · rw [if_neg ho] at h
    exact absurd h (List.not_mem_nil op)

theorem startConfig_inv [Zero α] (rowOps : Nat → Nat → List (Op α)) (reg0 : Nat → α)
    (owner : Nat → Nat) (n : Nat) (R : JaggedMatrix α) (hR : IsSquare R n) :
    ScheduleInv n owner (fun w => ((startConfig rowOps reg0 owner (n : Int) R).workers w).todo)
      reg0 R (startConfig rowOps reg0 owner (n : Int) R) :=
  ⟨hR, fun e he => absurd he (List.not_mem_nil e),
    fun _ => ⟨[], rfl, rfl, fun _ _ _ _ _ => rfl⟩⟩

/-- A worker that runs its whole program alone changes exactly the rows it owns. -/
theorem solo_spec [Zero α] (rowOps : Nat → List (Op α)) (cellAfter : Nat → Nat → α → α)
    (owner : Nat → Nat) (w n : Nat) (R : JaggedMatrix α) (r0 : α) (hR : IsSquare R n)
    (hrow : ∀ i m r, i < n → IsSquare m n → ∀ p q, p < n → q < n →
      readCell (execOps (rowOps i) (m, r)).1 p q
        = if p = i then cellAfter p q (readCell m p q) else readCell m p q)
    (I : Nat) (hI : I ≤ n) :
    IsSquare (forLoop (I : Int) (fun i s =>
      execOps (if owner i = w then rowOps i else []) s) (R, r0)).1 n ∧
    ∀ p q, p < n → q < n → readCell (forLoop (I : Int) (fun i s =>
      execOps (if owner i = w then rowOps i else []) s) (R, r0)).1 p q
      = if p < I ∧ owner p = w then cellAfter p q (readCell R p q) else readCell R p q := by
  induction I with
  | zero =>
    refine ⟨by simpa [forLoop] using hR, fun p q _ _ => ?_⟩
    simp [forLoop]
  | succ I ih =>
    obtain ⟨hsq, hrd⟩ := ih (Nat.le_of_succ_le hI)
    have hIn : I < n := Nat.lt_of_succ_le hI
    rw [forLoop_succ]
    refine ⟨isSquare_execOps n _ _ hsq, fun p q hp hq => ?_⟩
    by_cases ho : owner I = w
    · rw [if_pos ho, hrow I _ _ hIn hsq p q hp hq, hrd p q hp hq]
      by_cases h : p = I
      · subst h
        rw [if_pos rfl, if_neg (fun hh => Nat.lt_irrefl _ hh.1),
          if_pos ⟨Nat.lt_succ_self _, ho⟩]
      · rw [if_neg h]
        by_cases h2 : p < I ∧ owner p = w
        · rw [if_pos h2, if_pos ⟨Nat.lt_succ_of_lt h2.1, h2.2⟩]
        · rw [if_neg h2, if_neg]
          rintro ⟨h3, h4⟩
          rcases Nat.lt_succ_iff_lt_or_eq.mp h3 with h5 | h5
          · exact h2 ⟨h5, h4⟩
          · exact h h5
    · rw [if_neg ho, execOps_nil, hrd p q hp hq]
      by_cases h2 : p < I ∧ owner p = w
      · rw [if_pos h2, if_pos ⟨Nat.lt_succ_of_lt h2.1, h2.2⟩]
      · rw [if_neg h2, if_neg]
        rintro ⟨h3, h4⟩
        rcases Nat.lt_succ_iff_lt_or_eq.mp h3 with h5 | h5
        · exact h2 ⟨h5, h4⟩
        · subst h5; exact ho h4

/-- Any interleaving of a work-sharing loop whose iterations touch only their own row: all
stores go to rows owned by the storing worker, and once every worker has finished, each cell
holds what its row's iteration, run alone by the row's owner, would have left there. -/
theorem interleaving_spec [Zero α] (rowOps : Nat → Nat → List (Op α))
    (cellAfter : Nat → Nat → Nat → α → α) (reg0 : Nat → α) (owner : Nat → Nat) (n : Nat)
    (R : JaggedMatrix α) (hR : IsSquare R n)
    (htarget : ∀ w i op, op ∈ rowOps w i → op.row = i ∧ op.col < n)
    (hrow : ∀ w i m r, i < n → IsSquare m n → ∀ p q, p < n → q < n →
      readCell (execOps (rowOps w i) (m, r)).1 p q
        = if p = i then cellAfter w p q (readCell m p q) else readCell m p q)
    (schedule : List Nat) :
    IsSquare (runSchedule schedule (startConfig rowOps reg0 owner (n : Int) R)).shared n ∧
    (∀ e, e ∈ (runSchedule schedule (startConfig rowOps reg0 owner (n : Int) R)).log →
      e.row < n ∧ e.col < n ∧ owner e.row = e.worker) ∧
    (Finished owner n (runSchedule schedule (startConfig rowOps reg0 owner (n : Int) R)) →
      ∀ p q, p < n → q < n →
        readCell (runSchedule schedule (startConfig rowOps reg0 owner (n : Int) R)).shared p q
          = cellAfter (owner p) p q (readCell R p q)) := by
  obtain ⟨hsq, hlog, hw⟩ := runSchedule_inv n owner _ reg0 R hR
    (startConfig_owned rowOps reg0 owner n R htarget) schedule _
    (startConfig_inv rowOps reg0 owner n R hR)
  refine ⟨hsq, hlog, fun hfin p q hp hq => ?_⟩
  obtain ⟨done, hprog, -, hcell⟩ := hw (owner p)
  have hnil := List.eq_nil_of_length_eq_zero (hfin p hp)
  rw [hnil, List.append_nil] at hprog
  beta_reduce at hprog
  rw [hcell p q hp hq rfl, ← hprog, startConfig_todo, execOps_forLoop_append,
    (solo_spec (rowOps (owner p)) (cellAfter (owner p)) owner (owner p) n R _ hR
      (hrow (owner p)) n (Nat.le_refl n)).2 p q hp hq, if_pos ⟨hp, rfl⟩]


/-! ## Schedules that finish -/

theorem step_todo [Zero α] (w0 : Nat) (c : Config α)
    (hacc : ∀ op, op ∈ (c.workers w0).todo → op.isAccess = true) (w : Nat) :
    ((step w0 c).workers w).todo
      = if w = w0 then (c.workers w0).todo.tail else (c.workers w).todo := by
  cases hto : (c.workers w0).todo with
  | nil =>
    rw [step_nil w0 c hto]
    by_cases h : w = w0
    · rw [if_pos h, h, hto]
      rfl
    · rw [if_neg h]
  | cons op rest =>
    cases op with
    | load i j =>
      rw [step_load w0 c i j rest hto]
      by_cases h : w = w0
      · simp only [if_pos h]
        rfl
      · simp only [if_neg h]
    | store i j f =>
      rw [step_store w0 c i j f rest hto]
      by_cases h : w = w0
      · simp only [if_pos h]
        rfl
      · simp only [if_neg h]
    | request =>
      have hreq : (Op.request : Op α).isAccess = true :=
        hacc Op.request (by rw [hto]; exact List.mem_cons_self _ _)
      exact absurd hreq (by simp [Op.isAccess])

/-- Every step of a worker shortens what it has left by one access. -/
theorem todo_length_runSchedule [Zero α] (schedule : List Nat) (c : Config α)
    (hacc : ∀ w op, op ∈ (c.workers w).todo → op.isAccess = true) (w : Nat) :
    ((runSchedule schedule c).workers w).todo.length
      = (c.workers w).todo.length - schedule.count w := by
  induction schedule generalizing c with
  | nil => simp [runSchedule]
  | cons w0 rest ih =>
    have hstep : ∀ x, ((step w0 c).workers x).todo
        = if x = w0 then (c.workers w0).todo.tail else (c.workers x).todo :=
      fun x => step_todo w0 c (hacc w0) x
    have hacc2 : ∀ x op, op ∈ ((step w0 c).workers x).todo → op.isAccess = true := by
      intro x op hop
      rw [hstep x] at hop
      by_cases h : x = w0
      · rw [if_pos h] at hop
        exact hacc w0 op (List.mem_of_mem_tail hop)
      · rw [if_neg h] at hop
        exact hacc x op hop
    have h1 := ih (step w0 c) hacc2
    show ((runSchedule rest (step w0 c)).workers w).todo.length = _
    rw [h1, hstep w, List.count_cons]
    by_cases h : w = w0
    · subst h
      rw [if_pos rfl, List.length_tail]
      simp only [beq_self_eq_true, if_true]
      omega
    · have h2 : (w0 == w) = false := by
        simp only [beq_eq_false_iff_ne]
        exact fun hh => h hh.symm
      simp only [if_neg h, h2]
      simp

theorem count_fairSchedule (owner : Nat → Nat) (steps : Nat → Nat) (n i : Nat) (hi : i < n) :
    steps i ≤ (fairSchedule owner steps n).count (owner i) := by
  unfold fairSchedule
  induction n with
  | zero => exact absurd hi (Nat.not_lt_zero i)
  | succ n ih =>
    rw [forLoop_succ, List.count_append]
    rcases Nat.lt_succ_iff_lt_or_eq.mp hi with h | h
    · exact le_trans (ih h) (Nat.le_add_right _ _)
    · subst h
      rw [List.count_replicate_self]
      exact Nat.le_add_left _ _

theorem startConfig_access (rowOps : Nat → Nat → List (Op α)) (reg0 : Nat → α)
    (owner : Nat → Nat) (n : Nat) (R : JaggedMatrix α)
    (hrow : ∀ w i op, op ∈ rowOps w i → op.isAccess = true) (w : Nat) (op : Op α)
    (h : op ∈ ((startConfig rowOps reg0 owner (n : Int) R).workers w).todo) :
    op.isAccess = true := by
  rw [startConfig_todo, mem_forLoop_append] at h
  obtain ⟨i, -, h⟩ := h
  by_cases ho : owner i = w
  · rw [if_pos ho] at h
    exact hrow w i op h
  · rw [if_neg ho] at h
    exact absurd h (List.not_mem_nil op)

/-- A work-sharing loop whose rows were all handed out finishes under every schedule that
lets the owner of each row make as many steps as it has accesses, and such a schedule
exists. -/
theorem startConfig_finishes [Zero α] (rowOps : Nat → Nat → List (Op α)) (reg0 : Nat → α)
    (owner : Nat → Nat) (n : Nat) (R : JaggedMatrix α)
    (hrow : ∀ w i op, op ∈ rowOps w i → op.isAccess = true) :
    (∀ schedule : List Nat,
      (∀ i, i < n →
        ((startConfig rowOps reg0 owner (n : Int) R).workers (owner i)).todo.length
          ≤ schedule.count (owner i)) →
      Finished owner n (runSchedule schedule (startConfig rowOps reg0 owner (n : Int) R))) ∧
    ∃ schedule : List Nat,
      Finished owner n (runSchedule schedule (startConfig rowOps reg0 owner (n : Int) R)) := by
  have key : ∀ schedule : List Nat,
      (∀ i, i < n →
        ((startConfig rowOps reg0 owner (n : Int) R).workers (owner i)).todo.length
          ≤ schedule.count (owner i)) →
      Finished owner n (runSchedule schedule (startConfig rowOps reg0 owner (n : Int) R)) := by
    intro schedule hs i hi
    rw [todo_length_runSchedule schedule _
      (fun w op h => startConfig_access rowOps reg0 owner n R hrow w op h)]
    exact Nat.sub_eq_zero_of_le (hs i hi)
  refine ⟨key, fairSchedule owner (fun i =>
    ((startConfig rowOps reg0 owner (n : Int) R).workers (owner i)).todo.length) n, ?_⟩
  exact key _ (fun i hi => count_fairSchedule owner (fun i =>
    ((startConfig rowOps reg0 owner (n : Int) R).workers (owner i)).todo.length) n i hi)

theorem parallelRowOps_access [Add α] [Mul α] [Zero α] (A B : JaggedMatrix α) (n i : Nat)
    (op : Op α) (h : op ∈ parallelRowOps A B (n : Int) i) : op.isAccess = true := by
  rw [parallelRowOps_eq, mem_forLoop_append] at h
  obtain ⟨j, -, h⟩ := h
  rw [mem_forLoop_append] at h
  obtain ⟨k, -, h⟩ := h
  simp only [List.mem_cons, List.mem_singleton, List.not_mem_nil, or_false] at h
  rcases h with rfl | rfl <;> rfl

theorem optimizedRowOps_access [Add α] [Mul α] [Zero α] (tempA tempB : Array α) (n i : Nat)
    (op : Op α) (h : op ∈ optimizedRowOps tempA tempB (n : Int) i) : op.isAccess = true := by
  unfold optimizedRowOps at h
  rw [mem_forLoop_append] at h
  obtain ⟨j, -, h⟩ := h
  simp only [List.mem_singleton] at h
  subst h
  rfl

/-! ## The two parallel regions -/

theorem parallelRowOps_cells [Add α] [Mul α] [Zero α] (A B : JaggedMatrix α) (n i : Nat)
    (m : JaggedMatrix α) (r : α) (hi : i < n) (hm : IsSquare m n) (p q : Nat) (_hp : p < n)
    (hq : q < n) :
    readCell (execOps (parallelRowOps A B (n : Int) i) (m, r)).1 p q
      = if p = i then dotFrom (readCell m p q) A B p q n else readCell m p q := by
  rw [parallelRowOps_exec, (jLoop_spec A B m n i hm hi n (Nat.le_refl n)).2 p q]
  by_cases h : p = i
  · rw [if_pos ⟨h, hq⟩, if_pos h]
  · rw [if_neg (fun hh => h hh.1), if_neg h]

theorem optimizedRowOps_cells [Add α] [Mul α] [Zero α] (tempA tempB : Array α) (n i : Nat)
    (m : JaggedMatrix α) (r : α) (hi : i < n) (hm : IsSquare m n) (p q : Nat) (_hp : p < n)
    (hq : q < n) :
    readCell (execOps (optimizedRowOps tempA tempB (n : Int) i) (m, r)).1 p q
      = if p = i then forLoop (n : Int) (fun k tot =>
            tot + loadFlat tempA (intAdd (intMul (n : Int) (p : Int)) (k : Int))
              * loadFlat tempB (intAdd (intMul (n : Int) (q : Int)) (k : Int))) 0
        else readCell m p q := by
  rw [optimizedRowOps_exec]
  have h := (fillRow_spec (fun j => forLoop (n : Int) (fun k tot =>
      tot + loadFlat tempA (intAdd (intMul (n : Int) (i : Int)) (k : Int))
        * loadFlat tempB (intAdd (intMul (n : Int) (j : Int)) (k : Int))) 0)
    m n i hm hi n (Nat.le_refl n)).2 p q
  beta_reduce at h
  rw [h]
  by_cases hpi : p = i
  · rw [if_pos ⟨hpi, hq⟩, if_pos hpi, hpi]
  · rw [if_neg (fun hh => hpi hh.1), if_neg hpi]

theorem optimizedStart_of_handout [Add α] [Mul α] [Zero α] (junk : Nat → Nat → α)
    (wjunk : Nat → Nat → Nat → α) (n_thread : Int) (A B R : JaggedMatrix α) (dimension : Int)
    (owner : Nat → Nat) (reg0 : Nat → α)
    (h : ¬ (0 < dimension ∧ chunkSize dimension n_thread ≤ 0)) :
    optimizedStart junk wjunk n_thread A B R dimension owner reg0
      = startConfig (fun w i => optimizedRowOps
          (copyOf (wjunk w 2) (rowMajor (junk 0) A dimension) (intMul dimension dimension))
          (copyOf (wjunk w 3) (columnMajor (junk 1) B dimension) (intMul dimension dimension))
          dimension i) reg0 owner dimension R := by
  unfold optimizedStart
  simp only []
  rw [if_neg h]

theorem optimizedStart_of_empty_chunks [Add α] [Mul α] [Zero α] (junk : Nat → Nat → α)
    (wjunk : Nat → Nat → Nat → α) (n_thread : Int) (A B R : JaggedMatrix α) (dimension : Int)
    (owner : Nat → Nat) (reg0 : Nat → α)
    (h : 0 < dimension ∧ chunkSize dimension n_thread ≤ 0) :
    optimizedStart junk wjunk n_thread A B R dimension owner reg0
      = { workers := fun w => { todo := [Op.request], reg := reg0 w },
          shared := R,
          log := [] } := by
  unfold optimizedStart
  simp only []
  rw [if_pos h]

/-- Workers that are only ever answered with empty chunks get nowhere. -/
theorem runSchedule_of_requests [Zero α] (schedule : List Nat) (c : Config α)
    (h : ∀ w, (c.workers w).todo = [Op.request]) : runSchedule schedule c = c := by
  induction schedule with
  | nil => rfl
  | cons w rest ih =>
    show runSchedule rest (step w c) = c
    rw [step_request w c [] (h w)]
    exact ih


/-- What `malloc` returned does not show in a copy. -/
theorem copyOf_junk [Zero α] (junk junk2 : Nat → α) (buffer : Array α) (count : Int) :
    copyOf junk buffer count = copyOf junk2 buffer count := by
  by_cases h : 0 ≤ count
  · obtain ⟨c, rfl⟩ := Int.eq_ofNat_of_zero_le h
    obtain ⟨h1, g1⟩ := copyOf_spec junk buffer c
    obtain ⟨h2, g2⟩ := copyOf_spec junk2 buffer c
    refine array_ext_getD _ _ 0 (by rw [h1, h2]) (fun p hp => ?_)
    rw [h1] at hp
    rw [g1 p 0 hp, g2 p 0 hp]
  · refine array_ext_getD _ _ 0 (by rw [size_copyOf, size_copyOf]) (fun p hp => ?_)
    rw [size_copyOf, Int.toNat_eq_zero.mpr (by omega)] at hp
    exact absurd hp (Nat.not_lt_zero p)

/-! ## The engines: stated results -/

/-- C1: for every dimension `n ≥ 1`, all `n × n` matrices `A`, `B` and every initial `n × n`
output `R`, `sequentialMultiply` leaves `Result[i][j] = R[i][j] + Σ_{k<n} A[i][k]*B[k][j]` for
all `i, j < n`; on an output produced by `zeroMatrix(n)` the result is the matrix product
`A * B`, and for `n = 1` it is `Result[0][0] = A[0][0]*B[0][0]`. -/
theorem sequentialMultiply_accumulates [Semiring α] (n : Nat) (hn : 1 ≤ n)
    (A B R : JaggedMatrix α) (hA : IsSquare A n) (hB : IsSquare B n) (hR : IsSquare R n)
    (junk : Nat → Nat → α) (t0 t1 : Timeval) :
    (∀ i j, i < n → j < n →
      readCell (sequentialMultiply A B R (n : Int) t0 t1).1 i j
        = readCell R i j + ∑ k in Finset.range n, readCell A i k * readCell B k j) ∧
    toMatrix (sequentialMultiply A B (zeroMatrix junk (n : Int)) (n : Int) t0 t1).1 n
      = toMatrix A n * toMatrix B n ∧
    (n = 1 →
      readCell (sequentialMultiply A B (zeroMatrix junk (n : Int)) (n : Int) t0 t1).1 0 0
        = readCell A 0 0 * readCell B 0 0) := by
  have hz := zeroMatrix_spec junk n
  have key : ∀ i j, i < n → j < n →
      readCell (sequentialMultiply A B (zeroMatrix junk (n : Int)) (n : Int) t0 t1).1 i j
        = ∑ k in Finset.range n, readCell A i k * readCell B k j := by
    intro i j hi hj
    rw [(sequential_spec A B _ n hz.1 t0 t1).2 i j hi hj, dotFrom_eq_sum, hz.2 i j hi hj, zero_add]
  refine ⟨fun i j hi hj => ?_, ?_, ?_⟩
  · rw [(sequential_spec A B R n hR t0 t1).2 i j hi hj, dotFrom_eq_sum]
  · ext i j
    rw [Matrix.mul_apply]
    simp only [toMatrix, Matrix.of_apply]
    rw [key i.val j.val i.isLt j.isLt, Finset.sum_range]
  · intro h1
    subst h1
    rw [key 0 0 (by decide) (by decide)]
    simp


/-- Witness of C1 at `A = [[1,2],[3,4]]`, `B = [[5,6],[7,8]]`, `R = [[10,20],[30,40]]`. -/
theorem sequentialMultiply_accumulates_witness :
    (1 ≤ 2 ∧ IsSquare exampleA 2 ∧ IsSquare exampleB 2 ∧ IsSquare exampleR 2) ∧
    ((∀ i j, i < 2 → j < 2 →
      readCell (sequentialMultiply exampleA exampleB exampleR ((2 : Nat) : Int)
          exampleT0 exampleT1).1 i j
        = readCell exampleR i j
          + ∑ k in Finset.range 2, readCell exampleA i k * readCell exampleB k j) ∧
    toMatrix (sequentialMultiply exampleA exampleB (zeroMatrix exampleJunk ((2 : Nat) : Int))
        ((2 : Nat) : Int) exampleT0 exampleT1).1 2
      = toMatrix exampleA 2 * toMatrix exampleB 2 ∧
    (2 = 1 →
      readCell (sequentialMultiply exampleA exampleB (zeroMatrix exampleJunk ((2 : Nat) : Int))
          ((2 : Nat) : Int) exampleT0 exampleT1).1 0 0
        = readCell exampleA 0 0 * readCell exampleB 0 0)) :=
  ⟨⟨by decide, by decide, by decide, by decide⟩,
    sequentialMultiply_accumulates 2 (by decide) exampleA exampleB exampleR
      (by decide) (by decide) (by decide) exampleJunk exampleT0 exampleT1⟩


/-! ## The matrix of ones of dimension 46341 -/

theorem isSquare_mkArray (n : Nat) (v : α) :
    IsSquare (Array.mkArray n (Array.mkArray n v)) n := by
  refine ⟨Array.size_mkArray _ _, fun i hi => ?_⟩
  simp [Array.getD, hi]

theorem readCell_mkArray [Zero α] (n : Nat) (v : α) (i j : Nat) (hi : i < n) (hj : j < n) :
    readCell (Array.mkArray n (Array.mkArray n v)) i j = v := by
  unfold readCell
  simp [Array.getD, hi, hj]

theorem isSquare_bigOnes : IsSquare bigOnes 46341 :=
  isSquare_mkArray 46341 1

theorem readCell_bigOnes (i j : Nat) (hi : i < 46341) (hj : j < 46341) :
    readCell bigOnes i j = 1 :=
  readCell_mkArray 46341 1 i j hi hj

theorem intMul_overflow : intMul 46341 46341 = -2147479015 := by decide

/-- C2 as stated fails twice.  At dimension 2 with 4 threads the chunk size is 0 and the
call has not returned after any number of requests to the dispatcher.  At dimension 46341
`dimension * dimension` leaves the range of `int`: the private copy holds no element and
`tempA[n*0+0]` does not read `A[0][0]`. -/
theorem optimizedParallelMultiply_not_for_every_dimension :
    (IsSquare exampleA 2 ∧ IsSquare exampleB 2 ∧ IsSquare exampleR 2 ∧
      ∀ fuel, optimizedParallelMultiply fuel exampleJunk 4 exampleA exampleB exampleR 2
        exampleT0 exampleT1 = none) ∧
    (IsSquare bigOnes 46341 ∧
      (copyOf (exampleJunk 2) (rowMajor (exampleJunk 0) bigOnes 46341)
        (intMul 46341 46341)).size = 0 ∧
      loadFlat (copyOf (exampleJunk 2) (rowMajor (exampleJunk 0) bigOnes 46341)
        (intMul 46341 46341)) (intAdd (intMul 46341 0) 0) = 0 ∧
      readCell bigOnes 0 0 = 1) := by
  have hsize : (copyOf (exampleJunk 2) (rowMajor (exampleJunk 0) bigOnes 46341)
      (intMul 46341 46341)).size = 0 := by
    rw [size_copyOf, intMul_overflow]
    rfl
  refine ⟨⟨by decide, by decide, by decide, fun fuel => ?_⟩,
    isSquare_bigOnes, hsize, loadFlat_of_size_eq_zero _ hsize _,
    readCell_bigOnes 0 0 (by decide) (by decide)⟩
  have hc : chunkSize 2 4 = 0 := by decide
  unfold optimizedParallelMultiply
  simp only [hc]
  rw [dynamicFor_chunk_zero 2 (by decide)]
  rfl

/-- C2 amended: for every worker count `n_thread ≥ 1` and every dimension `n` with
`5 * n_thread ≤ n ≤ 46340` (the chunk size is at least 1 and `n * n` fits an `int`), all
`n × n` matrices `A`, `B` and any initial contents of the `n × n` output,
`optimizedParallelMultiply` returns, given more than `n` requests to the dispatcher, and
leaves `Result[i][j] = Σ_{k<n} A[i][k]*B[k][j]`; the result is the same for every prior
content of `Result`, and `tempA[n*i+k]`, `tempB[n*j+k]` read exactly `A[i][k]` and
`B[k][j]`. -/
theorem optimizedParallelMultiply_assigns [Semiring α] (n : Nat) (hb : n ≤ 46340)
    (n_thread : Int) (hw : 1 ≤ n_thread) (hchunk : n_thread * 5 ≤ (n : Int))
    (A B R : JaggedMatrix α) (hA : IsSquare A n) (hB : IsSquare B n) (hR : IsSquare R n)
    (junk : Nat → Nat → α) (t0 t1 : Timeval) (fuel : Nat) (hfuel : n < fuel) :
    ∃ res, optimizedParallelMultiply fuel junk n_thread A B R (n : Int) t0 t1
        = some (res, elapsedSeconds t0 t1) ∧
      (∀ i j, i < n → j < n →
        readCell res i j = ∑ k in Finset.range n, readCell A i k * readCell B k j) ∧
      (∀ R2 : JaggedMatrix α, IsSquare R2 n →
        optimizedParallelMultiply fuel junk n_thread A B R2 (n : Int) t0 t1
          = some (res, elapsedSeconds t0 t1)) ∧
      (∀ i k, i < n → k < n →
        loadFlat (copyOf (junk 2) (rowMajor (junk 0) A (n : Int)) (intMul (n : Int) (n : Int)))
          (intAdd (intMul (n : Int) (i : Int)) (k : Int)) = readCell A i k) ∧
      (∀ j k, j < n → k < n →
        loadFlat (copyOf (junk 3) (columnMajor (junk 1) B (n : Int)) (intMul (n : Int) (n : Int)))
          (intAdd (intMul (n : Int) (j : Int)) (k : Int)) = readCell B k j) := by
  obtain ⟨res, hres, hsq, hcells⟩ :=
    optimized_spec junk n_thread A B R n hb hw hchunk hR t0 t1 fuel hfuel
  refine ⟨res, hres, fun i j hi hj => ?_, fun R2 hR2 => ?_,
    fun i k hi hk => tempA_read _ _ A n i k hb hi hk,
    fun j k hj hk => tempB_read _ _ B n j k hb hj hk⟩
  · rw [hcells i j hi hj, dotFrom_eq_sum, zero_add]
  · obtain ⟨res2, hres2, hsq2, hcells2⟩ :=
      optimized_spec junk n_thread A B R2 n hb hw hchunk hR2 t0 t1 fuel hfuel
    have : res2 = res := by
      refine jaggedMatrix_ext _ _ n hsq2 hsq (fun p q hp hq => ?_)
      rw [hcells p q hp hq, hcells2 p q hp hq]
    rw [hres2, this]

set_option maxRecDepth 100000 in
/-- Witness of the amended C2 at dimension 5 with one thread and a non-zero output. -/
theorem optimizedParallelMultiply_assigns_witness :
    ((5 : Nat) ≤ 46340 ∧ (1 : Int) ≤ 1 ∧ (1 : Int) * 5 ≤ ((5 : Nat) : Int) ∧
      IsSquare exampleA5 5 ∧ IsSquare exampleB5 5 ∧ IsSquare exampleR5 5 ∧ 5 < 6) ∧
    (optimizedParallelMultiply 6 exampleJunk 1 exampleA5 exampleB5 exampleR5 ((5 : Nat) : Int)
        exampleT0 exampleT1).map Prod.fst
      = some #[#[14, 9, 4, 3, 5], #[3, 4, 2, 5, 5], #[7, 2, 5, 3, 1], #[12, 5, 3, 7, 5],
          #[6, 8, 3, 3, 6]] ∧
    ∃ res, optimizedParallelMultiply 6 exampleJunk 1 exampleA5 exampleB5 exampleR5
        ((5 : Nat) : Int) exampleT0 exampleT1 = some (res, elapsedSeconds exampleT0 exampleT1) ∧
      ∀ i j, i < 5 → j < 5 →
        readCell res i j = ∑ k in Finset.range 5, readCell exampleA5 i k * readCell exampleB5 k j := by
  obtain ⟨res, h1, h2, -⟩ := optimizedParallelMultiply_assigns 5 (by decide) 1 (by decide)
    (by decide) exampleA5 exampleB5 exampleR5 (by decide) (by decide) (by decide) exampleJunk
    exampleT0 exampleT1 6 (by decide)
  exact ⟨⟨by decide, by decide, by decide, by decide, by decide, by decide, by decide⟩,
    by decide, res, h1, h2⟩


/-! ## The layout transformer: stated results -/

theorem readCell_transpose [Zero α] (M : JaggedMatrix α) (n i j : Nat) (hi : i < n) (hj : j < n) :
    readCell (transpose M n) i j = readCell M j i := by
  unfold transpose
  rw [readCell_table n (fun i j => readCell M j i) i j hi hj]

/-- C4 as stated fails at dimension 46341, where `dimension * dimension` leaves the range
of `int`: the allocation request comes out negative, `columnMajor` delivers no element, and
`buffer[0*n + 0]` is not `M[0][0]`. -/
theorem columnMajor_not_for_every_dimension :
    (1 ≤ 46341 ∧ IsSquare bigOnes 46341) ∧
    (columnMajor (exampleJunk 0) bigOnes 46341).size = 0 ∧
    (columnMajor (exampleJunk 0) bigOnes 46341).size ≠ 46341 * 46341 ∧
    (columnMajor (exampleJunk 0) bigOnes 46341)[0 * 46341 + 0]? ≠ some (readCell bigOnes 0 0) := by
  have hsize : (columnMajor (exampleJunk 0) bigOnes 46341).size = 0 := by
    rw [size_columnMajor, intMul_overflow]
    rfl
  refine ⟨⟨by decide, isSquare_bigOnes⟩, hsize, by rw [hsize]; decide, ?_⟩
  have hnone : (columnMajor (exampleJunk 0) bigOnes 46341)[0 * 46341 + 0]? = none := by
    rw [Array.getElem?_eq_none_iff, hsize]
  rw [hnone]
  exact fun h => by cases h

/-- C4 amended: for every dimension `1 ≤ n ≤ 46340` (so that `n * n` fits an `int`) and
every `n × n` matrix `M`, `columnMajor(M, n)` is a flat buffer of length `n*n` with
`buffer[j*n + i] = M[i][j]` for all `i, j < n`; equivalently it is
`rowMajor(transpose(M), n)`, so row `j` of the buffer is column `j` of `M`. -/
theorem columnMajor_layout [Zero α] (n : Nat) (hn : 1 ≤ n) (hb : n ≤ 46340)
    (M : JaggedMatrix α) (hM : IsSquare M n) (junk junk2 : Nat → α) :
    (columnMajor junk M (n : Int)).size = n * n ∧
    (∀ i j, i < n → j < n → (columnMajor junk M (n : Int))[j * n + i]? = some (readCell M i j)) ∧
    columnMajor junk M (n : Int) = rowMajor junk2 (transpose M n) (n : Int) := by
  obtain ⟨hs, hg⟩ := columnMajor_spec junk M n hb
  obtain ⟨hs2, hg2⟩ := rowMajor_spec junk2 (transpose M n) n hb
  refine ⟨hs, fun i j hi hj => ?_, ?_⟩
  · have hp : j * n + i < n * n := idx_lt n j i hj hi
    refine getElem?_of_getD _ _ 0 _ (by rw [hs]; exact hp) ?_
    rw [hg _ 0 hp]
    obtain ⟨h1, h2⟩ := (idx_eq_iff n j i (j * n + i) hi).mp rfl
    rw [h1, h2]
  · refine array_ext_getD _ _ 0 (by rw [hs, hs2]) (fun p hp => ?_)
    rw [hs] at hp
    rw [hg p 0 hp, hg2 p 0 hp,
      readCell_transpose M n _ _ (div_lt_of_lt_sq n p hp) (mod_lt_of_lt_sq n p hp)]

/-- Witness of the amended C4 at `M = [[1,2],[3,4]]`. -/
theorem columnMajor_layout_witness :
    (1 ≤ 2 ∧ 2 ≤ 46340 ∧ IsSquare exampleA 2) ∧
    columnMajor (exampleJunk 0) exampleA ((2 : Nat) : Int) = #[1, 3, 2, 4] ∧
    (columnMajor (exampleJunk 0) exampleA ((2 : Nat) : Int)).size = 2 * 2 ∧
    (∀ i j, i < 2 → j < 2 →
      (columnMajor (exampleJunk 0) exampleA ((2 : Nat) : Int))[j * 2 + i]?
        = some (readCell exampleA i j)) ∧
    columnMajor (exampleJunk 0) exampleA ((2 : Nat) : Int)
      = rowMajor (exampleJunk 1) (transpose exampleA 2) ((2 : Nat) : Int) :=
  ⟨⟨by decide, by decide, by decide⟩, by decide,
    columnMajor_layout 2 (by decide) (by decide) exampleA (by decide) (exampleJunk 0)
      (exampleJunk 1)⟩

/-- C5 as stated fails at dimension 46341, where `dimension * dimension` leaves the range
of `int`: `rowMajor` and `columnMajor` deliver no element, so neither has length `n*n` and
reading either back does not give `M`. -/
theorem flatten_not_for_every_dimension :
    (1 ≤ 46341 ∧ IsSquare bigOnes 46341) ∧
    (rowMajor (exampleJunk 0) bigOnes 46341).size ≠ 46341 * 46341 ∧
    unflattenRowMajor (rowMajor (exampleJunk 0) bigOnes 46341) 46341 ≠ bigOnes ∧
    unflattenColumnMajor (columnMajor (exampleJunk 0) bigOnes 46341) 46341 ≠ bigOnes := by
  have hr : (rowMajor (exampleJunk 0) bigOnes 46341).size = 0 := by
    rw [size_rowMajor, intMul_overflow]
    rfl
  have hc : (columnMajor (exampleJunk 0) bigOnes 46341).size = 0 := by
    rw [size_columnMajor, intMul_overflow]
    rfl
  have h1 : readCell bigOnes 0 0 = 1 := readCell_bigOnes 0 0 (by decide) (by decide)
  refine ⟨⟨by decide, isSquare_bigOnes⟩, by rw [hr]; decide, fun h => ?_, fun h => ?_⟩
  · have h2 : readCell (unflattenRowMajor (rowMajor (exampleJunk 0) bigOnes 46341) 46341) 0 0
        = 0 := by
      unfold unflattenRowMajor
      rw [readCell_table 46341
        (fun i j => (rowMajor (exampleJunk 0) bigOnes 46341).getD (i * 46341 + j) 0) 0 0
        (by decide) (by decide)]
      exact getD_of_size_eq_zero _ hr _ _
    rw [h, h1] at h2
    exact absurd h2 (by decide)
  · have h2 : readCell (unflattenColumnMajor (columnMajor (exampleJunk 0) bigOnes 46341) 46341)
        0 0 = 0 := by
      unfold unflattenColumnMajor
      rw [readCell_table 46341
        (fun i j => (columnMajor (exampleJunk 0) bigOnes 46341).getD (j * 46341 + i) 0) 0 0
        (by decide) (by decide)]
      exact getD_of_size_eq_zero _ hc _ _
    rw [h, h1] at h2
    exact absurd h2 (by decide)

/-- C5 amended: for every dimension `1 ≤ n ≤ 46340` (so that `n * n` fits an `int`) and
every `n × n` matrix `M`, `rowMajor(M, n)` has length `n*n` and reading it back by
`U[i][j] = buffer[i*n + j]` gives `M`; reading `columnMajor(M, n)` back by
`U[i][j] = buffer[j*n + i]` gives `M`; both functions store to every slot `p < n*n` exactly
once and to no other index, and what was in the fresh buffers does not show in the result. -/
theorem flatten_roundtrip [Zero α] (n : Nat) (hn : 1 ≤ n) (hb : n ≤ 46340)
    (M : JaggedMatrix α) (hM : IsSquare M n) (junk junk2 : Nat → α) :
    ((rowMajor junk M (n : Int)).size = n * n ∧
      unflattenRowMajor (rowMajor junk M (n : Int)) n = M) ∧
    ((columnMajor junk M (n : Int)).size = n * n ∧
      unflattenColumnMajor (columnMajor junk M (n : Int)) n = M) ∧
    ((rowMajorTrace junk M (n : Int)).1 = rowMajor junk M (n : Int) ∧
      ∀ p : Int, (rowMajorTrace junk M (n : Int)).2.count p
        = if 0 ≤ p ∧ p < n * n then 1 else 0) ∧
    ((columnMajorTrace junk M (n : Int)).1 = columnMajor junk M (n : Int) ∧
      ∀ p : Int, (columnMajorTrace junk M (n : Int)).2.count p
        = if 0 ≤ p ∧ p < n * n then 1 else 0) ∧
    (rowMajor junk2 M (n : Int) = rowMajor junk M (n : Int) ∧
      columnMajor junk2 M (n : Int) = columnMajor junk M (n : Int)) := by
  obtain ⟨hr, hrg⟩ := rowMajor_spec junk M n hb
  obtain ⟨hc, hcg⟩ := columnMajor_spec junk M n hb
  obtain ⟨hr2, hrg2⟩ := rowMajor_spec junk2 M n hb
  obtain ⟨hc2, hcg2⟩ := columnMajor_spec junk2 M n hb
  refine ⟨⟨hr, ?_⟩, ⟨hc, ?_⟩, ⟨rowMajorTrace_fst junk M n, rowMajorTrace_count junk M n hb⟩,
    ⟨columnMajorTrace_fst junk M n, columnMajorTrace_count junk M n hb⟩, ?_, ?_⟩
  · refine jaggedMatrix_ext _ _ n (isSquare_table n _) hM (fun p q hp hq => ?_)
    unfold unflattenRowMajor
    rw [readCell_table n (fun i j => (rowMajor junk M (n : Int)).getD (i * n + j) 0) p q hp hq,
      hrg _ 0 (idx_lt n p q hp hq)]
    obtain ⟨h1, h2⟩ := (idx_eq_iff n p q (p * n + q) hq).mp rfl
    rw [h1, h2]
  · refine jaggedMatrix_ext _ _ n (isSquare_table n _) hM (fun p q hp hq => ?_)
    unfold unflattenColumnMajor
    rw [readCell_table n (fun i j => (columnMajor junk M (n : Int)).getD (j * n + i) 0) p q hp hq,
      hcg _ 0 (idx_lt n q p hq hp)]
    obtain ⟨h1, h2⟩ := (idx_eq_iff n q p (q * n + p) hp).mp rfl
    rw [h1, h2]
  · refine array_ext_getD _ _ 0 (by rw [hr, hr2]) (fun p hp => ?_)
    rw [hr2] at hp
    rw [hrg p 0 hp, hrg2 p 0 hp]
  · refine array_ext_getD _ _ 0 (by rw [hc, hc2]) (fun p hp => ?_)
    rw [hc2] at hp
    rw [hcg p 0 hp, hcg2 p 0 hp]

/-- Witness of the amended C5 at `M = [[1,2],[3,4]]`. -/
theorem flatten_roundtrip_witness :
    (1 ≤ 2 ∧ 2 ≤ 46340 ∧ IsSquare exampleA 2) ∧
    (rowMajorTrace (exampleJunk 0) exampleA ((2 : Nat) : Int)).2 = [0, 1, 2, 3] ∧
    (columnMajorTrace (exampleJunk 0) exampleA ((2 : Nat) : Int)).2 = [0, 2, 1, 3] ∧
    ((rowMajor (exampleJunk 0) exampleA ((2 : Nat) : Int)).size = 2 * 2 ∧
      unflattenRowMajor (rowMajor (exampleJunk 0) exampleA ((2 : Nat) : Int)) 2 = exampleA) ∧
    ((columnMajor (exampleJunk 0) exampleA ((2 : Nat) : Int)).size = 2 * 2 ∧
      unflattenColumnMajor (columnMajor (exampleJunk 0) exampleA ((2 : Nat) : Int)) 2
        = exampleA) :=
  ⟨⟨by decide, by decide, by decide⟩, by decide, by decide,
    (flatten_roundtrip 2 (by decide) (by decide) exampleA (by decide) (exampleJunk 0)
      (exampleJunk 1)).1,
    (flatten_roundtrip 2 (by decide) (by decide) exampleA (by decide) (exampleJunk 0)
      (exampleJunk 1)).2.1⟩


/-! ## The factory: stated results -/

theorem randomRow_spec [Zero α] [IntCast α] (rand : Nat → Int) (n i : Nat) (hi : i < n)
    (s : JaggedMatrix α × Nat) (hs : IsSquare s.1 n) (J : Nat) (hJ : J ≤ n) :
    (forLoop (J : Int) (fun j (st : JaggedMatrix α × Nat) =>
      (writeCell st.1 i j ((Int.tmod (rand st.2) 1000 + 1 : Int) : α), st.2 + 1)) s).2 = s.2 + J ∧
    IsSquare (forLoop (J : Int) (fun j (st : JaggedMatrix α × Nat) =>
      (writeCell st.1 i j ((Int.tmod (rand st.2) 1000 + 1 : Int) : α), st.2 + 1)) s).1 n ∧
    ∀ p q, readCell (forLoop (J : Int) (fun j (st : JaggedMatrix α × Nat) =>
      (writeCell st.1 i j ((Int.tmod (rand st.2) 1000 + 1 : Int) : α), st.2 + 1)) s).1 p q
      = if p = i ∧ q < J then ((Int.tmod (rand (s.2 + q)) 1000 + 1 : Int) : α)
        else readCell s.1 p q := by
  induction J with
  | zero =>
    refine ⟨by simp [forLoop], by simpa [forLoop] using hs, fun p q => ?_⟩
    simp [forLoop]
  | succ J ih =>
    obtain ⟨hc, hsq, hrd⟩ := ih (Nat.le_of_succ_le hJ)
    rw [forLoop_succ]
    refine ⟨by simp only [hc]; omega, isSquare_writeCell _ _ _ _ _ hsq, fun p q => ?_⟩
    simp only []
    rw [readCell_writeCell_of_isSquare _ n _ _ _ _ _ hsq hi (Nat.lt_of_succ_le hJ), hc]
    by_cases h : p = i ∧ q = J
    · obtain ⟨rfl, rfl⟩ := h
      rw [if_pos ⟨rfl, rfl⟩, if_pos ⟨rfl, Nat.lt_succ_self _⟩]
    · rw [if_neg h, hrd p q]
      by_cases h2 : p = i ∧ q < J
      · rw [if_pos h2, if_pos ⟨h2.1, Nat.lt_succ_of_lt h2.2⟩]
      · rw [if_neg h2, if_neg]
        rintro ⟨h3, h4⟩
        rcases Nat.lt_succ_iff_lt_or_eq.mp h4 with h5 | h5
        · exact h2 ⟨h3, h5⟩
        · exact h ⟨h3, h5⟩

theorem randomFill_spec [Zero α] [IntCast α] (rand : Nat → Int) (n : Nat)
    (R : JaggedMatrix α) (hR : IsSquare R n) (I : Nat) (hI : I ≤ n) :
    (forLoop (I : Int) (fun i st => forLoop (n : Int) (fun j (st : JaggedMatrix α × Nat) =>
      (writeCell st.1 i j ((Int.tmod (rand st.2) 1000 + 1 : Int) : α), st.2 + 1)) st)
      (R, 0)).2 = I * n ∧
    IsSquare (forLoop (I : Int) (fun i st => forLoop (n : Int)
      (fun j (st : JaggedMatrix α × Nat) =>
      (writeCell st.1 i j ((Int.tmod (rand st.2) 1000 + 1 : Int) : α), st.2 + 1)) st)
      (R, 0)).1 n ∧
    ∀ p q, readCell (forLoop (I : Int) (fun i st => forLoop (n : Int)
      (fun j (st : JaggedMatrix α × Nat) =>
      (writeCell st.1 i j ((Int.tmod (rand st.2) 1000 + 1 : Int) : α), st.2 + 1)) st)
      (R, 0)).1 p q
      = if p < I ∧ q < n then ((Int.tmod (rand (p * n + q)) 1000 + 1 : Int) : α)
        else readCell R p q := by
  induction I with
  | zero =>
    refine ⟨by simp [forLoop], by simpa [forLoop] using hR, fun p q => ?_⟩
    simp [forLoop]
  | succ I ih =>
    obtain ⟨hc, hsq, hrd⟩ := ih (Nat.le_of_succ_le hI)
    rw [forLoop_succ]
    obtain ⟨hc2, hsq2, hrd2⟩ := randomRow_spec rand n I (Nat.lt_of_succ_le hI) _ hsq n
      (Nat.le_refl n)
    refine ⟨by rw [hc2, hc]; ring, hsq2, fun p q => ?_⟩
    rw [hrd2 p q, hc]
    by_cases h : p = I ∧ q < n
    · obtain ⟨rfl, hq⟩ := h
      rw [if_pos ⟨rfl, hq⟩, if_pos ⟨Nat.lt_succ_self _, hq⟩]
    · rw [if_neg h, hrd p q]
      by_cases h2 : p < I ∧ q < n
      · rw [if_pos h2, if_pos ⟨Nat.lt_succ_of_lt h2.1, h2.2⟩]
      · rw [if_neg h2, if_neg]
        rintro ⟨h3, h4⟩
        rcases Nat.lt_succ_iff_lt_or_eq.mp h3 with h5 | h5
        · exact h2 ⟨h5, h4⟩
        · exact h ⟨h5, h4⟩

/-- C9: for every dimension `n > 0` and every sequence `rand` of non-negative generator
outputs, `randomMatrix(n)` returns an `n × n` matrix in which every element is filled: element
`(i, j)` holds the integer `v = r mod 1000 + 1` for the output `r` of call number `i*n + j`, and
`1 ≤ v ≤ 1000`.  The contents of the fresh storage play no role. -/
theorem randomMatrix_range [Zero α] [IntCast α] (n : Nat) (hn : 0 < n) (rand : Nat → Int)
    (hrand : ∀ c, 0 ≤ rand c) (junk : Nat → Nat → α) :
    IsSquare (randomMatrix junk rand (n : Int)) n ∧
    ∀ i j, i < n → j < n → ∃ v : Int,
      readCell (randomMatrix junk rand (n : Int)) i j = (v : α) ∧
      v = rand (i * n + j) % 1000 + 1 ∧ 1 ≤ v ∧ v ≤ 1000 := by
  obtain ⟨-, hsq, hrd⟩ := randomFill_spec rand n _ (allocRows_spec junk n) n (Nat.le_refl n)
  refine ⟨hsq, fun i j hi hj => ⟨rand (i * n + j) % 1000 + 1, ?_, rfl, ?_, ?_⟩⟩
  · have h := hrd i j
    rw [if_pos ⟨hi, hj⟩, Int.tmod_eq_emod (hrand _) (by decide)] at h
    exact h
  · have := Int.emod_nonneg (rand (i * n + j)) (by decide : (1000 : Int) ≠ 0)
    omega
  · have := Int.emod_lt_of_pos (rand (i * n + j)) (by decide : (0 : Int) < 1000)
    omega

/-- Witness of C9 with the outputs `999, 1999, 2999, 3999`. -/
theorem randomMatrix_range_witness :
    (0 < 2 ∧ ∀ c, 0 ≤ exampleRand c) ∧
    randomMatrix exampleJunk exampleRand ((2 : Nat) : Int) = #[#[1000, 1000], #[1000, 1000]] ∧
    IsSquare (randomMatrix exampleJunk exampleRand ((2 : Nat) : Int)) 2 ∧
    ∀ i j, i < 2 → j < 2 → ∃ v : Int,
      readCell (randomMatrix exampleJunk exampleRand ((2 : Nat) : Int)) i j = (v : Int) ∧
      v = exampleRand (i * 2 + j) % 1000 + 1 ∧ 1 ≤ v ∧ v ≤ 1000 :=
  ⟨⟨by decide, fun c => by unfold exampleRand; omega⟩, by decide,
    randomMatrix_range 2 (by decide) exampleRand (fun c => by unfold exampleRand; omega)
      exampleJunk⟩


/-! ## Latency, error exits and the chunk size: stated results -/

/-- C10 as stated fails: on the readings `(100, 999999)` and `(101, 5)`, which satisfy the
conditions of the claim with `u1 < u0`, the true difference is `6` microseconds,
`3/500000` of a second, but the engines return the single-precision value
`101/16777216`. -/
theorem elapsed_not_the_true_difference :
    ((0 ≤ exampleT0.tv_usec ∧ exampleT0.tv_usec < 1000000) ∧
      (0 ≤ exampleT1.tv_usec ∧ exampleT1.tv_usec < 1000000) ∧
      (exampleT0.tv_sec < exampleT1.tv_sec ∨
        (exampleT0.tv_sec = exampleT1.tv_sec ∧ exampleT0.tv_usec ≤ exampleT1.tv_usec)) ∧
      exampleT1.tv_usec < exampleT0.tv_usec) ∧
    (sequentialMultiply exampleA exampleB exampleR 2 exampleT0 exampleT1).2 = 101 / 16777216 ∧
    (parallelMultiply exampleA exampleB exampleR 2 exampleT0 exampleT1).2 = 101 / 16777216 ∧
    ((((exampleT1.tv_sec * 1000000 + exampleT1.tv_usec)
        - (exampleT0.tv_sec * 1000000 + exampleT0.tv_usec) : Int) : ℚ) / 1000000 = 3 / 500000) ∧
    (sequentialMultiply exampleA exampleB exampleR 2 exampleT0 exampleT1).2
      ≠ (((exampleT1.tv_sec * 1000000 + exampleT1.tv_usec)
        - (exampleT0.tv_sec * 1000000 + exampleT0.tv_usec) : Int) : ℚ) / 1000000 := by
  have hv : (sequentialMultiply exampleA exampleB exampleR 2 exampleT0 exampleT1).2
      = 101 / 16777216 := elapsedSeconds_example
  have ht : (((exampleT1.tv_sec * 1000000 + exampleT1.tv_usec)
      - (exampleT0.tv_sec * 1000000 + exampleT0.tv_usec) : Int) : ℚ) / 1000000 = 3 / 500000 := by
    simp only [exampleT0, exampleT1]
    norm_num
  refine ⟨⟨by decide, by decide, by decide, by decide⟩, hv, elapsedSeconds_example, ht, ?_⟩
  rw [hv, ht]
  norm_num

/-- C10 amended: the latency each engine returns is non-negative: for clock readings
`(s0, u0)` and `(s1, u1)` of `gettimeofday` (`0 ≤ s0`, `s1 < 2^63`) with
`0 ≤ u0, u1 < 1000000` and the end not earlier than the start, the value the engines
compute in single precision,
`float(float(s1 - s0) * 1.0f + float(float(u1 - u0) / 1000000.0f))`, is `≥ 0`, also when
`u1 < u0`; the microsecond difference and both constants are exact in `float`, the
quotient and the sum are rounded.  All three engines return this same value. -/
theorem elapsed_nonneg [Add α] [Mul α] [Zero α] (t0 t1 : Timeval)
    (h0 : 0 ≤ t0.tv_usec ∧ t0.tv_usec < 1000000) (h1 : 0 ≤ t1.tv_usec ∧ t1.tv_usec < 1000000)
    (hs0 : 0 ≤ t0.tv_sec) (hs1 : t1.tv_sec < 9223372036854775808)
    (hle : t0.tv_sec < t1.tv_sec ∨ (t0.tv_sec = t1.tv_sec ∧ t0.tv_usec ≤ t1.tv_usec))
    (junk : Nat → Nat → α) (n_thread : Int) (A B R : JaggedMatrix α) (dimension : Int) :
    0 ≤ (sequentialMultiply A B R dimension t0 t1).2 ∧
    (sequentialMultiply A B R dimension t0 t1).2
      = roundF32 (roundF32 (roundF32 ((t1.tv_sec - t0.tv_sec : Int) : ℚ))
          + roundF32 (((t1.tv_usec - t0.tv_usec : Int) : ℚ) / 1000000)) ∧
    (parallelMultiply A B R dimension t0 t1).2
      = (sequentialMultiply A B R dimension t0 t1).2 ∧
    (∀ fuel r, optimizedParallelMultiply fuel junk n_thread A B R dimension t0 t1 = some r →
      r.2 = (sequentialMultiply A B R dimension t0 t1).2) := by
  have hval : (sequentialMultiply A B R dimension t0 t1).2 = elapsedSeconds t0 t1 := rfl
  refine ⟨by rw [hval]; exact elapsedSeconds_nonneg t0 t1 h0 h1 hs0 hs1 hle, ?_, rfl, ?_⟩
  · rw [hval]
    unfold elapsedSeconds
    obtain ⟨hsec, husec⟩ := longSub_readings t0 t1 h0 h1 hs0 hs1 hle
    rw [hsec, husec]
    have hd : roundF32 ((t1.tv_usec - t0.tv_usec : Int) : ℚ)
        = ((t1.tv_usec - t0.tv_usec : Int) : ℚ) :=
      roundF32_intCast _ (by rw [abs_lt]; constructor <;> omega)
    rw [roundF32_one, roundF32_million, mul_one, hd]
  · intro fuel r hr
    rw [hval]
    unfold optimizedParallelMultiply at hr
    simp only [] at hr
    split_ifs at hr
    cases hr
    rfl

/-- Witness of the amended C10 across a second boundary, where `u1 < u0`. -/
theorem elapsed_nonneg_witness :
    ((0 ≤ exampleT0.tv_usec ∧ exampleT0.tv_usec < 1000000) ∧
      (0 ≤ exampleT1.tv_usec ∧ exampleT1.tv_usec < 1000000) ∧
      0 ≤ exampleT0.tv_sec ∧ exampleT1.tv_sec < 9223372036854775808 ∧
      (exampleT0.tv_sec < exampleT1.tv_sec ∨
        (exampleT0.tv_sec = exampleT1.tv_sec ∧ exampleT0.tv_usec ≤ exampleT1.tv_usec)) ∧
      exampleT1.tv_usec < exampleT0.tv_usec) ∧
    0 ≤ (sequentialMultiply exampleA exampleB exampleR 2 exampleT0 exampleT1).2 :=
  ⟨⟨by decide, by decide, by decide, by decide, by decide, by decide⟩,
    (elapsed_nonneg exampleT0 exampleT1 (by decide) (by decide) (by decide) (by decide)
      (by decide) exampleJunk 4 exampleA exampleB exampleR 2).1⟩

/-- C7 as stated fails: at dimension `0` and at dimension `-1` every factory and engine call
returns normally instead of failing with `InvalidDimension`. -/
theorem invalidDimension_not_raised :
    zeroMatrixCall exampleJunk 0 = Except.ok #[] ∧
    zeroMatrixCall exampleJunk 0 ≠ Except.error MatMulError.InvalidDimension ∧
    randomMatrixCall exampleJunk exampleRand (-1) = Except.ok #[] ∧
    randomMatrixCall exampleJunk exampleRand (-1) ≠ Except.error MatMulError.InvalidDimension ∧
    sequentialMultiplyCall exampleA exampleB exampleR 0 exampleT0 exampleT1
      = Except.ok (exampleR, elapsedSeconds exampleT0 exampleT1) ∧
    sequentialMultiplyCall exampleA exampleB exampleR 0 exampleT0 exampleT1
      ≠ Except.error MatMulError.InvalidDimension ∧
    parallelMultiplyCall exampleA exampleB exampleR (-1) exampleT0 exampleT1
      ≠ Except.error MatMulError.InvalidDimension ∧
    optimizedParallelMultiplyCall 1 exampleJunk 4 exampleA exampleB exampleR 0
        exampleT0 exampleT1
      = some (Except.ok (exampleR, elapsedSeconds exampleT0 exampleT1)) ∧
    optimizedParallelMultiplyCall 1 exampleJunk 4 exampleA exampleB exampleR 0
        exampleT0 exampleT1
      ≠ some (Except.error MatMulError.InvalidDimension) := by
  have hopt : optimizedParallelMultiplyCall 1 exampleJunk 4 exampleA exampleB exampleR 0
      exampleT0 exampleT1 = some (Except.ok (exampleR, elapsedSeconds exampleT0 exampleT1)) := by
    unfold optimizedParallelMultiplyCall optimizedParallelMultiply
    simp only [dynamicFor_of_nonpos _ 0 (le_refl 0)]
    rfl
  refine ⟨rfl, ?_, rfl, ?_, rfl, ?_, ?_, hopt, ?_⟩
  · intro h; cases h
  · intro h; cases h
  · intro h; cases h
  · intro h; cases h
  · rw [hopt]
    intro h
    cases h

/-- C7 amended: for every dimension `≤ 0` no factory or engine call fails; the factories
return a matrix without rows and the engines return the elapsed time and leave `Result` as
it was. -/
theorem nonpositive_dimension_returns [Add α] [Mul α] [Zero α] [IntCast α] (dimension : Int)
    (hd : dimension ≤ 0) (junk : Nat → Nat → α) (rand : Nat → Int) (n_thread : Int)
    (A B R : JaggedMatrix α) (t0 t1 : Timeval) (fuel : Nat) :
    randomMatrixCall junk rand dimension = Except.ok #[] ∧
    zeroMatrixCall junk dimension = Except.ok #[] ∧
    sequentialMultiplyCall A B R dimension t0 t1 = Except.ok (R, elapsedSeconds t0 t1) ∧
    parallelMultiplyCall A B R dimension t0 t1 = Except.ok (R, elapsedSeconds t0 t1) ∧
    optimizedParallelMultiplyCall (fuel + 1) junk n_thread A B R dimension t0 t1
      = some (Except.ok (R, elapsedSeconds t0 t1)) := by
  have h0 : dimension.toNat = 0 := Int.toNat_eq_zero.mpr hd
  refine ⟨?_, ?_, ?_, ?_, ?_⟩
  · simp only [randomMatrixCall, randomMatrix, forLoop_of_nonpos dimension hd, h0]
    rfl
  · simp only [zeroMatrixCall, zeroMatrix, forLoop_of_nonpos dimension hd, h0]
    rfl
  · simp only [sequentialMultiplyCall, sequentialMultiply, forLoop_of_nonpos dimension hd]
  · simp only [parallelMultiplyCall, parallelMultiply, forLoop_of_nonpos dimension hd]
  · unfold optimizedParallelMultiplyCall optimizedParallelMultiply
    simp only [dynamicFor_of_nonpos _ dimension hd]
    rfl

/-- Witness of the amended C7 at dimension `-3`. -/
theorem nonpositive_dimension_returns_witness :
    ((-3 : Int) ≤ 0) ∧
    (randomMatrixCall exampleJunk exampleRand (-3) = Except.ok #[] ∧
    zeroMatrixCall exampleJunk (-3) = Except.ok #[] ∧
    sequentialMultiplyCall exampleA exampleB exampleR (-3) exampleT0 exampleT1
      = Except.ok (exampleR, elapsedSeconds exampleT0 exampleT1) ∧
    parallelMultiplyCall exampleA exampleB exampleR (-3) exampleT0 exampleT1
      = Except.ok (exampleR, elapsedSeconds exampleT0 exampleT1) ∧
    optimizedParallelMultiplyCall (0 + 1) exampleJunk 4 exampleA exampleB exampleR (-3)
        exampleT0 exampleT1
      = some (Except.ok (exampleR, elapsedSeconds exampleT0 exampleT1))) :=
  ⟨by decide, nonpositive_dimension_returns (-3) (by decide) exampleJunk exampleRand 4
    exampleA exampleB exampleR exampleT0 exampleT1 0⟩

/-- C6, the code at the boundary: for every dimension `n ≥ 1` and worker count `w ≥ 1`
with `n < w * 5` the chunk size that `optimizedParallelMultiply` hands to
`schedule(dynamic, chunk)` is `0`; the dispatcher then answers every request with an empty
chunk, so after any number of requests no row has been visited, the loop has not been
left, and the call has not returned. -/
theorem chunk_zero_visits_no_row [Add α] [Mul α] [Zero α] (n w : Int) (hn : 1 ≤ n)
    (hw : 1 ≤ w) (hlt : n < w * 5) (hr : w * 5 < 2147483648) (fuel : Nat)
    (junk : Nat → Nat → α) (A B R : JaggedMatrix α) (t0 t1 : Timeval) :
    chunkSize n w = 0 ∧
    optimizedRowVisits fuel n w = ([], false) ∧
    optimizedParallelMultiply fuel junk w A B R n t0 t1 = none := by
  have hc := chunkSize_eq_zero n w hn hw hlt hr
  refine ⟨hc, ?_, ?_⟩
  · unfold optimizedRowVisits
    rw [hc]
    exact dynamicFor_chunk_zero n (by omega) _ _ fuel
  · unfold optimizedParallelMultiply
    simp only [hc]
    rw [dynamicFor_chunk_zero n (by omega)]
    rfl

/-- Witness of the failing input of C6: dimension 2 with 4 threads. -/
theorem chunk_zero_visits_no_row_witness :
    ((1 : Int) ≤ 2 ∧ (1 : Int) ≤ 4 ∧ (2 : Int) < 4 * 5 ∧ (4 : Int) * 5 < 2147483648) ∧
    chunkSize 2 4 = 0 ∧
    optimizedRowVisits 1000 2 4 = ([], false) ∧
    optimizedParallelMultiply 1000 exampleJunk 4 exampleA exampleB exampleR 2
      exampleT0 exampleT1 = none :=
  ⟨⟨by decide, by decide, by decide, by decide⟩,
    chunk_zero_visits_no_row 2 4 (by decide) (by decide) (by decide) (by decide) 1000
      exampleJunk exampleA exampleB exampleR exampleT0 exampleT1⟩


/-- With rows to compute and a chunk size that is not positive, no interleaving of the
workers of `optimizedParallelMultiply` changes anything. -/
theorem optimizedStart_stuck [Add α] [Mul α] [Zero α] (junk : Nat → Nat → α)
    (wjunk : Nat → Nat → Nat → α) (n_thread : Int) (A B R : JaggedMatrix α) (dimension : Int)
    (owner : Nat → Nat) (reg0 : Nat → α)
    (h : 0 < dimension ∧ chunkSize dimension n_thread ≤ 0) (schedule : List Nat) :
    runSchedule schedule (optimizedStart junk wjunk n_thread A B R dimension owner reg0)
      = { workers := fun w => { todo := [Op.request], reg := reg0 w },
          shared := R,
          log := [] } := by
  rw [optimizedStart_of_empty_chunks junk wjunk n_thread A B R dimension owner reg0 h]
  exact runSchedule_of_requests schedule _ (fun _ => rfl)

/-- Any interleaving of the workers of `optimizedParallelMultiply` once the rows have been
handed out; the private copies of all workers hold the same values. -/
theorem optimized_interleaving [Add α] [Mul α] [Zero α] (junk : Nat → Nat → α)
    (wjunk : Nat → Nat → Nat → α) (n_thread : Int) (A B R : JaggedMatrix α) (n : Nat)
    (hR : IsSquare R n) (owner : Nat → Nat) (reg0 : Nat → α)
    (h : ¬ (0 < (n : Int) ∧ chunkSize (n : Int) n_thread ≤ 0)) (schedule : List Nat) :
    IsSquare (runSchedule schedule
      (optimizedStart junk wjunk n_thread A B R (n : Int) owner reg0)).shared n ∧
    (∀ e, e ∈ (runSchedule schedule
        (optimizedStart junk wjunk n_thread A B R (n : Int) owner reg0)).log →
      e.row < n ∧ e.col < n ∧ owner e.row = e.worker) ∧
    (Finished owner n (runSchedule schedule
        (optimizedStart junk wjunk n_thread A B R (n : Int) owner reg0)) →
      ∀ p q, p < n → q < n →
        readCell (runSchedule schedule
          (optimizedStart junk wjunk n_thread A B R (n : Int) owner reg0)).shared p q
          = forLoop (n : Int) (fun k tot =>
              tot + loadFlat (copyOf (junk 2) (rowMajor (junk 0) A (n : Int))
                  (intMul (n : Int) (n : Int))) (intAdd (intMul (n : Int) (p : Int)) (k : Int))
                * loadFlat (copyOf (junk 3) (columnMajor (junk 1) B (n : Int))
                  (intMul (n : Int) (n : Int))) (intAdd (intMul (n : Int) (q : Int)) (k : Int)))
              0) := by
  rw [optimizedStart_of_handout junk wjunk n_thread A B R (n : Int) owner reg0 h]
  obtain ⟨hsq, hlog, hfin⟩ := interleaving_spec
    (fun w i => optimizedRowOps
      (copyOf (wjunk w 2) (rowMajor (junk 0) A (n : Int)) (intMul (n : Int) (n : Int)))
      (copyOf (wjunk w 3) (columnMajor (junk 1) B (n : Int)) (intMul (n : Int) (n : Int)))
      (n : Int) i)
    (fun w p q _ => forLoop (n : Int) (fun k tot =>
      tot + loadFlat (copyOf (wjunk w 2) (rowMajor (junk 0) A (n : Int))
          (intMul (n : Int) (n : Int))) (intAdd (intMul (n : Int) (p : Int)) (k : Int))
        * loadFlat (copyOf (wjunk w 3) (columnMajor (junk 1) B (n : Int))
          (intMul (n : Int) (n : Int))) (intAdd (intMul (n : Int) (q : Int)) (k : Int))) 0)
    reg0 owner n R hR (fun _ i op hop => optimizedRowOps_target _ _ n i op hop)
    (fun w i m r hi hm p q hp hq => optimizedRowOps_cells _ _ n i m r hi hm p q hp hq)
    schedule
  refine ⟨hsq, hlog, fun hf p q hp hq => ?_⟩
  rw [hfin hf p q hp hq, copyOf_junk (wjunk (owner p) 2) (junk 2),
    copyOf_junk (wjunk (owner p) 3) (junk 3)]

/-- Any interleaving of the workers of `parallelMultiply`. -/
theorem parallel_interleaving [Add α] [Mul α] [Zero α] (A B R : JaggedMatrix α) (n : Nat)
    (hR : IsSquare R n) (owner : Nat → Nat) (reg0 : Nat → α) (t0 t1 : Timeval)
    (schedule : List Nat) :
    (∀ e, e ∈ (runSchedule schedule (parallelStart A B R (n : Int) owner reg0)).log →
      e.row < n ∧ e.col < n ∧ owner e.row = e.worker) ∧
    (Finished owner n (runSchedule schedule (parallelStart A B R (n : Int) owner reg0)) →
      (runSchedule schedule (parallelStart A B R (n : Int) owner reg0)).shared
        = (parallelMultiply A B R (n : Int) t0 t1).1) := by
  obtain ⟨psq, plog, pfin⟩ := interleaving_spec
    (fun _ i => parallelRowOps A B (n : Int) i) (fun _ p q r => dotFrom r A B p q n)
    reg0 owner n R hR (fun _ i op h => parallelRowOps_target A B n i op h)
    (fun _ i m r hi hm p q hp hq => parallelRowOps_cells A B n i m r hi hm p q hp hq) schedule
  refine ⟨plog, fun hfin => ?_⟩
  have hs := sequential_spec A B R n hR t0 t1
  rw [parallel_eq_sequential]
  refine jaggedMatrix_ext _ _ n psq hs.1 (fun p q hp hq => ?_)
  rw [hs.2 p q hp hq]
  exact pfin hfin p q hp hq

/-- Some interleaving lets every worker of `parallelMultiply` finish. -/
theorem parallel_finishes [Add α] [Mul α] [Zero α] (A B R : JaggedMatrix α) (n : Nat)
    (owner : Nat → Nat) (reg0 : Nat → α) :
    ∃ schedule : List Nat,
      Finished owner n (runSchedule schedule (parallelStart A B R (n : Int) owner reg0)) :=
  (startConfig_finishes (fun _ i => parallelRowOps A B (n : Int) i) reg0 owner n R
    (fun _ i op h => parallelRowOps_access A B n i op h)).2

/-- C8: in `parallelMultiply` and `optimizedParallelMultiply` (with `n_thread ≥ 1` threads
counted), for every assignment `owner` of the rows `0 .. n-1` to workers and every
interleaving `schedule` of the workers' steps, every store to `Result` made by a worker
goes to a row that worker owns, so two stores to the same row are always by the same
worker; and any two runs under which all workers finish leave the same `Result`, whatever
the two assignments and the two interleavings.  For `parallelMultiply` some interleaving
finishes, and a finished one leaves what the function returns.  For
`optimizedParallelMultiply` the same holds when the chunk size is at least one (within the
range of `int`, `n ≤ 46340`, the finished `Result` is what the function returns); with rows
to compute and a chunk size that is not positive no worker ever stores or finishes. -/
theorem rows_disjoint_schedule_independent [Add α] [Mul α] [Zero α] (n : Nat)
    (A B R : JaggedMatrix α) (hR : IsSquare R n)
    (owner owner2 : Nat → Nat) (reg0 : Nat → α) (junk : Nat → Nat → α)
    (wjunk : Nat → Nat → Nat → α) (n_thread : Int) (hw : 1 ≤ n_thread) (t0 t1 : Timeval)
    (schedule schedule2 : List Nat) :
    ((∀ e, e ∈ (runSchedule schedule (parallelStart A B R (n : Int) owner reg0)).log →
        e.row < n ∧ e.col < n ∧ owner e.row = e.worker) ∧
      (∀ e1 e2, e1 ∈ (runSchedule schedule (parallelStart A B R (n : Int) owner reg0)).log →
        e2 ∈ (runSchedule schedule (parallelStart A B R (n : Int) owner reg0)).log →
        e1.row = e2.row → e1.worker = e2.worker) ∧
      (Finished owner n (runSchedule schedule (parallelStart A B R (n : Int) owner reg0)) →
        Finished owner2 n (runSchedule schedule2 (parallelStart A B R (n : Int) owner2 reg0)) →
        (runSchedule schedule (parallelStart A B R (n : Int) owner reg0)).shared
          = (runSchedule schedule2 (parallelStart A B R (n : Int) owner2 reg0)).shared) ∧
      (Finished owner n (runSchedule schedule (parallelStart A B R (n : Int) owner reg0)) →
        (runSchedule schedule (parallelStart A B R (n : Int) owner reg0)).shared
          = (parallelMultiply A B R (n : Int) t0 t1).1) ∧
      (∃ s : List Nat,
        Finished owner n (runSchedule s (parallelStart A B R (n : Int) owner reg0)))) ∧
    ((∀ e, e ∈ (runSchedule schedule
          (optimizedStart junk wjunk n_thread A B R (n : Int) owner reg0)).log →
        e.row < n ∧ e.col < n ∧ owner e.row = e.worker) ∧
      (∀ e1 e2,
        e1 ∈ (runSchedule schedule
          (optimizedStart junk wjunk n_thread A B R (n : Int) owner reg0)).log →
        e2 ∈ (runSchedule schedule
          (optimizedStart junk wjunk n_thread A B R (n : Int) owner reg0)).log →
        e1.row = e2.row → e1.worker = e2.worker) ∧
      (Finished owner n (runSchedule schedule
          (optimizedStart junk wjunk n_thread A B R (n : Int) owner reg0)) →
        Finished owner2 n (runSchedule schedule2
          (optimizedStart junk wjunk n_thread A B R (n : Int) owner2 reg0)) →
        (runSchedule schedule
            (optimizedStart junk wjunk n_thread A B R (n : Int) owner reg0)).shared
          = (runSchedule schedule2
            (optimizedStart junk wjunk n_thread A B R (n : Int) owner2 reg0)).shared) ∧
      (n ≤ 46340 →
        Finished owner n (runSchedule schedule
          (optimizedStart junk wjunk n_thread A B R (n : Int) owner reg0)) →
        ∀ fuel, n < fuel →
          optimizedParallelMultiply fuel junk n_thread A B R (n : Int) t0 t1
            = some ((runSchedule schedule
                (optimizedStart junk wjunk n_thread A B R (n : Int) owner reg0)).shared,
              elapsedSeconds t0 t1)) ∧
      (1 ≤ chunkSize (n : Int) n_thread →
        ∃ s : List Nat, Finished owner n (runSchedule s
          (optimizedStart junk wjunk n_thread A B R (n : Int) owner reg0))) ∧
      (0 < n → chunkSize (n : Int) n_thread ≤ 0 →
        ¬ Finished owner n (runSchedule schedule
            (optimizedStart junk wjunk n_thread A B R (n : Int) owner reg0)) ∧
          (runSchedule schedule
            (optimizedStart junk wjunk n_thread A B R (n : Int) owner reg0)).log = [])) := by
  obtain ⟨plog, pfin⟩ := parallel_interleaving A B R n hR owner reg0 t0 t1 schedule
  obtain ⟨-, pfin2⟩ := parallel_interleaving A B R n hR owner2 reg0 t0 t1 schedule2
  refine ⟨⟨plog, fun e1 e2 h1 h2 he => ?_, fun hf1 hf2 => ?_, pfin,
    parallel_finishes A B R n owner reg0⟩, ?_⟩
  · rw [← (plog e1 h1).2.2, ← (plog e2 h2).2.2, he]
  · rw [pfin hf1, pfin2 hf2]
  by_cases hspin : 0 < (n : Int) ∧ chunkSize (n : Int) n_thread ≤ 0
  · have hrun := optimizedStart_stuck junk wjunk n_thread A B R (n : Int) owner reg0 hspin
    have hn : 0 < n := by exact_mod_cast hspin.1
    have hnot : ∀ s, ¬ Finished owner n (runSchedule s
        (optimizedStart junk wjunk n_thread A B R (n : Int) owner reg0)) := by
      intro s hf
      have h0 := hf 0 hn
      rw [hrun s] at h0
      exact absurd h0 (by simp)
    refine ⟨fun e he => ?_, fun e1 e2 h1 => ?_, fun hf => absurd hf (hnot schedule),
      fun _ hf => absurd hf (hnot schedule), fun hc => ?_, fun _ _ => ⟨hnot schedule, ?_⟩⟩
    · rw [hrun schedule] at he
      exact absurd he (List.not_mem_nil e)
    · rw [hrun schedule] at h1
      exact absurd h1 (List.not_mem_nil e1)
    · exact absurd hspin.2 (by omega)
    · rw [hrun schedule]
  · obtain ⟨osq, olog, ofin⟩ :=
      optimized_interleaving junk wjunk n_thread A B R n hR owner reg0 hspin schedule
    obtain ⟨osq2, -, ofin2⟩ :=
      optimized_interleaving junk wjunk n_thread A B R n hR owner2 reg0 hspin schedule2
    refine ⟨olog, fun e1 e2 h1 h2 he => ?_, fun hf1 hf2 => ?_, fun hb hf fuel hfuel => ?_,
      fun _ => ?_, fun hn hc => absurd ⟨by exact_mod_cast hn, hc⟩ hspin⟩
    · rw [← (olog e1 h1).2.2, ← (olog e2 h2).2.2, he]
    · refine jaggedMatrix_ext _ _ n osq osq2 (fun p q hp hq => ?_)
      rw [ofin hf1 p q hp hq, ofin2 hf2 p q hp hq]
    · have hc : 1 ≤ chunkSize (n : Int) n_thread ∨ n = 0 := by
        by_cases h0 : n = 0
        · exact Or.inr h0
        · refine Or.inl ?_
          by_contra hlt
          exact hspin ⟨by exact_mod_cast Nat.pos_of_ne_zero h0, by omega⟩
      obtain ⟨res, hres, hsq, hcells⟩ :=
        optimized_spec_chunk junk n_thread A B R n hb hc hR t0 t1 fuel hfuel
      have hsame : (runSchedule schedule
          (optimizedStart junk wjunk n_thread A B R (n : Int) owner reg0)).shared = res := by
        refine jaggedMatrix_ext _ _ n osq hsq (fun p q hp hq => ?_)
        rw [ofin hf p q hp hq, hcells p q hp hq]
        exact totLoop_spec (junk 0) (junk 1) (junk 2) (junk 3) A B n p q
          hb hp hq n (Nat.le_refl n)
      rw [hres, hsame]
    · rw [optimizedStart_of_handout junk wjunk n_thread A B R (n : Int) owner reg0 hspin]
      exact (startConfig_finishes _ reg0 owner n R
        (fun _ i op hop => optimizedRowOps_access _ _ n i op hop)).2


set_option maxRecDepth 1000000 in
/-- Witness of C8.  At dimension 5 with one thread counted (chunk size 1) and two workers,
two different assignments of the rows under two different interleavings both finish and
leave the same `Result`, which is what the functions return.  At dimension 2 with four
threads counted (chunk size 0) the workers of `optimizedParallelMultiply` store nothing and
do not finish. -/
theorem rows_disjoint_schedule_independent_witness :
    (IsSquare exampleR5 5 ∧ (1 : Int) ≤ 1 ∧ IsSquare exampleR 2 ∧ (1 : Int) ≤ 4) ∧
    (Finished exampleOwner 5 (runSchedule exampleTurns
        (parallelStart exampleA5 exampleB5 exampleR5 ((5 : Nat) : Int) exampleOwner exampleReg)) ∧
      Finished exampleOwnerSwapped 5 (runSchedule exampleOneByOne
        (parallelStart exampleA5 exampleB5 exampleR5 ((5 : Nat) : Int) exampleOwnerSwapped
          exampleReg)) ∧
      Finished exampleOwner 5 (runSchedule exampleTurns
        (optimizedStart exampleJunk exampleWorkerJunk 1 exampleA5 exampleB5 exampleR5
          ((5 : Nat) : Int) exampleOwner exampleReg)) ∧
      Finished exampleOwnerSwapped 5 (runSchedule exampleOneByOne
        (optimizedStart exampleJunk exampleWorkerJunk 1 exampleA5 exampleB5 exampleR5
          ((5 : Nat) : Int) exampleOwnerSwapped exampleReg))) ∧
    (runSchedule exampleTurns
        (parallelStart exampleA5 exampleB5 exampleR5 ((5 : Nat) : Int) exampleOwner
          exampleReg)).shared
      = #[#[23, 18, 13, 12, 14], #[11, 12, 10, 13, 13], #[14, 9, 12, 10, 8],
          #[18, 11, 9, 13, 11], #[11, 13, 8, 8, 11]] ∧
    (runSchedule exampleTurns
        (optimizedStart exampleJunk exampleWorkerJunk 1 exampleA5 exampleB5 exampleR5
          ((5 : Nat) : Int) exampleOwner exampleReg)).shared
      = #[#[14, 9, 4, 3, 5], #[3, 4, 2, 5, 5], #[7, 2, 5, 3, 1], #[12, 5, 3, 7, 5],
          #[6, 8, 3, 3, 6]] ∧
    (runSchedule exampleTurns
        (parallelStart exampleA5 exampleB5 exampleR5 ((5 : Nat) : Int) exampleOwner
          exampleReg)).shared
      = (runSchedule exampleOneByOne
        (parallelStart exampleA5 exampleB5 exampleR5 ((5 : Nat) : Int) exampleOwnerSwapped
          exampleReg)).shared ∧
    (runSchedule exampleTurns
        (parallelStart exampleA5 exampleB5 exampleR5 ((5 : Nat) : Int) exampleOwner
          exampleReg)).shared
      = (parallelMultiply exampleA5 exampleB5 exampleR5 ((5 : Nat) : Int) exampleT0
          exampleT1).1 ∧
    (runSchedule exampleTurns
        (optimizedStart exampleJunk exampleWorkerJunk 1 exampleA5 exampleB5 exampleR5
          ((5 : Nat) : Int) exampleOwner exampleReg)).shared
      = (runSchedule exampleOneByOne
        (optimizedStart exampleJunk exampleWorkerJunk 1 exampleA5 exampleB5 exampleR5
          ((5 : Nat) : Int) exampleOwnerSwapped exampleReg)).shared ∧
    optimizedParallelMultiply 6 exampleJunk 1 exampleA5 exampleB5 exampleR5 ((5 : Nat) : Int)
        exampleT0 exampleT1
      = some ((runSchedule exampleTurns
          (optimizedStart exampleJunk exampleWorkerJunk 1 exampleA5 exampleB5 exampleR5
            ((5 : Nat) : Int) exampleOwner exampleReg)).shared,
        elapsedSeconds exampleT0 exampleT1) ∧
    (¬ Finished exampleOwner 2 (runSchedule exampleSchedule
        (optimizedStart exampleJunk exampleWorkerJunk 4 exampleA exampleB exampleR
          ((2 : Nat) : Int) exampleOwner exampleReg)) ∧
      (runSchedule exampleSchedule
        (optimizedStart exampleJunk exampleWorkerJunk 4 exampleA exampleB exampleR
          ((2 : Nat) : Int) exampleOwner exampleReg)).log = []) := by
  have h5 := rows_disjoint_schedule_independent 5 exampleA5 exampleB5 exampleR5 (by decide)
    exampleOwner exampleOwnerSwapped exampleReg exampleJunk exampleWorkerJunk 1 (by decide)
    exampleT0 exampleT1 exampleTurns exampleOneByOne
  have h2 := rows_disjoint_schedule_independent 2 exampleA exampleB exampleR (by decide)
    exampleOwner exampleOwner exampleReg exampleJunk exampleWorkerJunk 4 (by decide) exampleT0
    exampleT1 exampleSchedule exampleSchedule
  have f1 : Finished exampleOwner 5 (runSchedule exampleTurns
      (parallelStart exampleA5 exampleB5 exampleR5 ((5 : Nat) : Int) exampleOwner
        exampleReg)) := by decide
  have f2 : Finished exampleOwnerSwapped 5 (runSchedule exampleOneByOne
      (parallelStart exampleA5 exampleB5 exampleR5 ((5 : Nat) : Int) exampleOwnerSwapped
        exampleReg)) := by decide
  have f3 : Finished exampleOwner 5 (runSchedule exampleTurns
      (optimizedStart exampleJunk exampleWorkerJunk 1 exampleA5 exampleB5 exampleR5
        ((5 : Nat) : Int) exampleOwner exampleReg)) := by decide
  have f4 : Finished exampleOwnerSwapped 5 (runSchedule exampleOneByOne
      (optimizedStart exampleJunk exampleWorkerJunk 1 exampleA5 exampleB5 exampleR5
        ((5 : Nat) : Int) exampleOwnerSwapped exampleReg)) := by decide
  exact ⟨⟨by decide, by decide, by decide, by decide⟩, ⟨f1, f2, f3, f4⟩, by decide, by decide,
    h5.1.2.2.1 f1 f2, h5.1.2.2.2.1 f1, h5.2.2.2.1 f3 f4,
    h5.2.2.2.2.1 (by decide) f3 6 (by decide),
    h2.2.2.2.2.2.2 (by decide) (by decide)⟩

/-! ## The three engines side by side -/

end MatMul
